import Mathlib

/-!
The unified transport and response envelope layer of go-atlassian.

A shallow embedding of the transport core of the repository and of the services
built on it:

* `jira/agile/api_client_impl.go` (`New`, `Client.NewRequest`, `Client.NewFormRequest`,
  `Client.Call`, `Client.TransformTheHTTPResponse`, `Client.TransformStructToReader`),
* `jira/v3/api_client_impl.go` (`NewV2`, `ClientV2.NewRequest`,
  `ClientV2.NewFormRequest`, `ClientV2.Call`, `ClientV2.TransformTheHTTPResponse`,
  `ClientV2.TransformStructToReader`),
* `jira/sm/internal/authentication_impl.go` (`AuthenticationService`),
* the service constructors, and of the services `jira/agile/internal/sprint_impl.go`
  (`Issues`, `Start`, `Close`), `jira/sm/internal/participant_impl.go`,
  `jira/internal/metadata_impl.go` (`Create`), `jira/internal/issue_impl.go`
  (`deleteIssue`, `assignIssue`, `sendNotification`, `getTransitions`) and
  `confluence/contentRestrictionOperationGroup.go`.

Go byte slices are lists of byte values. The strings held by the values that are
encoded to and decoded from JSON are byte sequences, which need not be valid UTF-8;
the strings of the program text (methods, header names, endpoints, versions) are
Lean strings. A Go `nil` of pointer or interface type is `none`, and a run-time
panic (a nil dereference) is the outcome `Run.panics`.

The client functions take the packages `encoding/json` and `net/url` as parameters
(`JSONCodec`, `NetURL`), so what is proved of them holds whatever these packages do.
`encodingJSON` implements `json.Marshal` and `json.Unmarshal` for booleans, integers,
strings, slices of strings and structs of these; `netURL` implements `url.Parse`,
`URL.ResolveReference` and `URL.String` for URLs without percent escapes and user
information.

A service method runs against the interface `service.Client`: its run (`Traced`)
records the calls it makes on the client, in their order, and how it ends.
-/

namespace GoAtlassian

/-! ## Basic Go data -/

/-- A byte slice: the contents of a `[]byte`, a `bytes.Buffer` or an `io.Reader`. -/
abbrev Bytes := List Nat

/-- Go `error` values. All but the last are sentinels of `pkg/infra/models` that the
transport core, the service constructors and the services return; `other` stands for
every error produced by a collaborator (the transport, the body reader, `net/url`,
`net/http`, `encoding/json`) or made on the spot with `errors.New`. -/
inductive Error where
  | ErrInvalidStatusCodeError
  | ErrNilPayloadError
  | ErrNonPayloadPointerError
  | ErrNoVersionProvided
  | ErrNoSprintIDError
  | ErrNoIssueKeyOrIDError
  | ErrNoAccountSliceError
  | ErrNoAccountIDError
  | ErrNoContentIDError
  | ErrNoContentRestrictionKeyError
  | ErrNoConfluenceGroupError
  | other (msg : String)
  deriving DecidableEq, Repr

/-- Outcome of running a Go function: it either panics or returns. -/
inductive Run (α : Type) where
  | panics : Run α
  | returns (a : α) : Run α
  deriving DecidableEq, Repr

/-! ## UTF-8 (`unicode/utf8`) and base64 (`encoding/base64`) -/

/-- The UTF-8 encoding of one code point, as `utf8.EncodeRune` writes it. -/
def utf8EncodeChar (c : Char) : Bytes :=
  let n := c.toNat
  if n < 0x80 then [n]
  else if n < 0x800 then [0xC0 + n / 0x40, 0x80 + n % 0x40]
  else if n < 0x10000 then [0xE0 + n / 0x1000, 0x80 + n / 0x40 % 0x40, 0x80 + n % 0x40]
  else [0xF0 + n / 0x40000, 0x80 + n / 0x1000 % 0x40, 0x80 + n / 0x40 % 0x40, 0x80 + n % 0x40]

/-- The bytes of a Go string (`[]byte(s)`). -/
def bytesOf (s : String) : Bytes :=
  s.data.flatMap utf8EncodeChar

/-- The function `utf8.DecodeRune`: the code point at the head of the bytes and the
number of bytes it takes; an invalid or truncated sequence yields U+FFFD and takes
one byte. -/
def decodeRune : Bytes → Nat × Nat
  | [] => (0xFFFD, 1)
  | b0 :: rest =>
    if b0 < 0x80 then (b0, 1)
    else if b0 < 0xC2 then (0xFFFD, 1)
    else if b0 < 0xE0 then
      match rest with
      | b1 :: _ =>
        if 0x80 ≤ b1 ∧ b1 < 0xC0 then ((b0 - 0xC0) * 0x40 + (b1 - 0x80), 2) else (0xFFFD, 1)
      | _ => (0xFFFD, 1)
    else if b0 < 0xF0 then
      match rest with
      | b1 :: b2 :: _ =>
        let lo := if b0 = 0xE0 then 0xA0 else 0x80
        let hi := if b0 = 0xED then 0xA0 else 0xC0
        if lo ≤ b1 ∧ b1 < hi ∧ 0x80 ≤ b2 ∧ b2 < 0xC0 then
          ((b0 - 0xE0) * 0x1000 + (b1 - 0x80) * 0x40 + (b2 - 0x80), 3)
        else (0xFFFD, 1)
      | _ => (0xFFFD, 1)
    else if b0 < 0xF5 then
      match rest with
      | b1 :: b2 :: b3 :: _ =>
        let lo := if b0 = 0xF0 then 0x90 else 0x80
        let hi := if b0 = 0xF4 then 0x90 else 0xC0
        if lo ≤ b1 ∧ b1 < hi ∧ 0x80 ≤ b2 ∧ b2 < 0xC0 ∧ 0x80 ≤ b3 ∧ b3 < 0xC0 then
          ((b0 - 0xF0) * 0x40000 + (b1 - 0x80) * 0x1000 + (b2 - 0x80) * 0x40 + (b3 - 0x80), 4)
        else (0xFFFD, 1)
      | _ => (0xFFFD, 1)
    else (0xFFFD, 1)

/-- The text of a byte slice read rune by rune; `skip` counts the bytes of the
current rune still to pass over. -/
def utf8DecodeFrom : Nat → Bytes → List Char
  | _, [] => []
  | skip + 1, _ :: rest => utf8DecodeFrom skip rest
  | 0, b0 :: rest =>
      Char.ofNat (decodeRune (b0 :: rest)).1 ::
        utf8DecodeFrom ((decodeRune (b0 :: rest)).2 - 1) rest

/-- The text of a byte slice, every invalid byte read as U+FFFD. -/
def utf8Decode (data : Bytes) : List Char :=
  utf8DecodeFrom 0 data

/-- The runes of a Go string as `utf8.DecodeRuneInString` reads them one after the
other: the code point, and whether it stands for a byte that is not valid UTF-8
(`utf8.RuneError` with width 1); `skip` counts the bytes of the current rune still
to pass over. -/
def runesFrom : Nat → Bytes → List (Char × Bool)
  | _, [] => []
  | skip + 1, _ :: rest => runesFrom skip rest
  | 0, b0 :: rest =>
      (Char.ofNat (decodeRune (b0 :: rest)).1,
        decide ((decodeRune (b0 :: rest)).1 = 0xFFFD ∧ (decodeRune (b0 :: rest)).2 = 1)) ::
        runesFrom ((decodeRune (b0 :: rest)).2 - 1) rest

/-- The text of a Go string, every byte that is not valid UTF-8 read as U+FFFD. -/
def goText (s : Bytes) : String :=
  String.mk (utf8Decode s)

/-- The function `utf8.Valid`: the bytes are the UTF-8 encoding of their text. -/
def validUTF8 (s : Bytes) : Bool :=
  bytesOf (goText s) == s

/-- The alphabet of `base64.StdEncoding`. -/
def b64Char (n : Nat) : Char :=
  if n < 26 then Char.ofNat (65 + n)
  else if n < 52 then Char.ofNat (97 + (n - 26))
  else if n < 62 then Char.ofNat (48 + (n - 52))
  else if n = 62 then '+'
  else '/'

/-- The function `base64.StdEncoding.EncodeToString` on a byte list: three bytes
become four characters, a final group of one or two bytes is padded with `=`. -/
def base64Chars : Bytes → List Char
  | a :: b :: c :: rest =>
      b64Char (a / 4) :: b64Char (a % 4 * 16 + b / 16) :: b64Char (b % 16 * 4 + c / 64)
        :: b64Char (c % 64) :: base64Chars rest
  | [a, b] => [b64Char (a / 4), b64Char (a % 4 * 16 + b / 16), b64Char (b % 16 * 4), '=']
  | [a] => [b64Char (a / 4), b64Char (a % 4 * 16), '=', '=']
  | [] => []

/-- The Go call `base64.StdEncoding.EncodeToString([]byte(s))`. -/
def base64 (s : String) : String :=
  String.mk (base64Chars (bytesOf s))

/-! ## `net/http` headers, requests and responses -/

/-- An `http.Header`: a map from canonical header names to their values. -/
abbrev Header := String → Option (List String)

/-- The header map `make(http.Header)` of a new request. -/
def Header.empty : Header := fun _ => none

/-- Upper-case the first letter and every letter after a hyphen, lower-case the rest. -/
def canonicalChars : Bool → List Char → List Char
  | _, [] => []
  | upper, c :: cs =>
      (if upper then c.toUpper else c.toLower) :: canonicalChars (c == '-') cs

/-- The characters allowed in an HTTP token (`httpguts.IsTokenRune`). -/
def isTokenChar (c : Char) : Bool :=
  c.isAlphanum || "!#$%&'*+-.^_`|~".data.contains c

/-- The function `textproto.CanonicalMIMEHeaderKey`: a key holding a character that is not a
token character is returned unchanged. -/
def canonicalMIMEHeaderKey (key : String) : String :=
  if key.data.all isTokenChar then String.mk (canonicalChars true key.data) else key

/-- The method `Header.Set`: replaces the values of the key by the single value. -/
def Header.Set (h : Header) (key value : String) : Header :=
  fun k => if k = canonicalMIMEHeaderKey key then some [value] else h k

/-- The method `Header.Add`: appends the value to the values of the key. -/
def Header.Add (h : Header) (key value : String) : Header :=
  fun k => if k = canonicalMIMEHeaderKey key then some ((h k).getD [] ++ [value]) else h k

/-- The fields of `url.URL`. -/
structure URL where
  Scheme : String := ""
  Opaque : String := ""
  User : Option String := none
  Host : String := ""
  Path : String := ""
  RawPath : String := ""
  ForceQuery : Bool := false
  RawQuery : String := ""
  Fragment : String := ""
  deriving DecidableEq, Repr

/-- The functions of `net/url` the client calls. -/
structure NetURL where
  Parse : String → Except Error URL
  ResolveReference : URL → URL → URL
  String : URL → String

/-! ### `net/url` for URLs written without percent escapes and user information -/

/-- The function `strings.Cut` for a one-character separator. -/
def cutAt (sep : Char) : List Char → List Char × List Char × Bool
  | [] => ([], [], false)
  | c :: cs =>
    if c = sep then ([], cs, true)
    else ((c :: (cutAt sep cs).1), (cutAt sep cs).2.1, (cutAt sep cs).2.2)

/-- The function `getScheme` of `net/url`, at position `i` of the raw text: yields
the scheme and the text after its colon, or no scheme and the whole text. -/
def getSchemeFrom (raw : List Char) : Nat → List Char → Except Error (List Char × List Char)
  | _, [] => .ok ([], raw)
  | i, c :: cs =>
    if c.isAlpha then getSchemeFrom raw (i + 1) cs
    else if c.isDigit || c == '+' || c == '-' || c == '.' then
      if i = 0 then .ok ([], raw) else getSchemeFrom raw (i + 1) cs
    else if c == ':' then
      if i = 0 then .error (.other "missing protocol scheme") else .ok (raw.take i, cs)
    else .ok ([], raw)

/-- The function `parse` of `net/url` (not via a request) on the text before the
fragment. -/
def parseNoFragment (raw : List Char) : Except Error URL :=
  if raw.any (fun c => c.toNat < 32 || c.toNat == 127) then
    .error (.other "net/url: invalid control character in URL")
  else if raw = ['*'] then .ok { Path := "*" }
  else
    match getSchemeFrom raw 0 raw with
    | .error err => .error err
    | .ok (scheme, rest) =>
      let scheme := scheme.map Char.toLower
      let forceQuery := rest.getLast? = some '?' && rest.count '?' == 1
      let rest1 := if forceQuery then rest.dropLast else (cutAt '?' rest).1
      let rawQuery := if forceQuery then [] else (cutAt '?' rest).2.1
      if rest1.head? ≠ some '/' ∧ ¬ scheme.isEmpty then
        .ok { Scheme := String.mk scheme, Opaque := String.mk rest1, ForceQuery := forceQuery,
              RawQuery := String.mk rawQuery }
      else if rest1.head? ≠ some '/' ∧ (cutAt '/' rest1).1.contains ':' then
        .error (.other "first path segment in URL cannot contain colon")
      else if (¬ scheme.isEmpty ∨ rest1.take 3 ≠ ['/', '/', '/']) ∧ rest1.take 2 = ['/', '/'] then
        let authority := (rest1.drop 2).takeWhile (· ≠ '/')
        let path := (rest1.drop 2).dropWhile (· ≠ '/')
        .ok { Scheme := String.mk scheme, Host := String.mk authority, Path := String.mk path,
              ForceQuery := forceQuery, RawQuery := String.mk rawQuery }
      else
        .ok { Scheme := String.mk scheme, Path := String.mk rest1, ForceQuery := forceQuery,
              RawQuery := String.mk rawQuery }

/-- The function `url.Parse`, for a text without percent escapes and user
information, whose host and port are well formed: the host, the port and the
escapes are not validated here. -/
def urlParse (rawURL : String) : Except Error URL :=
  match parseNoFragment (cutAt '#' rawURL.data).1 with
  | .error err => .error err
  | .ok u => .ok { u with Fragment := String.mk (cutAt '#' rawURL.data).2.1 }

/-- The method `URL.String`, for a URL whose path and fragment hold no character
that `URL.String` would percent-escape: they are printed as they are. -/
def urlString (u : URL) : String :=
  let scheme := if u.Scheme = "" then "" else u.Scheme ++ ":"
  let body :=
    if u.Opaque ≠ "" then u.Opaque
    else
      let authority :=
        if u.Scheme ≠ "" ∨ u.Host ≠ "" then
          (if u.Host ≠ "" ∨ u.Path ≠ "" then "//" else "") ++ u.Host
        else ""
      let slash := if u.Path ≠ "" ∧ u.Path.data.head? ≠ some '/' ∧ u.Host ≠ "" then "/" else ""
      let dot :=
        if scheme = "" ∧ authority = "" ∧ slash = "" ∧ (cutAt '/' u.Path.data).1.contains ':'
        then "./" else ""
      authority ++ slash ++ dot ++ u.Path
  let query := if u.ForceQuery ∨ u.RawQuery ≠ "" then "?" ++ u.RawQuery else ""
  let fragment := if u.Fragment ≠ "" then "#" ++ u.Fragment else ""
  scheme ++ body ++ query ++ fragment

/-- The text up to and including its last slash (`base[:strings.LastIndex(base, "/")+1]`). -/
def dirOf (base : List Char) : List Char :=
  (base.reverse.dropWhile (· ≠ '/')).reverse

/-- The loop of `resolvePath`: `dst` is the text written after the leading slash,
`first` tells that no element has been written since the last reset. -/
def resolveElems : List (List Char) → List Char → Bool → List Char
  | [], dst, _ => dst
  | elem :: rest, dst, first =>
    if elem = ['.'] then resolveElems rest dst false
    else if elem = ['.', '.'] then
      if dst.contains '/' then resolveElems rest (dirOf dst).dropLast first
      else resolveElems rest [] true
    else resolveElems rest (dst ++ (if first then [] else ['/']) ++ elem) false

/-- The function `resolvePath` of `net/url`: joins the reference to the directory
of the base and removes the dot segments. -/
def resolvePath (base ref : List Char) : List Char :=
  let full :=
    if ref.isEmpty then base
    else if ref.head? ≠ some '/' then dirOf base ++ ref
    else ref
  if full.isEmpty then []
  else
    let elems := full.splitOn '/'
    let dst := resolveElems elems [] true
    let dst := if elems.getLast? = some ['.'] ∨ elems.getLast? = some ['.', '.'] then dst ++ ['/'] else dst
    if dst.head? = some '/' then dst else '/' :: dst

/-- The method `URL.ResolveReference`. -/
def urlResolveReference (u ref : URL) : URL :=
  let scheme := if ref.Scheme = "" then u.Scheme else ref.Scheme
  if ref.Scheme ≠ "" ∨ ref.Host ≠ "" ∨ ref.User.isSome then
    { ref with Scheme := scheme, Path := String.mk (resolvePath ref.Path.data []), RawPath := "" }
  else if ref.Opaque ≠ "" then
    { ref with Scheme := scheme, User := none, Host := "", Path := "" }
  else
    let keep := ref.Path = "" ∧ ¬ ref.ForceQuery ∧ ref.RawQuery = ""
    let rawQuery := if keep then u.RawQuery else ref.RawQuery
    let fragment := if keep ∧ ref.Fragment = "" then u.Fragment else ref.Fragment
    if ref.Path = "" ∧ u.Opaque ≠ "" then
      { ref with Scheme := scheme, RawQuery := rawQuery, Fragment := fragment,
                 Opaque := u.Opaque, User := none, Host := "", Path := "" }
    else
      { ref with Scheme := scheme, RawQuery := rawQuery, Fragment := fragment,
                 Host := u.Host, User := u.User,
                 Path := String.mk (resolvePath u.Path.data ref.Path.data), RawPath := "" }

/-- The package `net/url`, for URLs written without percent escapes and user
information. -/
def netURL : NetURL :=
  { Parse := urlParse, ResolveReference := urlResolveReference, String := urlString }

/-- A `context.Context` value. -/
structure Context where
  cancelled : Bool := false
  deriving DecidableEq, Repr

/-- An `http.Request` as `http.NewRequestWithContext` builds it. The body is the
content of the reader handed in, `none` for a nil reader. -/
structure Request where
  ctx : Context
  Method : String
  URL : URL
  Header : Header
  Body : Option Bytes

/-- A response body as `ioutil.ReadAll` sees it: the bytes read until the end of
the stream or until the first read error. -/
structure Body where
  data : Bytes
  err : Option Error := none
  deriving DecidableEq, Repr

/-- The function `ioutil.ReadAll`. -/
def ReadAll (b : Body) : Bytes × Option Error := (b.data, b.err)

/-- An `http.Response` as a transport delivers it, with its request and body set. -/
structure Response where
  StatusCode : Int
  Request : Request
  Body : Body

/-- What the injected transport (`common.HttpClient`) returns from `Do`. -/
structure DoResult where
  response : Option Response
  err : Option Error

/-- The envelope `models.ResponseScheme`. `Bytes` is the content of its buffer. -/
structure ResponseScheme where
  Response : Option Response := none
  Code : Int := 0
  Endpoint : String := ""
  Method : String := ""
  Bytes : Bytes := []

/-- The method `bytes.Buffer.Write` on the buffer content: appends, and its error is
always nil. -/
def BufferWrite (buf p : Bytes) : Bytes × Option Error :=
  (buf ++ p, none)

/-- The function `validMethod` of `net/http`: a non-empty string of token characters. -/
def validMethod (method : String) : Bool :=
  !method.data.isEmpty && method.data.all isTokenChar

/-- The function `hasPort` of `net/http`: the last colon comes after the last `]`. -/
def hasPort : List Char → Bool
  | [] => false
  | c :: cs => hasPort cs || (c == ':' && !cs.contains ']')

/-- The function `removeEmptyPort` of `net/http`: strips a colon that ends the host. -/
def removeEmptyPort (host : String) : String :=
  if hasPort host.data && host.data.getLast? = some ':' then String.mk host.data.dropLast
  else host

/-- The function `http.NewRequestWithContext`: an empty method means GET; fails
on an invalid method, a nil context or an unparsable URL; the new request has an
empty header map. -/
def NewRequestWithContext (url : NetURL) (ctx : Option Context) (method urlStr : String)
    (body : Option Bytes) : Except Error Request :=
  let method := if method = "" then "GET" else method
  if !validMethod method then .error (.other "net/http: invalid method")
  else match ctx with
    | none => .error (.other "net/http: nil Context")
    | some ctx =>
      match url.Parse urlStr with
      | .error err => .error err
      | .ok u =>
        .ok { ctx := ctx, Method := method, URL := { u with Host := removeEmptyPort u.Host },
              Header := Header.empty, Body := body }

/-- The method `Request.SetBasicAuth` of `net/http`. -/
def Request.SetBasicAuth (r : Request) (username password : String) : Request :=
  { r with
    Header := r.Header.Set "Authorization" ("Basic " ++ base64 (username ++ ":" ++ password)) }

/-! ## The authentication strategy (`jira/sm/internal/authentication_impl.go`) -/

/-- The struct `AuthenticationService` (without its back reference to the client). -/
structure AuthenticationService where
  basicAuthProvided : Bool := false
  mail : String := ""
  token : String := ""
  userAgentProvided : Bool := false
  agent : String := ""
  experimentalProvided : Bool := false
  deriving DecidableEq, Repr

/-- The constructor `NewAuthenticationService`: every field has its zero value. -/
def NewAuthenticationService : AuthenticationService := {}

def AuthenticationService.SetExperimentalFlag (a : AuthenticationService) :
    AuthenticationService :=
  { a with experimentalProvided := true }

def AuthenticationService.HasSetExperimentalFlag (a : AuthenticationService) : Bool :=
  a.experimentalProvided

def AuthenticationService.SetBasicAuth (a : AuthenticationService) (mail token : String) :
    AuthenticationService :=
  { a with mail := mail, token := token, basicAuthProvided := true }

def AuthenticationService.GetBasicAuth (a : AuthenticationService) : String × String :=
  (a.mail, a.token)

def AuthenticationService.HasBasicAuth (a : AuthenticationService) : Bool :=
  a.basicAuthProvided

def AuthenticationService.SetUserAgent (a : AuthenticationService) (agent : String) :
    AuthenticationService :=
  { a with agent := agent, userAgentProvided := true }

def AuthenticationService.GetUserAgent (a : AuthenticationService) : String :=
  a.agent

def AuthenticationService.HasUserAgent (a : AuthenticationService) : Bool :=
  a.userAgentProvided

/-! ## Go values handed to the client as `interface{}` -/

/-- One field of a struct type: its Go name, whether the name is exported, and
what its `json:"..."` tag says: `Ignored` for the tag `-`, `JSONName` for the name
the tag gives (empty when it gives none or the field has no tag), `OmitEmpty` for
the option `omitempty`. -/
structure StructField where
  Name : String
  Exported : Bool := true
  Ignored : Bool := false
  JSONName : String := ""
  OmitEmpty : Bool := false
  deriving DecidableEq, Repr

/-- Data values: booleans, integers, strings, slices of strings (`[]string`, where
`strs none` is the nil slice) and structs of such values. A string is given by its
bytes, which need not be valid UTF-8. -/
inductive GoValue where
  | bool (b : Bool)
  | int (n : Int)
  | str (s : Bytes)
  | strs (elems : Option (List Bytes))
  | struct (fields : List (StructField × GoValue))

/-- The dynamic content of a non-nil `interface{}`: a data value passed by value, or
a pointer to one, where `pointer none` is a nil pointer of a pointer type (such as
`(*SprintPayloadScheme)(nil)`). -/
inductive Dyn where
  | value (v : GoValue)
  | pointer (pointee : Option GoValue)

/-- An `interface{}`: `none` is the untyped nil. -/
abbrev Interface := Option Dyn

/-- The kinds of `reflect` that the modelled values have. -/
inductive Kind where
  | Bool | Int | String | Slice | Struct | Ptr
  deriving DecidableEq, Repr

/-- The call `reflect.ValueOf(x).Type().Kind()` for a non-nil interface content. -/
def Dyn.Kind : Dyn → Kind
  | .value (.bool _) => .Bool
  | .value (.int _) => .Int
  | .value (.str _) => .String
  | .value (.strs _) => .Slice
  | .value (.struct _) => .Struct
  | .pointer _ => .Ptr

/-! ## `encoding/json` on the modelled values -/

/-- The double quote. -/
def quoteChar : Char := Char.ofNat 34

/-- The backslash. -/
def backslash : Char := Char.ofNat 92

/-- The JSON text of one character of a string, as `json.Marshal` writes it (with
HTML escaping): quote and backslash get a backslash, backspace, form feed, line
feed, carriage return and tab their short escapes, other control characters and
`<`, `>`, `&` the form `\u00XX`, U+2028 and U+2029 the forms `\u2028` and
`\u2029`. -/
def encodeChar (c : Char) : List Char :=
  let n := c.toNat
  if n = 34 then [backslash, quoteChar]
  else if n = 92 then [backslash, backslash]
  else if n = 8 then [backslash, 'b']
  else if n = 12 then [backslash, 'f']
  else if n = 10 then [backslash, 'n']
  else if n = 13 then [backslash, 'r']
  else if n = 9 then [backslash, 't']
  else if n < 32 ∨ n = 60 ∨ n = 62 ∨ n = 38 then
    [backslash, 'u', '0', '0', Nat.digitChar (n / 16), Nat.digitChar (n % 16)]
  else if n = 0x2028 then [backslash, 'u', '2', '0', '2', '8']
  else if n = 0x2029 then [backslash, 'u', '2', '0', '2', '9']
  else [c]

/-- The JSON text of one rune of a Go string: `\ufffd` for a byte that is not valid
UTF-8, else the text of the character. -/
def encodeRune (r : Char × Bool) : List Char :=
  if r.2 then [backslash, 'u', 'f', 'f', 'f', 'd'] else encodeChar r.1

/-- A JSON string literal, as `json.Marshal` writes it for a Go string. -/
def encodeString (s : Bytes) : List Char :=
  quoteChar :: ((runesFrom 0 s).flatMap encodeRune ++ [quoteChar])

/-- A decimal integer, as `strconv.AppendInt` writes it. -/
def encodeInt : Int → List Char
  | .ofNat m => Nat.toDigits 10 m
  | .negSucc m => '-' :: Nat.toDigits 10 (m + 1)

/-- The function `isEmptyValue` of `encoding/json`. -/
def isEmptyValue : GoValue → Bool
  | .bool b => !b
  | .int n => n == 0
  | .str s => s.isEmpty
  | .strs elems => (elems.getD []).isEmpty
  | .struct _ => false

/-- The JSON key of a field: the name of its tag, else its Go name. -/
def StructField.key (f : StructField) : String :=
  if f.JSONName = "" then f.Name else f.JSONName

/-- Whether the tag of the field names it. -/
def StructField.tagged (f : StructField) : Bool :=
  f.JSONName != ""

/-- A field that `encoding/json` considers at all: exported and not tagged `-`. -/
def StructField.candidate (f : StructField) : Bool :=
  f.Exported && !f.Ignored

/-- The fields `encoding/json` uses (`typeFields` with `dominantField`): a candidate
that is alone with its key, or the only tagged one among the candidates sharing
its key. -/
def dominant (all : List StructField) (f : StructField) : Bool :=
  f.candidate &&
    (((all.filter (fun g => g.candidate && g.key == f.key)).length == 1) ||
      (f.tagged &&
        (all.filter (fun g => g.candidate && g.key == f.key && g.tagged)).length == 1))

/-- Members joined by commas. -/
def joinMembers : List (List Char) → List Char
  | [] => []
  | [m] => m
  | m :: ms => m ++ ',' :: joinMembers ms

mutual
/-- The JSON text `json.Marshal` writes for a value. -/
def encodeValue : GoValue → List Char
  | .bool b => if b then ['t', 'r', 'u', 'e'] else ['f', 'a', 'l', 's', 'e']
  | .int n => encodeInt n
  | .str s => encodeString s
  | .strs none => ['n', 'u', 'l', 'l']
  | .strs (some elems) => '[' :: (joinMembers (elems.map encodeString) ++ [']'])
  | .struct fields =>
      '{' :: (joinMembers (encodeFields (fields.map Prod.fst) fields) ++ ['}'])
/-- The members written for the fields of a struct, in declaration order: a field
is left out when it is not used by `encoding/json`, or when it is empty and tagged
`omitempty`. -/
def encodeFields (all : List StructField) : List (StructField × GoValue) → List (List Char)
  | [] => []
  | (f, v) :: rest =>
      if dominant all f && !(f.OmitEmpty && isEmptyValue v) then
        (encodeString (bytesOf f.key) ++ ':' :: encodeValue v) :: encodeFields all rest
      else encodeFields all rest
end

/-- The function `json.Marshal` on a non-nil interface content: a nil pointer gives
`null`, a pointer the text of its pointee. -/
def Marshal : Dyn → Except Error Bytes
  | .pointer none => .ok (['n', 'u', 'l', 'l'].flatMap utf8EncodeChar)
  | .pointer (some v) => .ok ((encodeValue v).flatMap utf8EncodeChar)
  | .value v => .ok ((encodeValue v).flatMap utf8EncodeChar)

/-- A parsed JSON text. A number keeps its literal. -/
inductive JSON where
  | null
  | bool (b : Bool)
  | number (lit : List Char)
  | string (s : String)
  | array (elems : List JSON)
  | object (members : List (String × JSON))

/-- JSON white space: space, tab, line feed, carriage return. -/
def isSpace (c : Char) : Bool :=
  c == ' ' || c == '\t' || c == '\n' || c == '\r'

/-- Drops leading white space. -/
def skipSpace : List Char → List Char
  | [] => []
  | c :: cs => if isSpace c then skipSpace cs else c :: cs

/-- The value of a hexadecimal digit. -/
def hexValue (c : Char) : Option Nat :=
  let n := c.toNat
  if 48 ≤ n ∧ n ≤ 57 then some (n - 48)
  else if 97 ≤ n ∧ n ≤ 102 then some (n - 87)
  else if 65 ≤ n ∧ n ≤ 70 then some (n - 55)
  else none

/-- The function `getu4` after the `\u`: the value of four hexadecimal digits. -/
def hex4 : List Char → Option (Nat × List Char)
  | a :: b :: c :: d :: rest =>
    match hexValue a, hexValue b, hexValue c, hexValue d with
    | some a, some b, some c, some d => some (a * 4096 + b * 256 + c * 16 + d, rest)
    | _, _, _, _ => none
  | _ => none

/-- The character of a one-letter escape. -/
def simpleEscape (c : Char) : Option Char :=
  if c = quoteChar then some quoteChar
  else if c = backslash then some backslash
  else if c = '/' then some '/'
  else if c = 'b' then some (Char.ofNat 8)
  else if c = 'f' then some (Char.ofNat 12)
  else if c = 'n' then some (Char.ofNat 10)
  else if c = 'r' then some (Char.ofNat 13)
  else if c = 't' then some (Char.ofNat 9)
  else none

/-- The low half of a surrogate pair, when the text goes on with a `\u` escape that
holds one. -/
def lowSurrogate (cs : List Char) : Option (Nat × List Char) :=
  match cs with
  | c :: u :: rest =>
    if c = backslash ∧ u = 'u' then
      match hex4 rest with
      | some (lo, rest) => if 0xDC00 ≤ lo ∧ lo < 0xE000 then some (lo, rest) else none
      | none => none
    else none
  | _ => none

/-- Reads a string literal after its opening quote (the scanner together with
`unquote`): yields the characters and the text after the closing quote. A raw
control character and a malformed escape are syntax errors; a surrogate escape
that is not part of a pair reads as U+FFFD. -/
def parseStringBody : Nat → List Char → Option (List Char × List Char)
  | 0, _ => none
  | _, [] => none
  | fuel + 1, c :: rest =>
    if c = quoteChar then some ([], rest)
    else if c = backslash then
      match rest with
      | [] => none
      | e :: rest =>
        if e = 'u' then
          match hex4 rest with
          | none => none
          | some (hi, rest) =>
            if 0xD800 ≤ hi ∧ hi < 0xE000 then
              match (if hi < 0xDC00 then lowSurrogate rest else none) with
              | some (lo, rest) =>
                (parseStringBody fuel rest).map fun r =>
                  (Char.ofNat ((hi - 0xD800) * 0x400 + (lo - 0xDC00) + 0x10000) :: r.1, r.2)
              | none =>
                (parseStringBody fuel rest).map fun r => (Char.ofNat 0xFFFD :: r.1, r.2)
            else (parseStringBody fuel rest).map fun r => (Char.ofNat hi :: r.1, r.2)
        else
          match simpleEscape e with
          | none => none
          | some ch => (parseStringBody fuel rest).map fun r => (ch :: r.1, r.2)
    else if c.toNat < 32 then none
    else (parseStringBody fuel rest).map fun r => (c :: r.1, r.2)

/-- Reads a string literal after its opening quote. -/
def parseString (cs : List Char) : Option (String × List Char) :=
  (parseStringBody cs.length cs).map fun r => (String.mk r.1, r.2)

/-- One or more decimal digits. -/
def scanDigits (cs : List Char) : Option (List Char × List Char) :=
  if (cs.takeWhile Char.isDigit).isEmpty then none
  else some (cs.takeWhile Char.isDigit, cs.dropWhile Char.isDigit)

/-- The integer part of a number: a single `0`, or digits starting with `1` to `9`. -/
def scanIntPart : List Char → Option (List Char × List Char)
  | [] => none
  | c :: cs =>
    if c = '0' then some (['0'], cs)
    else if c.isDigit then some (c :: cs.takeWhile Char.isDigit, cs.dropWhile Char.isDigit)
    else none

/-- The optional fraction of a number. -/
def scanFraction : List Char → Option (List Char × List Char)
  | '.' :: cs => (scanDigits cs).map fun r => ('.' :: r.1, r.2)
  | cs => some ([], cs)

/-- The optional exponent of a number. -/
def scanExponent : List Char → Option (List Char × List Char)
  | [] => some ([], [])
  | e :: cs =>
    if e = 'e' ∨ e = 'E' then
      match cs with
      | s :: ds =>
        if s = '+' ∨ s = '-' then (scanDigits ds).map fun r => (e :: s :: r.1, r.2)
        else (scanDigits cs).map fun r => (e :: r.1, r.2)
      | [] => none
    else some ([], e :: cs)

/-- A number literal: sign, integer part, fraction, exponent. -/
def scanNumber (cs : List Char) : Option (List Char × List Char) :=
  let sign : List Char × List Char :=
    match cs with
    | '-' :: rest => (['-'], rest)
    | _ => ([], cs)
  match scanIntPart sign.2 with
  | none => none
  | some (ip, rest) =>
    match scanFraction rest with
    | none => none
    | some (fp, rest) =>
      match scanExponent rest with
      | none => none
      | some (ep, rest) => some (sign.1 ++ ip ++ fp ++ ep, rest)

/-- Strips a literal from the head of the text. -/
def stripLiteral : List Char → List Char → Option (List Char)
  | [], cs => some cs
  | _ :: _, [] => none
  | p :: ps, c :: cs => if p = c then stripLiteral ps cs else none

/-- The nesting limit of the scanner of `encoding/json` (`maxNestingDepth`). -/
def maxNestingDepth : Nat := 10000

mutual
/-- Reads one JSON value, white space before it included; `depth` counts the
objects and arrays that are open. -/
def parseValue : Nat → Nat → List Char → Option (JSON × List Char)
  | 0, _, _ => none
  | fuel + 1, depth, cs =>
    match skipSpace cs with
    | [] => none
    | c :: rest =>
      if c = '{' then
        if maxNestingDepth ≤ depth then none
        else
          match skipSpace rest with
          | d :: rest1 =>
            if d = '}' then some (.object [], rest1)
            else (parseMembers fuel (depth + 1) rest).map fun r => (.object r.1, r.2)
          | [] => none
      else if c = '[' then
        if maxNestingDepth ≤ depth then none
        else
          match skipSpace rest with
          | d :: rest1 =>
            if d = ']' then some (.array [], rest1)
            else (parseElements fuel (depth + 1) rest).map fun r => (.array r.1, r.2)
          | [] => none
      else if c = quoteChar then (parseString rest).map fun r => (.string r.1, r.2)
      else if c = 't' then (stripLiteral ['r', 'u', 'e'] rest).map fun r => (.bool true, r)
      else if c = 'f' then
        (stripLiteral ['a', 'l', 's', 'e'] rest).map fun r => (.bool false, r)
      else if c = 'n' then (stripLiteral ['u', 'l', 'l'] rest).map fun r => (.null, r)
      else (scanNumber (c :: rest)).map fun r => (.number r.1, r.2)
/-- Reads the members of an object up to its closing brace. -/
def parseMembers : Nat → Nat → List Char → Option (List (String × JSON) × List Char)
  | 0, _, _ => none
  | fuel + 1, depth, cs =>
    match skipSpace cs with
    | q :: rest =>
      if q = quoteChar then
        match parseString rest with
        | none => none
        | some (key, rest) =>
          match skipSpace rest with
          | colon :: rest =>
            if colon = ':' then
              match parseValue fuel depth rest with
              | none => none
              | some (v, rest) =>
                match skipSpace rest with
                | d :: rest =>
                  if d = ',' then
                    (parseMembers fuel depth rest).map fun r => ((key, v) :: r.1, r.2)
                  else if d = '}' then some ([(key, v)], rest)
                  else none
                | [] => none
            else none
          | [] => none
      else none
    | [] => none
/-- Reads the elements of an array up to its closing bracket. -/
def parseElements : Nat → Nat → List Char → Option (List JSON × List Char)
  | 0, _, _ => none
  | fuel + 1, depth, cs =>
    match parseValue fuel depth cs with
    | none => none
    | some (v, rest) =>
      match skipSpace rest with
      | d :: rest =>
        if d = ',' then (parseElements fuel depth rest).map fun r => (v :: r.1, r.2)
        else if d = ']' then some ([v], rest)
        else none
      | [] => none
end

/-- A whole JSON text (`checkValid`): one value, then only white space; at most
`maxNestingDepth` objects and arrays may be open at a time. -/
def parseJSON (cs : List Char) : Option JSON :=
  match parseValue (cs.length + 1) 0 cs with
  | some (v, rest) => if (skipSpace rest).isEmpty then some v else none
  | none => none

/-- The value of a string of decimal digits. -/
def digitsValue : Nat → List Char → Option Nat
  | acc, [] => some acc
  | acc, c :: cs => if c.isDigit then digitsValue (acc * 10 + (c.toNat - 48)) cs else none

/-- The call `strconv.ParseInt(lit, 10, 64)` on a JSON number literal: the literal
must be an optional minus sign and digits, and the value must fit 64 bits. -/
def parseInt64 (lit : List Char) : Option Int :=
  match lit with
  | [] => none
  | c :: cs =>
    if c = '-' then
      match cs with
      | [] => none
      | _ :: _ =>
        match digitsValue 0 cs with
        | some n => if n ≤ 2 ^ 63 then some (-(n : Int)) else none
        | none => none
    else
      match digitsValue 0 (c :: cs) with
      | some n => if n < 2 ^ 63 then some (n : Int) else none
      | none => none

/-- The case orbits of Unicode 15 (`unicode.SimpleFold`), given by the runes that
are not the smallest of their orbit: a run of runes from the first to the second
entry, in steps of the third, whose smallest orbit members run from the fourth entry
on in the same steps. -/
def foldRanges : List (Nat × Nat × Nat × Nat) :=
  [(0x61, 0x7A, 1, 0x41), (0xE0, 0xF6, 1, 0xC0), (0xF8, 0xFE, 1, 0xD8), (0x101, 0x12F, 2, 0x100),
   (0x133, 0x137, 2, 0x132), (0x13A, 0x148, 2, 0x139), (0x14B, 0x177, 2, 0x14A),
   (0x178, 0x178, 1, 0xFF), (0x17A, 0x17E, 2, 0x179), (0x17F, 0x17F, 1, 0x53),
   (0x183, 0x185, 2, 0x182), (0x188, 0x188, 1, 0x187), (0x18C, 0x18C, 1, 0x18B),
   (0x192, 0x192, 1, 0x191), (0x199, 0x199, 1, 0x198), (0x1A1, 0x1A5, 2, 0x1A0),
   (0x1A8, 0x1A8, 1, 0x1A7), (0x1AD, 0x1AD, 1, 0x1AC), (0x1B0, 0x1B0, 1, 0x1AF),
   (0x1B4, 0x1B6, 2, 0x1B3), (0x1B9, 0x1B9, 1, 0x1B8), (0x1BD, 0x1BD, 1, 0x1BC),
   (0x1C5, 0x1C5, 1, 0x1C4), (0x1C6, 0x1C6, 1, 0x1C4), (0x1C8, 0x1C8, 1, 0x1C7),
   (0x1C9, 0x1C9, 1, 0x1C7), (0x1CB, 0x1CB, 1, 0x1CA), (0x1CC, 0x1CC, 1, 0x1CA),
   (0x1CE, 0x1DC, 2, 0x1CD), (0x1DD, 0x1DD, 1, 0x18E), (0x1DF, 0x1EF, 2, 0x1DE),
   (0x1F2, 0x1F2, 1, 0x1F1), (0x1F3, 0x1F3, 1, 0x1F1), (0x1F5, 0x1F5, 1, 0x1F4),
   (0x1F6, 0x1F6, 1, 0x195), (0x1F7, 0x1F7, 1, 0x1BF), (0x1F9, 0x21F, 2, 0x1F8),
   (0x220, 0x220, 1, 0x19E), (0x223, 0x233, 2, 0x222), (0x23C, 0x23C, 1, 0x23B),
   (0x23D, 0x23D, 1, 0x19A), (0x242, 0x242, 1, 0x241), (0x243, 0x243, 1, 0x180),
   (0x247, 0x24F, 2, 0x246), (0x253, 0x253, 1, 0x181), (0x254, 0x254, 1, 0x186),
   (0x256, 0x257, 1, 0x189), (0x259, 0x259, 1, 0x18F), (0x25B, 0x25B, 1, 0x190),
   (0x260, 0x260, 1, 0x193), (0x263, 0x263, 1, 0x194), (0x268, 0x268, 1, 0x197),
   (0x269, 0x269, 1, 0x196), (0x26F, 0x26F, 1, 0x19C), (0x272, 0x272, 1, 0x19D),
   (0x275, 0x275, 1, 0x19F), (0x280, 0x280, 1, 0x1A6), (0x283, 0x283, 1, 0x1A9),
   (0x288, 0x288, 1, 0x1AE), (0x289, 0x289, 1, 0x244), (0x28A, 0x28B, 1, 0x1B1),
   (0x28C, 0x28C, 1, 0x245), (0x292, 0x292, 1, 0x1B7), (0x371, 0x373, 2, 0x370),
   (0x377, 0x377, 1, 0x376), (0x399, 0x399, 1, 0x345), (0x39C, 0x39C, 1, 0xB5),
   (0x3AC, 0x3AC, 1, 0x386), (0x3AD, 0x3AF, 1, 0x388), (0x3B1, 0x3B8, 1, 0x391),
   (0x3B9, 0x3B9, 1, 0x345), (0x3BA, 0x3BB, 1, 0x39A), (0x3BC, 0x3BC, 1, 0xB5),
   (0x3BD, 0x3C1, 1, 0x39D), (0x3C2, 0x3C2, 1, 0x3A3), (0x3C3, 0x3CB, 1, 0x3A3),
   (0x3CC, 0x3CC, 1, 0x38C), (0x3CD, 0x3CE, 1, 0x38E), (0x3D0, 0x3D0, 1, 0x392),
   (0x3D1, 0x3D1, 1, 0x398), (0x3D5, 0x3D5, 1, 0x3A6), (0x3D6, 0x3D6, 1, 0x3A0),
   (0x3D7, 0x3D7, 1, 0x3CF), (0x3D9, 0x3EF, 2, 0x3D8), (0x3F0, 0x3F0, 1, 0x39A),
   (0x3F1, 0x3F1, 1, 0x3A1), (0x3F3, 0x3F3, 1, 0x37F), (0x3F4, 0x3F4, 1, 0x398),
   (0x3F5, 0x3F5, 1, 0x395), (0x3F8, 0x3F8, 1, 0x3F7), (0x3F9, 0x3F9, 1, 0x3F2),
   (0x3FB, 0x3FB, 1, 0x3FA), (0x3FD, 0x3FF, 1, 0x37B), (0x430, 0x44F, 1, 0x410),
   (0x450, 0x45F, 1, 0x400), (0x461, 0x481, 2, 0x460), (0x48B, 0x4BF, 2, 0x48A),
   (0x4C2, 0x4CE, 2, 0x4C1), (0x4CF, 0x4CF, 1, 0x4C0), (0x4D1, 0x52F, 2, 0x4D0),
   (0x561, 0x586, 1, 0x531), (0x13F8, 0x13FD, 1, 0x13F0), (0x1C80, 0x1C80, 1, 0x412),
   (0x1C81, 0x1C81, 1, 0x414), (0x1C82, 0x1C82, 1, 0x41E), (0x1C83, 0x1C84, 1, 0x421),
   (0x1C85, 0x1C85, 1, 0x422), (0x1C86, 0x1C86, 1, 0x42A), (0x1C87, 0x1C87, 1, 0x462),
   (0x1C90, 0x1CBA, 1, 0x10D0), (0x1CBD, 0x1CBF, 1, 0x10FD), (0x1E01, 0x1E95, 2, 0x1E00),
   (0x1E9B, 0x1E9B, 1, 0x1E60), (0x1E9E, 0x1E9E, 1, 0xDF), (0x1EA1, 0x1EFF, 2, 0x1EA0),
   (0x1F08, 0x1F0F, 1, 0x1F00), (0x1F18, 0x1F1D, 1, 0x1F10), (0x1F28, 0x1F2F, 1, 0x1F20),
   (0x1F38, 0x1F3F, 1, 0x1F30), (0x1F48, 0x1F4D, 1, 0x1F40), (0x1F59, 0x1F5F, 2, 0x1F51),
   (0x1F68, 0x1F6F, 1, 0x1F60), (0x1F88, 0x1F8F, 1, 0x1F80), (0x1F98, 0x1F9F, 1, 0x1F90),
   (0x1FA8, 0x1FAF, 1, 0x1FA0), (0x1FB8, 0x1FB9, 1, 0x1FB0), (0x1FBA, 0x1FBB, 1, 0x1F70),
   (0x1FBC, 0x1FBC, 1, 0x1FB3), (0x1FBE, 0x1FBE, 1, 0x345), (0x1FC8, 0x1FCB, 1, 0x1F72),
   (0x1FCC, 0x1FCC, 1, 0x1FC3), (0x1FD8, 0x1FD9, 1, 0x1FD0), (0x1FDA, 0x1FDB, 1, 0x1F76),
   (0x1FE8, 0x1FE9, 1, 0x1FE0), (0x1FEA, 0x1FEB, 1, 0x1F7A), (0x1FEC, 0x1FEC, 1, 0x1FE5),
   (0x1FF8, 0x1FF9, 1, 0x1F78), (0x1FFA, 0x1FFB, 1, 0x1F7C), (0x1FFC, 0x1FFC, 1, 0x1FF3),
   (0x2126, 0x2126, 1, 0x3A9), (0x212A, 0x212A, 1, 0x4B), (0x212B, 0x212B, 1, 0xC5),
   (0x214E, 0x214E, 1, 0x2132), (0x2170, 0x217F, 1, 0x2160), (0x2184, 0x2184, 1, 0x2183),
   (0x24D0, 0x24E9, 1, 0x24B6), (0x2C30, 0x2C5F, 1, 0x2C00), (0x2C61, 0x2C61, 1, 0x2C60),
   (0x2C62, 0x2C62, 1, 0x26B), (0x2C63, 0x2C63, 1, 0x1D7D), (0x2C64, 0x2C64, 1, 0x27D),
   (0x2C65, 0x2C65, 1, 0x23A), (0x2C66, 0x2C66, 1, 0x23E), (0x2C68, 0x2C6C, 2, 0x2C67),
   (0x2C6D, 0x2C6D, 1, 0x251), (0x2C6E, 0x2C6E, 1, 0x271), (0x2C6F, 0x2C6F, 1, 0x250),
   (0x2C70, 0x2C70, 1, 0x252), (0x2C73, 0x2C73, 1, 0x2C72), (0x2C76, 0x2C76, 1, 0x2C75),
   (0x2C7E, 0x2C7F, 1, 0x23F), (0x2C81, 0x2CE3, 2, 0x2C80), (0x2CEC, 0x2CEE, 2, 0x2CEB),
   (0x2CF3, 0x2CF3, 1, 0x2CF2), (0x2D00, 0x2D25, 1, 0x10A0), (0x2D27, 0x2D27, 1, 0x10C7),
   (0x2D2D, 0x2D2D, 1, 0x10CD), (0xA641, 0xA649, 2, 0xA640), (0xA64A, 0xA64A, 1, 0x1C88),
   (0xA64B, 0xA64B, 1, 0x1C88), (0xA64D, 0xA66D, 2, 0xA64C), (0xA681, 0xA69B, 2, 0xA680),
   (0xA723, 0xA72F, 2, 0xA722), (0xA733, 0xA76F, 2, 0xA732), (0xA77A, 0xA77C, 2, 0xA779),
   (0xA77D, 0xA77D, 1, 0x1D79), (0xA77F, 0xA787, 2, 0xA77E), (0xA78C, 0xA78C, 1, 0xA78B),
   (0xA78D, 0xA78D, 1, 0x265), (0xA791, 0xA793, 2, 0xA790), (0xA797, 0xA7A9, 2, 0xA796),
   (0xA7AA, 0xA7AA, 1, 0x266), (0xA7AB, 0xA7AB, 1, 0x25C), (0xA7AC, 0xA7AC, 1, 0x261),
   (0xA7AD, 0xA7AD, 1, 0x26C), (0xA7AE, 0xA7AE, 1, 0x26A), (0xA7B0, 0xA7B0, 1, 0x29E),
   (0xA7B1, 0xA7B1, 1, 0x287), (0xA7B2, 0xA7B2, 1, 0x29D), (0xA7B5, 0xA7C3, 2, 0xA7B4),
   (0xA7C4, 0xA7C4, 1, 0xA794), (0xA7C5, 0xA7C5, 1, 0x282), (0xA7C6, 0xA7C6, 1, 0x1D8E),
   (0xA7C8, 0xA7CA, 2, 0xA7C7), (0xA7D1, 0xA7D1, 1, 0xA7D0), (0xA7D7, 0xA7D9, 2, 0xA7D6),
   (0xA7F6, 0xA7F6, 1, 0xA7F5), (0xAB53, 0xAB53, 1, 0xA7B3), (0xAB70, 0xABBF, 1, 0x13A0),
   (0xFF41, 0xFF5A, 1, 0xFF21), (0x10428, 0x1044F, 1, 0x10400), (0x104D8, 0x104FB, 1, 0x104B0),
   (0x10597, 0x105A1, 1, 0x10570), (0x105A3, 0x105B1, 1, 0x1057C),
   (0x105B3, 0x105B9, 1, 0x1058C), (0x105BB, 0x105BC, 1, 0x10594),
   (0x10CC0, 0x10CF2, 1, 0x10C80), (0x118C0, 0x118DF, 1, 0x118A0),
   (0x16E60, 0x16E7F, 1, 0x16E40), (0x1E922, 0x1E943, 1, 0x1E900)]

/-- The function `foldRune` of `encoding/json`: the smallest rune of the case orbit
of a rune. -/
def foldRune (c : Char) : Char :=
  match foldRanges.find? fun r =>
      decide (r.1 ≤ c.toNat) && decide (c.toNat ≤ r.2.1) && (c.toNat - r.1) % r.2.2.1 == 0 with
  | some r => Char.ofNat (r.2.2.2 + (c.toNat - r.1))
  | none => c

/-- Key comparison under Unicode simple case folding (`foldName`): two keys match
when their runes have the same case orbits. -/
def foldEq (a b : String) : Bool :=
  a.data.map foldRune == b.data.map foldRune

/-- The index of the first element satisfying the test. -/
def firstIndex (p : StructField → Bool) : List StructField → Option Nat
  | [] => none
  | f :: fs => if p f then some 0 else (firstIndex p fs).map (· + 1)

/-- The field an object key is decoded into: the used field with exactly this key,
else the first used field whose key matches under case folding. -/
def findField (all : List StructField) (key : String) : Option Nat :=
  match firstIndex (fun f => dominant all f && f.key == key) all with
  | some i => some i
  | none => firstIndex (fun f => dominant all f && foldEq f.key key) all

/-- The error of a JSON text that is not valid (`json.SyntaxError`). -/
def syntaxError : Error := .other "json: syntax error"

/-- The error of a JSON value that does not fit its target (`json.UnmarshalTypeError`). -/
def typeError : Error := .other "json: cannot unmarshal value into Go value"

/-- Applies a decoding step to the value of the field with the given index. -/
def updateField (step : GoValue → GoValue × Option Error) :
    Nat → List (StructField × GoValue) → List (StructField × GoValue) × Option Error
  | _, [] => ([], none)
  | 0, (f, v) :: rest => ((f, (step v).1) :: rest, (step v).2)
  | i + 1, fv :: rest => (fv :: (updateField step i rest).1, (updateField step i rest).2)

/-- Decodes the elements of a JSON array into the elements of a slice of strings
(of a slice whose capacity is its length): an element takes the string at its
place, `null` leaves the element there as it is, and an element past the end starts
empty; an element of another sort is a type error. -/
def assignElems : List JSON → List Bytes → List Bytes × Option Error
  | [], _ => ([], none)
  | j :: js, olds =>
    let first : Bytes × Option Error :=
      match j with
      | .string s => (bytesOf s, none)
      | .null => (olds.head?.getD [], none)
      | _ => (olds.head?.getD [], some typeError)
    (first.1 :: (assignElems js olds.tail).1, first.2 <|> (assignElems js olds.tail).2)

mutual
/-- Decodes a JSON value into a Go value: yields the value afterwards and the first
type error met. `null` makes a slice nil and leaves any other target as it is; a
value of the wrong sort is a type error and leaves the target as it is. -/
def assign : JSON → GoValue → GoValue × Option Error
  | .null, .strs _ => (.strs none, none)
  | .null, v => (v, none)
  | .array elems, .strs old =>
    (.strs (some (assignElems elems (old.getD [])).1), (assignElems elems (old.getD [])).2)
  | .bool b, .bool _ => (.bool b, none)
  | .string s, .str _ => (.str (bytesOf s), none)
  | .number lit, .int n =>
    match parseInt64 lit with
    | some m => (.int m, none)
    | none => (.int n, some typeError)
  | .object members, .struct fields =>
    (.struct (assignMembers members fields).1, (assignMembers members fields).2)
  | _, v => (v, some typeError)
/-- Decodes the members of an object, in their order, into the fields of a struct;
a key without a field is skipped. -/
def assignMembers : List (String × JSON) → List (StructField × GoValue) →
    List (StructField × GoValue) × Option Error
  | [], fields => (fields, none)
  | (key, j) :: members, fields =>
    let first : List (StructField × GoValue) × Option Error :=
      match findField (fields.map Prod.fst) key with
      | some i => updateField (assign j) i fields
      | none => (fields, none)
    ((assignMembers members first.1).1, first.2 <|> (assignMembers members first.1).2)
end

/-- The call `json.Unmarshal(data, &x)` for a non-nil `x`. An invalid text is a
syntax error and changes nothing. The text `null` sets the local variable `x` to
nil and leaves what `x` pointed to as it is. For any other text, when `x` holds a
non-nil pointer the text is decoded into its pointee; otherwise it is decoded into
the local variable `x` itself, which the caller never sees. -/
def Unmarshal (data : Bytes) (x : Dyn) : Dyn × Option Error :=
  match parseJSON (utf8Decode data) with
  | none => (x, some syntaxError)
  | some j =>
    match j, x with
    | .null, _ => (x, none)
    | _, .pointer (some v) => (.pointer (some (assign j v).1), (assign j v).2)
    | _, _ => (x, none)

mutual
/-- The zero value of the type of a value. -/
def GoValue.zero : GoValue → GoValue
  | .bool _ => .bool false
  | .int _ => .int 0
  | .str _ => .str []
  | .strs _ => .strs none
  | .struct fields => .struct (zeroFields fields)
/-- The fields of a struct, each with its zero value. -/
def zeroFields : List (StructField × GoValue) → List (StructField × GoValue)
  | [] => []
  | (f, v) :: rest => (f, v.zero) :: zeroFields rest
end

/-- The two functions of `encoding/json` the client calls. `Marshal x` is
`json.Marshal(x)` for a non-nil interface content. `Unmarshal data x` is
`json.Unmarshal(data, &x)` for a non-nil `x`: it yields the content of `x` as the
caller sees it afterwards, and the error. -/
structure JSONCodec where
  Marshal : Dyn → Except Error Bytes
  Unmarshal : Bytes → Dyn → Dyn × Option Error

/-- The codec `encoding/json`. -/
def encodingJSON : JSONCodec :=
  { Marshal := Marshal, Unmarshal := Unmarshal }

/-! ## `strconv`, `fmt`, `strings` and the query encoding of `net/url` -/

/-- The function `strconv.Itoa`, which is also what `%v` prints for an `int`. -/
def Itoa (n : Int) : String :=
  String.mk (encodeInt n)

/-- What `%v` prints for a `bool`. -/
def formatBool (b : Bool) : String :=
  if b then "true" else "false"

/-- The function `strings.Join`. -/
def Join : List String → String → String
  | [], _ => ""
  | [a], _ => a
  | a :: rest, sep => a ++ sep ++ Join rest sep

/-- The bytes that `shouldEscape` leaves alone in the mode `encodeQueryComponent`:
ASCII letters and digits, `-`, `_`, `.` and `~`. -/
def isUnreserved (b : Nat) : Bool :=
  (decide (97 ≤ b) && decide (b ≤ 122)) || (decide (65 ≤ b) && decide (b ≤ 90)) ||
    (decide (48 ≤ b) && decide (b ≤ 57)) || b == 45 || b == 95 || b == 46 || b == 126

/-- One digit of the table `upperhex`. -/
def upperhex (n : Nat) : Char :=
  if n < 10 then Char.ofNat (48 + n) else Char.ofNat (55 + n)

/-- What `escape` writes for one byte in the mode `encodeQueryComponent`: `+` for a
space, the byte itself when it is unreserved, else `%` and its two hex digits. -/
def escapeByte (b : Nat) : List Char :=
  if b = 32 then ['+']
  else if isUnreserved b then [Char.ofNat b]
  else ['%', upperhex (b / 16), upperhex (b % 16)]

/-- The function `url.QueryEscape`. -/
def QueryEscape (s : String) : String :=
  String.mk ((bytesOf s).flatMap escapeByte)

/-- The type `url.Values`: the values added under each key; the keys are kept in the
order in which they were first added. -/
structure Values where
  entries : List (String × List String) := []

/-- Appends a value to the values of a key. -/
def addEntry (key value : String) : List (String × List String) → List (String × List String)
  | [] => [(key, [value])]
  | (k, vs) :: rest =>
    if k = key then (k, vs ++ [value]) :: rest else (k, vs) :: addEntry key value rest

/-- The method `Values.Add`. -/
def Values.Add (v : Values) (key value : String) : Values :=
  ⟨addEntry key value v.entries⟩

/-- The order of Go strings: byte by byte. -/
def bytesLess : Bytes → Bytes → Bool
  | _, [] => false
  | [], _ :: _ => true
  | a :: as, b :: bs => decide (a < b) || (a == b && bytesLess as bs)

/-- Puts a key at its place among sorted keys. -/
def insertKey (k : String) : List String → List String
  | [] => [k]
  | x :: xs => if bytesLess (bytesOf k) (bytesOf x) then k :: x :: xs else x :: insertKey k xs

/-- The keys in the order `sort.Strings` gives them. -/
def sortKeys : List String → List String
  | [] => []
  | k :: ks => insertKey k (sortKeys ks)

/-- The method `Values.Encode`: for the keys in sorted order, and the values of a key
in the order they were added, `key=value` with both escaped, joined by `&`. -/
def Values.Encode (v : Values) : String :=
  Join ((sortKeys (v.entries.map Prod.fst)).flatMap fun k =>
    ((v.entries.lookup k).getD []).map fun x => QueryEscape k ++ "=" ++ QueryEscape x) "&"

/-! ## The agile client (`jira/agile/api_client_impl.go`) -/

/-- The struct `agile.Client`: the injected transport, the base site and the
authentication strategy (the per-resource services are left out). -/
structure Client where
  HTTP : Request → DoResult
  Site : URL
  Auth : AuthenticationService

/-- The method `Client.NewRequest`. -/
def Client.NewRequest (url : NetURL) (c : Client) (ctx : Option Context)
    (method apiEndpoint : String) (payload : Option Bytes) : Option Request × Option Error :=
  match url.Parse apiEndpoint with
  | .error err => (none, some err)
  | .ok relativePath =>
    let endpoint := url.String (url.ResolveReference c.Site relativePath)
    match NewRequestWithContext url ctx method endpoint payload with
    | .error err => (none, some err)
    | .ok request =>
      let request := { request with Header := request.Header.Set "Accept" "application/json" }
      let request :=
        if payload.isSome then
          { request with Header := request.Header.Set "Content-Type" "application/json" }
        else request
      let request :=
        if c.Auth.HasBasicAuth then
          request.SetBasicAuth c.Auth.GetBasicAuth.1 c.Auth.GetBasicAuth.2
        else request
      let request :=
        if c.Auth.HasUserAgent then
          { request with Header := request.Header.Set "User-Agent" c.Auth.GetUserAgent }
        else request
      (some request, none)

/-- What `Call` hands back: the envelope and the error it returns, and the decode
target as the caller finds it afterwards. -/
structure CallResult where
  envelope : Option ResponseScheme
  err : Option Error
  target : Interface

/-- The method `Client.TransformTheHTTPResponse`. -/
def Client.TransformTheHTTPResponse (json : JSONCodec) (url : NetURL)
    (response : Option Response) (target : Interface) : Run CallResult :=
  match response with
  | none => .panics
  | some response =>
    let responseTransformed : ResponseScheme :=
      { Response := some response,
        Code := response.StatusCode,
        Endpoint := url.String response.Request.URL,
        Method := response.Request.Method }
    match ReadAll response.Body with
    | (_, some err) => .returns ⟨some responseTransformed, some err, target⟩
    | (responseAsBytes, none) =>
      let responseTransformed :=
        { responseTransformed with
          Bytes := (BufferWrite responseTransformed.Bytes responseAsBytes).1 }
      let wasSuccess := decide (response.StatusCode ≥ 200) && decide (response.StatusCode < 300)
      if !wasSuccess then
        .returns ⟨some responseTransformed, some .ErrInvalidStatusCodeError, target⟩
      else
        match target with
        | some x =>
          match json.Unmarshal responseAsBytes x with
          | (x, some err) => .returns ⟨some responseTransformed, some err, some x⟩
          | (x, none) => .returns ⟨some responseTransformed, none, some x⟩
        | none => .returns ⟨some responseTransformed, none, none⟩

/-- The method `Client.Call`. -/
def Client.Call (json : JSONCodec) (url : NetURL) (c : Client) (request : Request)
    (target : Interface) : Run CallResult :=
  match c.HTTP request with
  | ⟨_, some err⟩ => .returns ⟨none, some err, target⟩
  | ⟨response, none⟩ => Client.TransformTheHTTPResponse json url response target

/-- The method `Client.TransformStructToReader`; the reader is given by its content. -/
def Client.TransformStructToReader (json : JSONCodec) (target : Interface) :
    Option Bytes × Option Error :=
  match target with
  | none => (none, some .ErrNilPayloadError)
  | some x =>
    if x.Kind = Kind.Struct then (none, some .ErrNonPayloadPointerError)
    else
      match json.Marshal x with
      | .error err => (none, some err)
      | .ok structureAsBodyBytes => (some structureAsBodyBytes, none)

/-! ## The v3 client (`jira/v3/api_client_impl.go`) -/

/-- The struct `v3.ClientV2`. -/
structure ClientV2 where
  HTTP : Request → DoResult
  Site : URL
  Authentication : AuthenticationService

/-- The method `ClientV2.NewRequest`. -/
def ClientV2.NewRequest (url : NetURL) (c : ClientV2) (ctx : Option Context)
    (method apiEndpoint : String) (payload : Option Bytes) : Option Request × Option Error :=
  match url.Parse apiEndpoint with
  | .error err => (none, some err)
  | .ok relativePath =>
    let endpoint := url.String (url.ResolveReference c.Site relativePath)
    match NewRequestWithContext url ctx method endpoint payload with
    | .error err => (none, some err)
    | .ok request =>
      let request := { request with Header := request.Header.Set "Accept" "application/json" }
      let request :=
        if payload.isSome then
          { request with Header := request.Header.Set "Content-Type" "application/json" }
        else request
      let request :=
        if c.Authentication.HasBasicAuth then
          request.SetBasicAuth c.Authentication.GetBasicAuth.1 c.Authentication.GetBasicAuth.2
        else request
      let request :=
        if c.Authentication.HasUserAgent then
          { request with
            Header := request.Header.Set "User-Agent" c.Authentication.GetUserAgent }
        else request
      (some request, none)

/-- The method `ClientV2.Call`. -/
def ClientV2.Call (json : JSONCodec) (url : NetURL) (c : ClientV2) (request : Request)
    (target : Interface) : Run CallResult :=
  match c.HTTP request with
  | ⟨_, some err⟩ => .returns ⟨none, some err, target⟩
  | ⟨none, none⟩ => .panics
  | ⟨some response, none⟩ =>
    let responseTransformed : ResponseScheme :=
      { Response := some response,
        Code := response.StatusCode,
        Endpoint := url.String response.Request.URL,
        Method := response.Request.Method }
    if !(decide (response.StatusCode ≥ 200) && decide (response.StatusCode < 300)) then
      .returns ⟨some responseTransformed, some .ErrInvalidStatusCodeError, target⟩
    else
      match ReadAll response.Body with
      | (_, some err) => .returns ⟨some responseTransformed, some err, target⟩
      | (responseAsBytes, none) =>
        let decoded : Interface × Option Error :=
          match target with
          | some x =>
            (some (json.Unmarshal responseAsBytes x).1, (json.Unmarshal responseAsBytes x).2)
          | none => (none, none)
        match decoded with
        | (target, some err) => .returns ⟨some responseTransformed, some err, target⟩
        | (target, none) =>
          match BufferWrite responseTransformed.Bytes responseAsBytes with
          | (_, some err) => .returns ⟨none, some err, target⟩
          | (buf, none) => .returns ⟨some { responseTransformed with Bytes := buf }, none, target⟩

/-- The method `ClientV2.TransformTheHTTPResponse`. It leaves the field `Response`
of the envelope unset and drops the error of the write to the buffer. -/
def ClientV2.TransformTheHTTPResponse (json : JSONCodec) (url : NetURL)
    (response : Option Response) (target : Interface) : CallResult :=
  match response with
  | none =>
    ⟨none, some (.other "validation failed, please provide a http.Response pointer"), target⟩
  | some response =>
    let responseTransformed : ResponseScheme :=
      { Code := response.StatusCode,
        Endpoint := url.String response.Request.URL,
        Method := response.Request.Method }
    let wasSuccess := decide (response.StatusCode ≥ 200) && decide (response.StatusCode < 300)
    if !wasSuccess then
      ⟨some responseTransformed, some (.other "TODO"), target⟩
    else
      match ReadAll response.Body with
      | (_, some err) => ⟨some responseTransformed, some err, target⟩
      | (responseAsBytes, none) =>
        let decoded : Interface × Option Error :=
          match target with
          | some x =>
            (some (json.Unmarshal responseAsBytes x).1, (json.Unmarshal responseAsBytes x).2)
          | none => (none, none)
        match decoded with
        | (target, some err) => ⟨some responseTransformed, some err, target⟩
        | (target, none) =>
          ⟨some { responseTransformed with
              Bytes := (BufferWrite responseTransformed.Bytes responseAsBytes).1 }, none, target⟩

/-- The method `ClientV2.TransformStructToReader`. -/
def ClientV2.TransformStructToReader (json : JSONCodec) (target : Interface) :
    Option Bytes × Option Error :=
  match target with
  | none => (none, some .ErrNilPayloadError)
  | some x =>
    if x.Kind = Kind.Struct then (none, some .ErrNonPayloadPointerError)
    else
      match json.Marshal x with
      | .error err => (none, some err)
      | .ok structureAsBodyBytes => (some structureAsBodyBytes, none)

/-! ## The interface `service.Client` and the service constructors -/

/-- One call of a method of the client, with its arguments. -/
inductive ClientCall where
  | TransformStructToReader (payload : Interface)
  | NewRequest (ctx : Option Context) (method apiEndpoint : String) (payload : Option Bytes)
  | Call (request : Option Request) (target : Interface)

/-- Whether the call is one of `NewRequest`. -/
def ClientCall.isNewRequest : ClientCall → Bool
  | .NewRequest _ _ _ _ => true
  | _ => false

/-- Whether the call is one of `TransformStructToReader`. -/
def ClientCall.isTransformStructToReader : ClientCall → Bool
  | .TransformStructToReader _ => true
  | _ => false

/-- Whether the call is one of `Call`. -/
def ClientCall.isCall : ClientCall → Bool
  | .Call _ _ => true
  | _ => false

/-- The interface `service.Client` as the services use it: any implementation,
the mock of the tests included. A reader is given by its content, a request may be
nil, and each method may panic. -/
structure ServiceClient where
  NewRequest : Option Context → String → String → Option Bytes →
    Run (Option Request × Option Error)
  Call : Option Request → Interface → Run CallResult
  TransformStructToReader : Interface → Run (Option Bytes × Option Error)

/-- A run of a service method: the calls it made on the client, in their order, and
how it ended. -/
structure Traced (α : Type) where
  calls : List ClientCall
  outcome : Run α

/-- A run that returns without calling the client. -/
def Traced.pure {α : Type} (a : α) : Traced α :=
  ⟨[], .returns a⟩

/-- One run after another: the second sees what the first returned; a panic ends
the run. -/
def Traced.bind {α β : Type} (x : Traced α) (f : α → Traced β) : Traced β :=
  match x.outcome with
  | .panics => ⟨x.calls, .panics⟩
  | .returns a => ⟨x.calls ++ (f a).calls, (f a).outcome⟩

/-- The call `c.TransformStructToReader(payload)` on a client that may be the nil
interface, on which every method call panics. -/
def callTransformStructToReader (c : Option ServiceClient) (payload : Interface) :
    Traced (Option Bytes × Option Error) :=
  match c with
  | none => ⟨[], .panics⟩
  | some c => ⟨[.TransformStructToReader payload], c.TransformStructToReader payload⟩

/-- The call `c.NewRequest(ctx, method, apiEndpoint, payload)`. -/
def callNewRequest (c : Option ServiceClient) (ctx : Option Context)
    (method apiEndpoint : String) (payload : Option Bytes) :
    Traced (Option Request × Option Error) :=
  match c with
  | none => ⟨[], .panics⟩
  | some c =>
    ⟨[.NewRequest ctx method apiEndpoint payload], c.NewRequest ctx method apiEndpoint payload⟩

/-- The call `c.Call(request, target)`. -/
def callCall (c : Option ServiceClient) (request : Option Request) (target : Interface) :
    Traced CallResult :=
  match c with
  | none => ⟨[], .panics⟩
  | some c => ⟨[.Call request target], c.Call request target⟩

/-- A pointer to a service of another file, of which only whether it is nil is
kept. -/
abbrev ServiceRef := Option Unit

/-- The struct `internalSprintImpl`. -/
structure internalSprintImpl (C : Type) where
  c : C
  version : String

/-- The struct `SprintService`. -/
structure SprintService (C : Type) where
  internalClient : internalSprintImpl C

/-- The constructor `NewSprintService`. -/
def NewSprintService {C : Type} (client : C) (version : String) :
    Option (SprintService C) × Option Error :=
  if version = "" then (none, some .ErrNoVersionProvided)
  else (some { internalClient := { c := client, version := version } }, none)

/-- The struct `internalServiceRequestParticipantImpl`. -/
structure internalServiceRequestParticipantImpl (C : Type) where
  c : C
  version : String

/-- The struct `ParticipantService`. -/
structure ParticipantService (C : Type) where
  internalClient : internalServiceRequestParticipantImpl C

/-- The constructor `NewParticipantService`. -/
def NewParticipantService {C : Type} (client : C) (version : String) :
    Option (ParticipantService C) × Option Error :=
  if version = "" then (none, some .ErrNoVersionProvided)
  else (some { internalClient := { c := client, version := version } }, none)

/-- The struct `internalOrganizationImpl`. -/
structure internalOrganizationImpl (C : Type) where
  c : C
  version : String

/-- The struct `OrganizationService`. -/
structure OrganizationService (C : Type) where
  internalClient : internalOrganizationImpl C

/-- The constructor `NewOrganizationService`. -/
def NewOrganizationService {C : Type} (client : C) (version : String) :
    Option (OrganizationService C) × Option Error :=
  if version = "" then (none, some .ErrNoVersionProvided)
  else (some { internalClient := { c := client, version := version } }, none)

/-- The struct `internalServiceLevelAgreementImpl`. -/
structure internalServiceLevelAgreementImpl (C : Type) where
  c : C
  version : String

/-- The struct `ServiceLevelAgreementService`. -/
structure ServiceLevelAgreementService (C : Type) where
  internalClient : internalServiceLevelAgreementImpl C

/-- The constructor `NewServiceLevelAgreementService`. -/
def NewServiceLevelAgreementService {C : Type} (client : C) (version : String) :
    Option (ServiceLevelAgreementService C) × Option Error :=
  if version = "" then (none, some .ErrNoVersionProvided)
  else (some { internalClient := { c := client, version := version } }, none)

/-- The struct `internalTypeImpl`. -/
structure internalTypeImpl (C : Type) where
  c : C
  version : String

/-- The struct `TypeService`. -/
structure TypeService (C : Type) where
  internalClient : internalTypeImpl C

/-- The constructor `NewTypeService`. -/
def NewTypeService {C : Type} (client : C) (version : String) :
    Option (TypeService C) × Option Error :=
  if version = "" then (none, some .ErrNoVersionProvided)
  else (some { internalClient := { c := client, version := version } }, none)

/-- The struct `internalMetadataImpl`. -/
structure internalMetadataImpl (C : Type) where
  c : C
  version : String

/-- The struct `MetadataService`. -/
structure MetadataService (C : Type) where
  internalClient : internalMetadataImpl C

/-- The constructor `NewMetadataService`. -/
def NewMetadataService {C : Type} (client : C) (version : String) :
    Option (MetadataService C) × Option Error :=
  if version = "" then (none, some .ErrNoVersionProvided)
  else (some { internalClient := { c := client, version := version } }, none)

/-- The struct `internalUserSearchImpl`. -/
structure internalUserSearchImpl (C : Type) where
  c : C
  version : String

/-- The struct `UserSearchService`. -/
structure UserSearchService (C : Type) where
  internalClient : internalUserSearchImpl C

/-- The constructor `NewUserSearchService`. -/
def NewUserSearchService {C : Type} (client : C) (version : String) :
    Option (UserSearchService C) × Option Error :=
  if version = "" then (none, some .ErrNoVersionProvided)
  else (some { internalClient := { c := client, version := version } }, none)

/-- The struct `internalAdfCommentImpl`. -/
structure internalAdfCommentImpl (C : Type) where
  c : C
  version : String

/-- The struct `CommentADFService`. -/
structure CommentADFService (C : Type) where
  internalClient : internalAdfCommentImpl C

/-- The struct `internalRichTextCommentImpl`. -/
structure internalRichTextCommentImpl (C : Type) where
  c : C
  version : String

/-- The struct `CommentRichTextService`. -/
structure CommentRichTextService (C : Type) where
  internalClient : internalRichTextCommentImpl C

/-- The constructor `NewCommentService`. -/
def NewCommentService {C : Type} (client : C) (version : String) :
    Option (CommentADFService C) × Option (CommentRichTextService C) × Option Error :=
  if version = "" then (none, none, some .ErrNoVersionProvided)
  else
    let adfService : CommentADFService C :=
      { internalClient := { c := client, version := version } }
    let richTextService : CommentRichTextService C :=
      { internalClient := { c := client, version := version } }
    (some adfService, some richTextService, none)

/-- The struct `internalLinkADFServiceImpl`. -/
structure internalLinkADFServiceImpl (C : Type) where
  c : C
  version : String

/-- The struct `LinkADFService`. -/
structure LinkADFService (C : Type) where
  internalClient : internalLinkADFServiceImpl C
  Type_ : ServiceRef

/-- The struct `internalLinkRichTextServiceImpl`. -/
structure internalLinkRichTextServiceImpl (C : Type) where
  c : C
  version : String

/-- The struct `LinkRichTextService`. -/
structure LinkRichTextService (C : Type) where
  internalClient : internalLinkRichTextServiceImpl C
  Type_ : ServiceRef

/-- The constructor `NewLinkService`. -/
def NewLinkService {C : Type} (client : C) (version : String) (type_ : ServiceRef) :
    Option (LinkADFService C) × Option (LinkRichTextService C) × Option Error :=
  if version = "" then (none, none, some .ErrNoVersionProvided)
  else
    let adfService : LinkADFService C :=
      { internalClient := { c := client, version := version }, Type_ := type_ }
    let richTextService : LinkRichTextService C :=
      { internalClient := { c := client, version := version }, Type_ := type_ }
    (some adfService, some richTextService, none)

/-- The struct `internalSearchRichTextImpl`. -/
structure internalSearchRichTextImpl (C : Type) where
  c : C
  version : String

/-- The struct `SearchRichTextService`. -/
structure SearchRichTextService (C : Type) where
  internalClient : internalSearchRichTextImpl C

/-- The struct `internalSearchADFImpl`. -/
structure internalSearchADFImpl (C : Type) where
  c : C
  version : String

/-- The struct `SearchADFService`. -/
structure SearchADFService (C : Type) where
  internalClient : internalSearchADFImpl C

/-- The constructor `NewSearchService`. -/
def NewSearchService {C : Type} (client : C) (version : String) :
    Option (SearchADFService C) × Option (SearchRichTextService C) × Option Error :=
  if version = "" then (none, none, some .ErrNoVersionProvided)
  else
    let rtService : SearchRichTextService C :=
      { internalClient := { c := client, version := version } }
    let adfService : SearchADFService C :=
      { internalClient := { c := client, version := version } }
    (some adfService, some rtService, none)

/-- The struct `IssueServices`: pointers to the services an issue service carries. -/
structure IssueServices where
  Attachment : ServiceRef := none
  CommentRT : ServiceRef := none
  CommentADF : ServiceRef := none
  Field : ServiceRef := none
  Label : ServiceRef := none
  LinkRT : ServiceRef := none
  LinkADF : ServiceRef := none
  Metadata : ServiceRef := none
  Priority : ServiceRef := none
  Resolution : ServiceRef := none
  SearchRT : ServiceRef := none
  SearchADF : ServiceRef := none
  Type_ : ServiceRef := none
  Vote : ServiceRef := none
  Watcher : ServiceRef := none
  WorklogAdf : ServiceRef := none
  WorklogRichText : ServiceRef := none

/-- The struct `internalRichTextServiceImpl`. -/
structure internalRichTextServiceImpl (C : Type) where
  c : C
  version : String

/-- The struct `internalIssueADFServiceImpl`. -/
structure internalIssueADFServiceImpl (C : Type) where
  c : C
  version : String

/-- The struct `IssueRichTextService`, with the fields `NewIssueService` sets. -/
structure IssueRichTextService (C : Type) where
  internalClient : internalRichTextServiceImpl C
  Attachment : ServiceRef := none
  Comment : ServiceRef := none
  Field : ServiceRef := none
  Label : ServiceRef := none
  Link : ServiceRef := none
  Metadata : ServiceRef := none
  Priority : ServiceRef := none
  Resolution : ServiceRef := none
  Search : ServiceRef := none
  Type_ : ServiceRef := none
  Vote : ServiceRef := none
  Watcher : ServiceRef := none
  Worklog : ServiceRef := none

/-- The struct `IssueADFService`, with the fields `NewIssueService` sets. -/
structure IssueADFService (C : Type) where
  internalClient : internalIssueADFServiceImpl C
  Attachment : ServiceRef := none
  Comment : ServiceRef := none
  Field : ServiceRef := none
  Label : ServiceRef := none
  Link : ServiceRef := none
  Metadata : ServiceRef := none
  Priority : ServiceRef := none
  Resolution : ServiceRef := none
  Search : ServiceRef := none
  Type_ : ServiceRef := none
  Vote : ServiceRef := none
  Watcher : ServiceRef := none
  Worklog : ServiceRef := none

/-- The constructor `NewIssueService`. -/
def NewIssueService {C : Type} (client : C) (version : String) (services : Option IssueServices) :
    Option (IssueRichTextService C) × Option (IssueADFService C) × Option Error :=
  if version = "" then (none, none, some .ErrNoVersionProvided)
  else
    let richTextService : IssueRichTextService C :=
      { internalClient := { c := client, version := version } }
    let adfService : IssueADFService C :=
      { internalClient := { c := client, version := version } }
    match services with
    | some services =>
      let adfService : IssueADFService C :=
        { adfService with
          Attachment := services.Attachment, Comment := services.CommentADF,
          Field := services.Field, Label := services.Label, Link := services.LinkADF,
          Metadata := services.Metadata, Priority := services.Priority,
          Resolution := services.Resolution, Search := services.SearchADF,
          Type_ := services.Type_, Vote := services.Vote, Watcher := services.Watcher,
          Worklog := services.WorklogAdf }
      let richTextService : IssueRichTextService C :=
        { richTextService with
          Comment := services.CommentRT, Attachment := services.Attachment,
          Field := services.Field, Label := services.Label, Link := services.LinkRT,
          Metadata := services.Metadata, Priority := services.Priority,
          Resolution := services.Resolution, Search := services.SearchRT,
          Type_ := services.Type_, Vote := services.Vote, Watcher := services.Watcher,
          Worklog := services.WorklogRichText }
      (some richTextService, some adfService, none)
    | none => (some richTextService, some adfService, none)

/-! ## The form-request variants and the client constructors -/

/-- The method `Client.NewFormRequest` of the agile client. -/
def Client.NewFormRequest (_c : Client) (_ctx : Option Context)
    (_method _apiEndpoint _contentType : String) (_payload : Option Bytes) :
    Option Request × Option Error :=
  (none, none)

/-- The method `ClientV2.NewFormRequest`. -/
def ClientV2.NewFormRequest (url : NetURL) (c : ClientV2) (ctx : Option Context)
    (method apiEndpoint contentType : String) (payload : Option Bytes) :
    Option Request × Option Error :=
  match url.Parse apiEndpoint with
  | .error err => (none, some err)
  | .ok relativePath =>
    let endpoint := url.String (url.ResolveReference c.Site relativePath)
    match NewRequestWithContext url ctx method endpoint payload with
    | .error err => (none, some err)
    | .ok request =>
      let request := { request with Header := request.Header.Add "Content-Type" contentType }
      let request := { request with Header := request.Header.Add "Accept" "application/json" }
      let request := { request with Header := request.Header.Set "X-Atlassian-Token" "no-check" }
      let request :=
        if c.Authentication.HasBasicAuth then
          request.SetBasicAuth c.Authentication.GetBasicAuth.1 c.Authentication.GetBasicAuth.2
        else request
      let request :=
        if c.Authentication.HasUserAgent then
          { request with
            Header := request.Header.Set "User-Agent" c.Authentication.GetUserAgent }
        else request
      (some request, none)

/-- The call `strings.HasSuffix(s, "/")`. -/
def hasSlashSuffix (s : String) : Bool :=
  s.data.getLast? == some '/'

/-- The first step of `New` and `NewV2`: a site that does not end in `/` gets one. -/
def normalizeSite (site : String) : String :=
  if !hasSlashSuffix site then site ++ "/" else site

/-- The service constructors that `New` and `NewV2` call and whose sources are
not part of the repository files at hand, each given by the error it returns for a
version (nil when it succeeds). -/
structure ServiceConstructors where
  NewBoardService : String → Option Error
  NewEpicService : String → Option Error
  NewApplicationRoleService : String → Option Error
  NewDashboardService : String → Option Error
  NewFilterShareService : String → Option Error
  NewFilterService : String → Option Error
  NewGroupService : String → Option Error
  NewIssueAttachmentService : String → Option Error

/-- The first error in a sequence of constructor calls. -/
def firstError : List (Option Error) → Option Error
  | [] => none
  | some err :: _ => some err
  | none :: rest => firstError rest

/-- The constructor `agile.New`: `defaultClient` is `http.DefaultClient`, taken when
the transport handed in is nil. The services are built in the order board, epic,
sprint with the version `1.0` on the client, which is given to them as it is in the
end; the client returned carries the transport, the parsed site and a fresh
authentication service. -/
def New (url : NetURL) (services : ServiceConstructors) (defaultClient : Request → DoResult)
    (httpClient : Option (Request → DoResult)) (site : String) :
    Option Client × Option Error :=
  let httpClient := httpClient.getD defaultClient
  let site := normalizeSite site
  match url.Parse site with
  | .error err => (none, some err)
  | .ok siteAsURL =>
    let client : Client :=
      { HTTP := httpClient, Site := siteAsURL, Auth := NewAuthenticationService }
    match firstError [services.NewBoardService "1.0", services.NewEpicService "1.0",
        (NewSprintService client "1.0").2] with
    | some err => (none, some err)
    | none => (some client, none)

/-- The constructor `v3.NewV2`. The services are built with the version `3`, in
the order application role, dashboard, filter share, filter, group, issue
attachment, comment, issue. -/
def NewV2 (url : NetURL) (services : ServiceConstructors) (defaultClient : Request → DoResult)
    (httpClient : Option (Request → DoResult)) (site : String) :
    Option ClientV2 × Option Error :=
  let httpClient := httpClient.getD defaultClient
  let site := normalizeSite site
  match url.Parse site with
  | .error err => (none, some err)
  | .ok siteAsURL =>
    let client : ClientV2 :=
      { HTTP := httpClient, Site := siteAsURL, Authentication := NewAuthenticationService }
    let issueServices : IssueServices := { Attachment := some (), CommentADF := some () }
    match firstError [services.NewApplicationRoleService "3", services.NewDashboardService "3",
        services.NewFilterShareService "3", services.NewFilterService "3",
        services.NewGroupService "3", services.NewIssueAttachmentService "3",
        (NewCommentService client "3").2.2,
        (NewIssueService client "3" (some issueServices)).2.2] with
    | some err => (none, some err)
    | none => (some client, none)

/-- The error of a constructor that checks the version the way `NewSprintService`
does. -/
def versionError (version : String) : Option Error :=
  (NewSprintService () version).2

/-- Service constructors that check the version the way `NewSprintService` does. -/
def versionChecked : ServiceConstructors :=
  { NewBoardService := versionError, NewEpicService := versionError,
    NewApplicationRoleService := versionError, NewDashboardService := versionError,
    NewFilterShareService := versionError, NewFilterService := versionError,
    NewGroupService := versionError, NewIssueAttachmentService := versionError }

/-- A transport that answers nothing, standing for `http.DefaultClient` in the
sample runs. -/
def silentTransport : Request → DoResult :=
  fun _ => ⟨none, some (.other "no network")⟩

/-! ## The resource services -/

/-- The agile client as a `service.Client`. A nil request makes the transport
dereference a nil pointer. -/
def Client.asServiceClient (json : JSONCodec) (url : NetURL) (c : Client) : ServiceClient :=
  { NewRequest := fun ctx method apiEndpoint payload =>
      .returns (Client.NewRequest url c ctx method apiEndpoint payload),
    Call := fun request target =>
      match request with
      | some request => Client.Call json url c request target
      | none => .panics,
    TransformStructToReader := fun payload =>
      .returns (Client.TransformStructToReader json payload) }

/-- Struct types of `pkg/infra/models` of which the services make values. Their
declarations are not among the files at hand, so each is given by the fields of
the value made: of `SprintPayloadScheme{State: state}` for a state, and of the zero
value for the three result types. -/
structure ModelTypes where
  SprintPayloadScheme : String → List (StructField × GoValue)
  RequestParticipantPageScheme : List (StructField × GoValue)
  SprintIssuePageScheme : List (StructField × GoValue)
  IssueTransitionsScheme : List (StructField × GoValue)

/-- What a pointer made with `new` points to once `Call` has been given it as the
decode target. -/
def pointeeAfter (zero : GoValue) (target : Interface) : GoValue :=
  match target with
  | some (.pointer (some v)) => v
  | _ => zero

/-- The fields of `model.IssueOptionScheme` that `Issues` reads. -/
structure IssueOptionScheme where
  ValidateQuery : Bool := false
  JQL : String := ""
  Expand : List String := []
  Fields : List String := []

/-- The method `internalSprintImpl.Issues`; the page is given by what the pointer
returned points to. -/
def internalSprintImpl.Issues (models : ModelTypes)
    (i : internalSprintImpl (Option ServiceClient)) (ctx : Option Context) (sprintID : Int)
    (opts : Option IssueOptionScheme) (startAt maxResults : Int) :
    Traced (Option GoValue × Option ResponseScheme × Option Error) :=
  if sprintID = 0 then .pure (none, none, some .ErrNoSprintIDError)
  else
    let params : Values := {}
    let params := params.Add "startAt" (Itoa startAt)
    let params := params.Add "maxResults" (Itoa maxResults)
    let params :=
      match opts with
      | some opts =>
        let params := if !opts.ValidateQuery then params.Add "validateQuery" "false" else params
        let params := if opts.JQL ≠ "" then params.Add "jql" opts.JQL else params
        let params :=
          if opts.Expand ≠ [] then params.Add "expand" (Join opts.Expand ",") else params
        if opts.Fields ≠ [] then params.Add "fields" (Join opts.Fields ",") else params
      | none => params
    let endpoint :=
      "rest/agile/" ++ i.version ++ "/sprint/" ++ Itoa sprintID ++ "/issue?" ++ params.Encode
    (callNewRequest i.c ctx "GET" endpoint none).bind fun r =>
    match r with
    | (_, some err) => .pure (none, none, some err)
    | (request, none) =>
      let page : GoValue := .struct models.SprintIssuePageScheme
      (callCall i.c request (some (.pointer (some page)))).bind fun r =>
      match r.err with
      | some err => .pure (none, r.envelope, some err)
      | none => .pure (some (pointeeAfter page r.target), r.envelope, none)

/-- The method `internalSprintImpl.Start`. -/
def internalSprintImpl.Start (models : ModelTypes)
    (i : internalSprintImpl (Option ServiceClient)) (ctx : Option Context) (sprintID : Int) :
    Traced (Option ResponseScheme × Option Error) :=
  if sprintID = 0 then .pure (none, some .ErrNoSprintIDError)
  else
    let payload : GoValue := .struct (models.SprintPayloadScheme "Active")
    (callTransformStructToReader i.c (some (.value payload))).bind fun r =>
    match r with
    | (_, some err) => .pure (none, some err)
    | (reader, none) =>
      let endpoint := "rest/agile/" ++ i.version ++ "/sprint/" ++ Itoa sprintID
      (callNewRequest i.c ctx "POST" endpoint reader).bind fun r =>
      match r with
      | (_, some err) => .pure (none, some err)
      | (request, none) =>
        (callCall i.c request none).bind fun r => .pure (r.envelope, r.err)

/-- The method `internalSprintImpl.Close`. -/
def internalSprintImpl.Close (models : ModelTypes)
    (i : internalSprintImpl (Option ServiceClient)) (ctx : Option Context) (sprintID : Int) :
    Traced (Option ResponseScheme × Option Error) :=
  if sprintID = 0 then .pure (none, some .ErrNoSprintIDError)
  else
    let payload : GoValue := .struct (models.SprintPayloadScheme "Closed")
    (callTransformStructToReader i.c (some (.value payload))).bind fun r =>
    match r with
    | (_, some err) => .pure (none, some err)
    | (reader, none) =>
      let endpoint := "rest/agile/" ++ i.version ++ "/sprint/" ++ Itoa sprintID
      (callNewRequest i.c ctx "POST" endpoint reader).bind fun r =>
      match r with
      | (_, some err) => .pure (none, some err)
      | (request, none) =>
        (callCall i.c request none).bind fun r => .pure (r.envelope, r.err)

/-- The method `SprintService.Start`. -/
def SprintService.Start (models : ModelTypes) (s : SprintService (Option ServiceClient))
    (ctx : Option Context) (sprintID : Int) : Traced (Option ResponseScheme × Option Error) :=
  s.internalClient.Start models ctx sprintID

/-- The method `SprintService.Close`. -/
def SprintService.Close (models : ModelTypes) (s : SprintService (Option ServiceClient))
    (ctx : Option Context) (sprintID : Int) : Traced (Option ResponseScheme × Option Error) :=
  s.internalClient.Close models ctx sprintID

/-- The method `internalServiceRequestParticipantImpl.Gets`. -/
def internalServiceRequestParticipantImpl.Gets (models : ModelTypes)
    (i : internalServiceRequestParticipantImpl (Option ServiceClient)) (ctx : Option Context)
    (issueKeyOrID : String) (start limit : Int) :
    Traced (Option GoValue × Option ResponseScheme × Option Error) :=
  if issueKeyOrID = "" then .pure (none, none, some .ErrNoIssueKeyOrIDError)
  else
    let params : Values := {}
    let params := params.Add "start" (Itoa start)
    let params := params.Add "limit" (Itoa limit)
    let endpoint :=
      "rest/servicedeskapi/request/" ++ issueKeyOrID ++ "/participant?" ++ params.Encode
    (callNewRequest i.c ctx "GET" endpoint none).bind fun r =>
    match r with
    | (_, some err) => .pure (none, none, some err)
    | (request, none) =>
      let page : GoValue := .struct models.RequestParticipantPageScheme
      (callCall i.c request (some (.pointer (some page)))).bind fun r =>
      match r.err with
      | some err => .pure (none, r.envelope, some err)
      | none => .pure (some (pointeeAfter page r.target), r.envelope, none)

/-- The anonymous struct with the account ids that `Add` and `Remove` send. -/
def accountIdsPayload (accountIDs : List String) : GoValue :=
  .struct [({ Name := "AccountIds", JSONName := "accountIds" },
    .strs (some (accountIDs.map bytesOf)))]

/-- The method `internalServiceRequestParticipantImpl.Add`. -/
def internalServiceRequestParticipantImpl.Add (models : ModelTypes)
    (i : internalServiceRequestParticipantImpl (Option ServiceClient)) (ctx : Option Context)
    (issueKeyOrID : String) (accountIDs : List String) :
    Traced (Option GoValue × Option ResponseScheme × Option Error) :=
  if issueKeyOrID = "" then .pure (none, none, some .ErrNoIssueKeyOrIDError)
  else if accountIDs.length = 0 then .pure (none, none, some .ErrNoAccountSliceError)
  else
    let payload := accountIdsPayload accountIDs
    (callTransformStructToReader i.c (some (.pointer (some payload)))).bind fun r =>
    match r with
    | (_, some err) => .pure (none, none, some err)
    | (reader, none) =>
      let endpoint := "rest/servicedeskapi/request/" ++ issueKeyOrID ++ "/participant"
      (callNewRequest i.c ctx "POST" endpoint reader).bind fun r =>
      match r with
      | (_, some err) => .pure (none, none, some err)
      | (request, none) =>
        let page : GoValue := .struct models.RequestParticipantPageScheme
        (callCall i.c request (some (.pointer (some page)))).bind fun r =>
        match r.err with
        | some err => .pure (none, r.envelope, some err)
        | none => .pure (some (pointeeAfter page r.target), r.envelope, none)

/-- The method `internalServiceRequestParticipantImpl.Remove`. -/
def internalServiceRequestParticipantImpl.Remove (models : ModelTypes)
    (i : internalServiceRequestParticipantImpl (Option ServiceClient)) (ctx : Option Context)
    (issueKeyOrID : String) (accountIDs : List String) :
    Traced (Option GoValue × Option ResponseScheme × Option Error) :=
  if issueKeyOrID = "" then .pure (none, none, some .ErrNoIssueKeyOrIDError)
  else if accountIDs.length = 0 then .pure (none, none, some .ErrNoAccountSliceError)
  else
    let payload := accountIdsPayload accountIDs
    (callTransformStructToReader i.c (some (.pointer (some payload)))).bind fun r =>
    match r with
    | (_, some err) => .pure (none, none, some err)
    | (reader, none) =>
      let endpoint := "rest/servicedeskapi/request/" ++ issueKeyOrID ++ "/participant"
      (callNewRequest i.c ctx "DELETE" endpoint reader).bind fun r =>
      match r with
      | (_, some err) => .pure (none, none, some err)
      | (request, none) =>
        let page : GoValue := .struct models.RequestParticipantPageScheme
        (callCall i.c request (some (.pointer (some page)))).bind fun r =>
        match r.err with
        | some err => .pure (none, r.envelope, some err)
        | none => .pure (some (pointeeAfter page r.target), r.envelope, none)

/-- The method `ParticipantService.Gets`. -/
def ParticipantService.Gets (models : ModelTypes)
    (s : ParticipantService (Option ServiceClient)) (ctx : Option Context)
    (issueKeyOrID : String) (start limit : Int) :
    Traced (Option GoValue × Option ResponseScheme × Option Error) :=
  s.internalClient.Gets models ctx issueKeyOrID start limit

/-- The method `ParticipantService.Add`. -/
def ParticipantService.Add (models : ModelTypes)
    (s : ParticipantService (Option ServiceClient)) (ctx : Option Context)
    (issueKeyOrID : String) (accountIDs : List String) :
    Traced (Option GoValue × Option ResponseScheme × Option Error) :=
  s.internalClient.Add models ctx issueKeyOrID accountIDs

/-- The method `ParticipantService.Remove`. -/
def ParticipantService.Remove (models : ModelTypes)
    (s : ParticipantService (Option ServiceClient)) (ctx : Option Context)
    (issueKeyOrID : String) (accountIDs : List String) :
    Traced (Option GoValue × Option ResponseScheme × Option Error) :=
  s.internalClient.Remove models ctx issueKeyOrID accountIDs

/-- The fields of `model.IssueMetadataCreateOptions` that `Create` reads. -/
structure IssueMetadataCreateOptions where
  IssueTypeIDs : List String := []
  IssueTypeNames : List String := []
  ProjectIDs : List String := []
  ProjectKeys : List String := []
  Expand : String := ""

/-- A `gjson.Result`: the zero value, or what `gjson.ParseBytes` makes of bytes. -/
inductive GJSONResult where
  | zero
  | parsed (json : Bytes)

/-- The method `internalMetadataImpl.Create`. The options are read through the
pointer before anything else is done, and the bytes through the envelope that `Call`
returned. -/
def internalMetadataImpl.Create (i : internalMetadataImpl (Option ServiceClient))
    (ctx : Option Context) (opts : Option IssueMetadataCreateOptions) :
    Traced (GJSONResult × Option ResponseScheme × Option Error) :=
  let params : Values := {}
  match opts with
  | none => ⟨[], .panics⟩
  | some opts =>
    let params := opts.IssueTypeIDs.foldl (fun params id => params.Add "issuetypeIds" id) params
    let params :=
      opts.IssueTypeNames.foldl (fun params name => params.Add "issuetypeNames" name) params
    let params := opts.ProjectIDs.foldl (fun params id => params.Add "projectIds" id) params
    let params := opts.ProjectKeys.foldl (fun params key => params.Add "projectKeys" key) params
    let params := if opts.Expand ≠ "" then params.Add "expand" opts.Expand else params
    let endpoint := "rest/api/" ++ i.version ++ "/issue/createmeta?" ++ params.Encode
    (callNewRequest i.c ctx "GET" endpoint none).bind fun r =>
    match r with
    | (_, some err) => .pure (.zero, none, some err)
    | (request, none) =>
      (callCall i.c request none).bind fun r =>
      match r.err, r.envelope with
      | some err, response => .pure (.zero, response, some err)
      | none, some response => .pure (.parsed response.Bytes, some response, none)
      | none, none => ⟨[], .panics⟩

/-- The method `MetadataService.Create`. -/
def MetadataService.Create (m : MetadataService (Option ServiceClient))
    (ctx : Option Context) (opts : Option IssueMetadataCreateOptions) :
    Traced (GJSONResult × Option ResponseScheme × Option Error) :=
  m.internalClient.Create ctx opts

/-- The function `deleteIssue`. -/
def deleteIssue (ctx : Option Context) (client : Option ServiceClient)
    (version issueKeyOrId : String) (deleteSubTasks : Bool) :
    Traced (Option ResponseScheme × Option Error) :=
  if issueKeyOrId = "" then .pure (none, some .ErrNoIssueKeyOrIDError)
  else
    let params : Values := {}
    let params := params.Add "deleteSubtasks" (formatBool deleteSubTasks)
    let endpoint := "rest/api/" ++ version ++ "/issue/" ++ issueKeyOrId ++ "?" ++ params.Encode
    (callNewRequest client ctx "DELETE" endpoint none).bind fun r =>
    match r with
    | (_, some err) => .pure (none, some err)
    | (request, none) =>
      (callCall client request none).bind fun r => .pure (r.envelope, r.err)

/-- The anonymous struct with the account id that `assignIssue` sends. -/
def accountIdPayload (accountId : String) : GoValue :=
  .struct [({ Name := "AccountID", JSONName := "accountId" }, .str (bytesOf accountId))]

/-- The function `assignIssue`. -/
def assignIssue (ctx : Option Context) (client : Option ServiceClient)
    (version issueKeyOrId accountId : String) :
    Traced (Option ResponseScheme × Option Error) :=
  if issueKeyOrId = "" then .pure (none, some .ErrNoIssueKeyOrIDError)
  else if accountId = "" then .pure (none, some .ErrNoAccountIDError)
  else
    let payload := accountIdPayload accountId
    (callTransformStructToReader client (some (.pointer (some payload)))).bind fun r =>
    match r with
    | (_, some err) => .pure (none, some err)
    | (reader, none) =>
      let endpoint := "/rest/api/" ++ version ++ "/issue/" ++ issueKeyOrId ++ "/assignee"
      (callNewRequest client ctx "PUT" endpoint reader).bind fun r =>
      match r with
      | (_, some err) => .pure (none, some err)
      | (request, none) =>
        (callCall client request none).bind fun r => .pure (r.envelope, r.err)

/-- The function `sendNotification`; the options are a pointer that may be nil. -/
def sendNotification (ctx : Option Context) (client : Option ServiceClient)
    (version issueKeyOrId : String) (options : Option GoValue) :
    Traced (Option ResponseScheme × Option Error) :=
  if issueKeyOrId = "" then .pure (none, some .ErrNoIssueKeyOrIDError)
  else
    (callTransformStructToReader client (some (.pointer options))).bind fun r =>
    match r with
    | (_, some err) => .pure (none, some err)
    | (reader, none) =>
      let endpoint := "rest/api/" ++ version ++ "/issue/" ++ issueKeyOrId ++ "/notify"
      (callNewRequest client ctx "POST" endpoint reader).bind fun r =>
      match r with
      | (_, some err) => .pure (none, some err)
      | (request, none) =>
        (callCall client request none).bind fun r => .pure (r.envelope, r.err)

/-- The function `getTransitions`. -/
def getTransitions (models : ModelTypes) (ctx : Option Context)
    (client : Option ServiceClient) (version issueKeyOrId : String) :
    Traced (Option GoValue × Option ResponseScheme × Option Error) :=
  if issueKeyOrId = "" then .pure (none, none, some .ErrNoIssueKeyOrIDError)
  else
    let endpoint := "rest/api/" ++ version ++ "/issue/" ++ issueKeyOrId ++ "/transitions"
    (callNewRequest client ctx "GET" endpoint none).bind fun r =>
    match r with
    | (_, some err) => .pure (none, none, some err)
    | (request, none) =>
      let transitions : GoValue := .struct models.IssueTransitionsScheme
      (callCall client request (some (.pointer (some transitions)))).bind fun r =>
      match r.err with
      | some err => .pure (none, r.envelope, some err)
      | none => .pure (some (pointeeAfter transitions r.target), r.envelope, none)

/-! ## Confluence: content restrictions by operation and group -/

/-- The package `github.com/google/uuid` as the service uses it: `Parse`, and the
method `String` of the UUID parsed; a UUID is given by its 16 bytes. -/
structure UUIDPackage where
  Parse : String → Except Error Bytes
  String : Bytes → String

/-- The value of a hexadecimal digit given as a byte (the table `xvalues`). -/
def xvalue (b : Nat) : Option Nat :=
  if 48 ≤ b ∧ b ≤ 57 then some (b - 48)
  else if 97 ≤ b ∧ b ≤ 102 then some (b - 87)
  else if 65 ≤ b ∧ b ≤ 70 then some (b - 55)
  else none

/-- The function `xtob`: the byte two hexadecimal digits stand for. -/
def xtob (x1 x2 : Nat) : Option Nat :=
  match xvalue x1, xvalue x2 with
  | some b1, some b2 => some (b1 * 16 + b2)
  | _, _ => none

/-- The bytes that the hexadecimal digits at the given offsets stand for. -/
def hexBytesAt (s : Bytes) : List Nat → Option Bytes
  | [] => some []
  | x :: xs =>
    match xtob (s.getD x 0) (s.getD (x + 1) 0), hexBytesAt s xs with
    | some v, some rest => some (v :: rest)
    | _, _ => none

/-- A byte with an ASCII capital letter turned into its small letter. -/
def lowerByte (b : Nat) : Nat :=
  if 65 ≤ b ∧ b ≤ 90 then b + 32 else b

/-- The function `uuid.Parse` (as of version 1.3 of the package): the forms
`xxxxxxxx-xxxx-xxxx-xxxx-xxxxxxxxxxxx`, the same after `urn:uuid:` or with one
character before and one after it, and 32 hexadecimal digits in a row. -/
def uuidParse (s : String) : Except Error Bytes :=
  let b := bytesOf s
  let dashed (b : Bytes) : Except Error Bytes :=
    if b.getD 8 0 ≠ 45 ∨ b.getD 13 0 ≠ 45 ∨ b.getD 18 0 ≠ 45 ∨ b.getD 23 0 ≠ 45 then
      .error (.other "invalid UUID format")
    else
      match hexBytesAt b [0, 2, 4, 6, 9, 11, 14, 16, 19, 21, 24, 26, 28, 30, 32, 34] with
      | some uuid => .ok uuid
      | none => .error (.other "invalid UUID format")
  if b.length = 36 then dashed b
  else if b.length = 36 + 9 then
    if (b.take 9).map lowerByte ≠ bytesOf "urn:uuid:" then .error (.other "invalid urn prefix")
    else dashed (b.drop 9)
  else if b.length = 36 + 2 then dashed (b.drop 1)
  else if b.length = 32 then
    match hexBytesAt b ((List.range 16).map (· * 2)) with
    | some uuid => .ok uuid
    | none => .error (.other "invalid UUID format")
  else .error (.other "invalid UUID length")

/-- One digit of the lower-case hexadecimal alphabet. -/
def lowerhex (n : Nat) : Char :=
  if n < 10 then Char.ofNat (48 + n) else Char.ofNat (87 + n)

/-- The lower-case hexadecimal digits of bytes. -/
def hexOf (bs : Bytes) : List Char :=
  bs.flatMap fun b => [lowerhex (b / 16), lowerhex (b % 16)]

/-- The method `UUID.String`: `xxxxxxxx-xxxx-xxxx-xxxx-xxxxxxxxxxxx` in small
letters. -/
def uuidString (uuid : Bytes) : String :=
  String.mk (hexOf (uuid.take 4) ++ '-' :: hexOf ((uuid.drop 4).take 2) ++
    '-' :: hexOf ((uuid.drop 6).take 2) ++ '-' :: hexOf ((uuid.drop 8).take 2) ++
    '-' :: hexOf (uuid.drop 10))

/-- The package `github.com/google/uuid`. -/
def googleUUID : UUIDPackage :=
  { Parse := uuidParse, String := uuidString }

/-- The Confluence client as the service uses it; its source and the one of its
envelope type `R` are not among the files at hand. -/
structure ConfluenceClient (R : Type) where
  newRequest : Option Context → String → String → Option Bytes →
    Run (Option Request × Option Error)
  Call : Option Request → Interface → Run (Option R × Option Error)

/-- The struct `ContentRestrictionOperationGroupService`. -/
structure ContentRestrictionOperationGroupService (R : Type) where
  client : ConfluenceClient R

/-- The method `ContentRestrictionOperationGroupService.Get`. -/
def ContentRestrictionOperationGroupService.Get {R : Type} (uuid : UUIDPackage)
    (c : ContentRestrictionOperationGroupService R) (ctx : Option Context)
    (contentID operationKey groupNameOrID : String) : Traced (Option R × Option Error) :=
  if contentID.length = 0 then .pure (none, some .ErrNoContentIDError)
  else if operationKey.length = 0 then .pure (none, some .ErrNoContentRestrictionKeyError)
  else if groupNameOrID.length = 0 then .pure (none, some .ErrNoConfluenceGroupError)
  else
    let endpoint :=
      "rest/api/content/" ++ contentID ++ "/restriction/byOperation/" ++ operationKey ++ "/"
    let endpoint :=
      match uuid.Parse groupNameOrID with
      | .ok groupID => endpoint ++ ("byGroupId/" ++ uuid.String groupID)
      | .error _ => endpoint ++ ("group/" ++ groupNameOrID)
    Traced.bind ⟨[.NewRequest ctx "GET" endpoint none], c.client.newRequest ctx "GET" endpoint none⟩
      fun r =>
    match r with
    | (_, some err) => .pure (none, some err)
    | (request, none) =>
      Traced.bind ⟨[.Call request none], c.client.Call request none⟩ fun r =>
      match r with
      | (response, some err) => .pure (response, some err)
      | (response, none) => .pure (response, none)

/-- The method `ContentRestrictionOperationGroupService.Add`. -/
def ContentRestrictionOperationGroupService.Add {R : Type} (uuid : UUIDPackage)
    (c : ContentRestrictionOperationGroupService R) (ctx : Option Context)
    (contentID operationKey groupNameOrID : String) : Traced (Option R × Option Error) :=
  if contentID.length = 0 then .pure (none, some .ErrNoContentIDError)
  else if operationKey.length = 0 then .pure (none, some .ErrNoContentRestrictionKeyError)
  else if groupNameOrID.length = 0 then .pure (none, some .ErrNoConfluenceGroupError)
  else
    let endpoint :=
      "rest/api/content/" ++ contentID ++ "/restriction/byOperation/" ++ operationKey ++ "/"
    let endpoint :=
      match uuid.Parse groupNameOrID with
      | .ok groupID => endpoint ++ ("byGroupId/" ++ uuid.String groupID)
      | .error _ => endpoint ++ ("group/" ++ groupNameOrID)
    Traced.bind ⟨[.NewRequest ctx "PUT" endpoint none], c.client.newRequest ctx "PUT" endpoint none⟩
      fun r =>
    match r with
    | (_, some err) => .pure (none, some err)
    | (request, none) =>
      Traced.bind ⟨[.Call request none], c.client.Call request none⟩ fun r =>
      match r with
      | (response, some err) => .pure (response, some err)
      | (response, none) => .pure (response, none)

/-- The method `ContentRestrictionOperationGroupService.Remove`. -/
def ContentRestrictionOperationGroupService.Remove {R : Type} (uuid : UUIDPackage)
    (c : ContentRestrictionOperationGroupService R) (ctx : Option Context)
    (contentID operationKey groupNameOrID : String) : Traced (Option R × Option Error) :=
  if contentID.length = 0 then .pure (none, some .ErrNoContentIDError)
  else if operationKey.length = 0 then .pure (none, some .ErrNoContentRestrictionKeyError)
  else if groupNameOrID.length = 0 then .pure (none, some .ErrNoConfluenceGroupError)
  else
    let endpoint :=
      "rest/api/content/" ++ contentID ++ "/restriction/byOperation/" ++ operationKey ++ "/"
    let endpoint :=
      match uuid.Parse groupNameOrID with
      | .ok groupID => endpoint ++ ("byGroupId/" ++ uuid.String groupID)
      | .error _ => endpoint ++ ("group/" ++ groupNameOrID)
    Traced.bind
      ⟨[.NewRequest ctx "DELETE" endpoint none], c.client.newRequest ctx "DELETE" endpoint none⟩
      fun r =>
    match r with
    | (_, some err) => .pure (none, some err)
    | (request, none) =>
      Traced.bind ⟨[.Call request none], c.client.Call request none⟩ fun r =>
      match r with
      | (response, some err) => .pure (response, some err)
      | (response, none) => .pure (response, none)

/-! ## Sample values -/

/-- A request to a sprint of the agile API. -/
def sampleRequest : Request :=
  { ctx := {}, Method := "GET",
    URL := { Scheme := "https", Host := "x.atlassian.net", Path := "/rest/agile/1.0/sprint/1" },
    Header := Header.empty, Body := none }

/-- A response to `sampleRequest` with the given status code and body text. -/
def sampleResponse (code : Int) (body : String) : Response :=
  { StatusCode := code, Request := sampleRequest, Body := { data := bytesOf body } }

/-- A response to `sampleRequest` whose body delivers the given text and then fails
to read, the way a connection cut before the announced length does. -/
def brokenResponse (code : Int) (body : String) : Response :=
  { StatusCode := code, Request := sampleRequest,
    Body := { data := bytesOf body, err := some (.other "unexpected EOF") } }

/-- A struct with the one string field `Name`, tagged with the given key. -/
def keyedStruct (key value : String) : GoValue :=
  .struct [({ Name := "Name", JSONName := key }, .str (bytesOf value))]

/-- A slice of strings. -/
def stringSlice (elems : List String) : GoValue :=
  .strs (some (elems.map bytesOf))

/-- An agile client whose transport always answers with the given result. -/
def sampleClient (answer : DoResult) : Client :=
  { HTTP := fun _ => answer, Site := { Scheme := "https", Host := "x.atlassian.net", Path := "/" },
    Auth := NewAuthenticationService }

/-- A v3 client whose transport always answers with the given result. -/
def sampleClientV2 (answer : DoResult) : ClientV2 :=
  { HTTP := fun _ => answer, Site := { Scheme := "https", Host := "x.atlassian.net", Path := "/" },
    Authentication := NewAuthenticationService }

/-- The error body of the 400 scenario. -/
def badRequestBody : String := "\x7b\"errorMessages\":[\"bad\"]\x7d"

/-- A struct with the single field `Name`, tagged `name`, holding the given string. -/
def nameStruct (name : String) : GoValue :=
  .struct [({ Name := "Name", JSONName := "name" }, .str (bytesOf name))]

/-- Layouts for the struct types of `pkg/infra/models` in the sample runs: the
sprint payload has the one field `State`, the result types have no field. -/
def sampleModels : ModelTypes :=
  { SprintPayloadScheme := fun state =>
      [({ Name := "State", JSONName := "state", OmitEmpty := true }, .str (bytesOf state))],
    RequestParticipantPageScheme := [],
    SprintIssuePageScheme := [],
    IssueTransitionsScheme := [] }

/-- A client in the manner of the mock of the tests of the methods without a
payload: `NewRequest` and `Call` return what they are told to, whatever they are
given, and `TransformStructToReader`, for which the mock has no expectation,
panics. -/
def mockClient (request : Option Request × Option Error) (answer : CallResult) :
    ServiceClient :=
  { NewRequest := fun _ _ _ _ => .returns request,
    Call := fun _ _ => .returns answer,
    TransformStructToReader := fun _ => .panics }

/-- A client in the manner of the mock of the tests of the methods with a payload:
as `mockClient`, and `TransformStructToReader` returns what it is told to. -/
def mockClientWithReader (reader : Option Bytes × Option Error)
    (request : Option Request × Option Error) (answer : CallResult) : ServiceClient :=
  { NewRequest := fun _ _ _ _ => .returns request,
    Call := fun _ _ => .returns answer,
    TransformStructToReader := fun _ => .returns reader }

/-! ## Notions used to state the theorems -/

/-- The envelope that `Call` builds for a response, holding the given bytes. -/
def envelopeOf (url : NetURL) (response : Response) (bytes : Bytes) : ResponseScheme :=
  { Response := some response, Code := response.StatusCode,
    Endpoint := url.String response.Request.URL, Method := response.Request.Method,
    Bytes := bytes }

/-- The headers `NewRequest` sets on a fresh request, in its order: `Accept`, then
`Content-Type` for a non-nil body, then the basic-auth and user-agent headers the
authentication strategy reports. -/
def requestHeaders (auth : AuthenticationService) (payload : Option Bytes) : Header :=
  let h := Header.empty.Set "Accept" "application/json"
  let h := if payload.isSome then h.Set "Content-Type" "application/json" else h
  let h :=
    if auth.HasBasicAuth then
      h.Set "Authorization" ("Basic " ++ base64 (auth.GetBasicAuth.1 ++ ":" ++ auth.GetBasicAuth.2))
    else h
  if auth.HasUserAgent then h.Set "User-Agent" auth.GetUserAgent else h

/-- An agile client with the given authentication strategy. -/
def clientWithAuth (auth : AuthenticationService) : Client :=
  { HTTP := fun _ => ⟨none, none⟩,
    Site := { Scheme := "https", Host := "x.atlassian.net", Path := "/" }, Auth := auth }

/-- The text after a value written inside an object or at the end of the input: it
is empty or starts with a comma or a closing brace. -/
def Terminated (rest : List Char) : Prop :=
  ∀ c, rest.head? = some c → c = ',' ∨ c = '}'

mutual
/-- The parsed form of the JSON text `Marshal` writes for a value. -/
def jsonOf : GoValue → JSON
  | .bool b => .bool b
  | .int n => .number (encodeInt n)
  | .str s => .string (goText s)
  | .strs none => .null
  | .strs (some elems) => .array (elems.map fun s => .string (goText s))
  | .struct fields => .object (jsonMembers (fields.map Prod.fst) fields)
/-- The parsed members `Marshal` writes for the fields of a struct. -/
def jsonMembers (all : List StructField) : List (StructField × GoValue) → List (String × JSON)
  | [] => []
  | (f, v) :: rest =>
      if dominant all f && !(f.OmitEmpty && isEmptyValue v) then
        (f.key, jsonOf v) :: jsonMembers all rest
      else jsonMembers all rest
end

mutual
/-- The fuel the parser needs for the text of a value. -/
def weight : GoValue → Nat
  | .bool _ => 1
  | .int _ => 1
  | .str _ => 1
  | .strs none => 1
  | .strs (some elems) => elems.length + 2
  | .struct fields => weightFields (fields.map Prod.fst) fields + 1
/-- The fuel the parser needs for the members written for the fields of a struct. -/
def weightFields (all : List StructField) : List (StructField × GoValue) → Nat
  | [] => 0
  | (f, v) :: rest =>
      if dominant all f && !(f.OmitEmpty && isEmptyValue v) then
        weight v + 1 + weightFields all rest
      else weightFields all rest
end

mutual
/-- How deep the structs and slices of a value are nested. -/
def GoValue.nesting : GoValue → Nat
  | .bool _ => 0
  | .int _ => 0
  | .str _ => 0
  | .strs none => 0
  | .strs (some _) => 1
  | .struct fields => nestingFields fields + 1
/-- The deepest nesting among the fields of a struct. -/
def nestingFields : List (StructField × GoValue) → Nat
  | [] => 0
  | (_, v) :: rest => max v.nesting (nestingFields rest)
end

/-- No two fields share a JSON key. -/
def distinctKeys : List StructField → Bool
  | [] => true
  | f :: fs => fs.all (fun g => g.key != f.key) && distinctKeys fs

/-- An empty slice that is not nil: under `omitempty` it is left out of the JSON
text, and what is decoded in its place is the nil slice. -/
def emptySlice : GoValue → Bool
  | .strs (some []) => true
  | _ => false

mutual
/-- A value that its JSON text represents in full: a boolean, an integer of 64
bits, a string that is valid UTF-8, a slice of such strings, or a struct whose
fields are all exported and not tagged `-`, have pairwise distinct JSON keys and
hold such values, where no field tagged `omitempty` holds an empty slice that is not
nil. -/
def GoValue.plain : GoValue → Bool
  | .bool _ => true
  | .int n => decide (-(2 ^ 63 : Int) ≤ n) && decide (n < 2 ^ 63)
  | .str s => validUTF8 s
  | .strs none => true
  | .strs (some elems) => elems.all validUTF8
  | .struct fields =>
      (fields.map Prod.fst).all StructField.candidate && distinctKeys (fields.map Prod.fst) &&
        plainFields fields
/-- Every field holds a plain value, and none tagged `omitempty` an empty slice
that is not nil. -/
def plainFields : List (StructField × GoValue) → Bool
  | [] => true
  | (f, v) :: rest => v.plain && !(f.OmitEmpty && emptySlice v) && plainFields rest
end

/-- The scenario struct with a name given by its bytes, which need not be valid
UTF-8. -/
def rawNameStruct (name : Bytes) : GoValue :=
  .struct [({ Name := "Name", JSONName := "name" }, .str name)]

/-- A struct with the one field `Tags []string` tagged `tags,omitempty`. -/
def tagsStruct (tags : Option (List Bytes)) : GoValue :=
  .struct [({ Name := "Tags", JSONName := "tags", OmitEmpty := true }, .strs tags)]

/-- The scenario struct with a second field that is tagged `-`. -/
def secretStruct (name secret : String) : GoValue :=
  .struct [({ Name := "Name", JSONName := "name" }, .str (bytesOf name)),
    ({ Name := "Secret", Ignored := true }, .str (bytesOf secret))]

/-- The headers `NewFormRequest` sets on a fresh request, in its order: the given
`Content-Type`, `Accept`, the CSRF-bypass token, then the basic-auth and user-agent
headers the authentication strategy reports. -/
def formHeaders (auth : AuthenticationService) (contentType : String) : Header :=
  let h := Header.empty.Add "Content-Type" contentType
  let h := h.Add "Accept" "application/json"
  let h := h.Set "X-Atlassian-Token" "no-check"
  let h :=
    if auth.HasBasicAuth then
      h.Set "Authorization" ("Basic " ++ base64 (auth.GetBasicAuth.1 ++ ":" ++ auth.GetBasicAuth.2))
    else h
  if auth.HasUserAgent then h.Set "User-Agent" auth.GetUserAgent else h

/-- A v3 client with the given authentication strategy. -/
def clientV2WithAuth (auth : AuthenticationService) : ClientV2 :=
  { HTTP := fun _ => ⟨none, none⟩,
    Site := { Scheme := "https", Host := "x.atlassian.net", Path := "/" },
    Authentication := auth }

/-- The part of `parse` after the scheme has been split off: the query, then the
opaque part or the authority and the path. -/
def parseAfterScheme (scheme rest : List Char) : Except Error URL :=
  let forceQuery := rest.getLast? = some '?' && rest.count '?' == 1
  let rest1 := if forceQuery then rest.dropLast else (cutAt '?' rest).1
  let rawQuery := if forceQuery then [] else (cutAt '?' rest).2.1
  if rest1.head? ≠ some '/' ∧ ¬ scheme.isEmpty then
    .ok { Scheme := String.mk scheme, Opaque := String.mk rest1, ForceQuery := forceQuery,
          RawQuery := String.mk rawQuery }
  else if rest1.head? ≠ some '/' ∧ (cutAt '/' rest1).1.contains ':' then
    .error (.other "first path segment in URL cannot contain colon")
  else if (¬ scheme.isEmpty ∨ rest1.take 3 ≠ ['/', '/', '/']) ∧ rest1.take 2 = ['/', '/'] then
    let authority := (rest1.drop 2).takeWhile (· ≠ '/')
    let path := (rest1.drop 2).dropWhile (· ≠ '/')
    .ok { Scheme := String.mk scheme, Host := String.mk authority, Path := String.mk path,
          ForceQuery := forceQuery, RawQuery := String.mk rawQuery }
  else
    .ok { Scheme := String.mk scheme, Path := String.mk rest1, ForceQuery := forceQuery,
          RawQuery := String.mk rawQuery }

/-- The error policy of a service method that asks for one request and passes it
to `Call` with a decode target, stated on a run of the method, on what `NewRequest`
returned and on what `Call` returns for a request. When `NewRequest` fails the
method returns a nil result, a nil envelope and that error, and `Call` is not
invoked. When `Call` fails the method returns a nil result with the envelope and the
error of `Call`. When `Call` succeeds the method returns a non-nil result with the
envelope of `Call` and a nil error. -/
def PropagatesErrors (run : Traced (Option GoValue × Option ResponseScheme × Option Error))
    (newRequest : Run (Option Request × Option Error))
    (call : Option Request → Run CallResult) : Prop :=
  (∀ request err, newRequest = .returns (request, some err) →
    run.outcome = .returns (none, none, some err) ∧
      run.calls.filter ClientCall.isCall = []) ∧
  (∀ request r err, newRequest = .returns (request, none) → call request = .returns r →
    r.err = some err → run.outcome = .returns (none, r.envelope, some err)) ∧
  (∀ request r, newRequest = .returns (request, none) → call request = .returns r →
    r.err = none → ∃ page, run.outcome = .returns (some page, r.envelope, none))

/-- The run of a service method from its call of `NewRequest` on, when it passes
the request to `Call` with a fresh decode target: the steps that `Gets`, `Add`,
`Remove`, `Issues` and `getTransitions` share. -/
def requestThenDecode (c : Option ServiceClient) (ctx : Option Context)
    (method endpoint : String) (payload : Option Bytes) (page : GoValue) :
    Traced (Option GoValue × Option ResponseScheme × Option Error) :=
  (callNewRequest c ctx method endpoint payload).bind fun r =>
    match r with
    | (_, some err) => .pure (none, none, some err)
    | (request, none) =>
      (callCall c request (some (.pointer (some page)))).bind fun r =>
      match r.err with
      | some err => .pure (none, r.envelope, some err)
      | none => .pure (some (pointeeAfter page r.target), r.envelope, none)

/-- The URLs of the requests that a run passed to `Call`, in their order. -/
def requestedURLs (url : NetURL) (calls : List ClientCall) : List String :=
  calls.filterMap fun call =>
    match call with
    | .Call (some request) _ => some (url.String request.URL)
    | _ => none

/-- The query of `Issues` as the documentation of the service describes it, keys in
alphabetical order: `expand`, `fields` and `jql` when the options hold them,
`maxResults`, `startAt`, and `validateQuery=false` when the options do not ask for
validation; `escape` is applied to the values taken from the options. -/
def issuesQueryWith (escape : String → String) (opts : Option IssueOptionScheme)
    (startAt maxResults : Int) : String :=
  Join
    ((match opts with
      | some opts =>
        (if opts.Expand ≠ [] then ["expand=" ++ escape (Join opts.Expand ",")] else []) ++
        (if opts.Fields ≠ [] then ["fields=" ++ escape (Join opts.Fields ",")] else []) ++
        (if opts.JQL ≠ "" then ["jql=" ++ escape opts.JQL] else [])
      | none => []) ++
    ["maxResults=" ++ Itoa maxResults, "startAt=" ++ Itoa startAt] ++
    (match opts with
      | some opts => if opts.ValidateQuery then [] else ["validateQuery=false"]
      | none => [])) "&"

/-- The query of `Issues`, with the values escaped by `url.QueryEscape`. -/
def issuesQuery (opts : Option IssueOptionScheme) (startAt maxResults : Int) : String :=
  issuesQueryWith QueryEscape opts startAt maxResults

/-- The values `Issues` collects for its query. -/
def issuesParams (opts : Option IssueOptionScheme) (startAt maxResults : Int) : Values :=
  let params : Values := {}
  let params := params.Add "startAt" (Itoa startAt)
  let params := params.Add "maxResults" (Itoa maxResults)
  match opts with
  | some opts =>
    let params := if !opts.ValidateQuery then params.Add "validateQuery" "false" else params
    let params := if opts.JQL ≠ "" then params.Add "jql" opts.JQL else params
    let params :=
      if opts.Expand ≠ [] then params.Add "expand" (Join opts.Expand ",") else params
    if opts.Fields ≠ [] then params.Add "fields" (Join opts.Fields ",") else params
  | none => params

/-- The relative path of a content restriction for a group as the documentation
of the service describes it: by the id of the group when the text given is a UUID,
in the form the UUID prints in, and by its name otherwise. -/
def restrictionPath (uuid : UUIDPackage) (contentID operationKey groupNameOrID : String) :
    String :=
  match uuid.Parse groupNameOrID with
  | .ok groupID =>
    "rest/api/content/" ++ contentID ++ "/restriction/byOperation/" ++ operationKey ++
      "/byGroupId/" ++ uuid.String groupID
  | .error _ =>
    "rest/api/content/" ++ contentID ++ "/restriction/byOperation/" ++ operationKey ++
      "/group/" ++ groupNameOrID

/-- The run of a Confluence service method from its call of `newRequest` on, when
it passes the request to `Call` without a decode target. -/
def requestThenCall {R : Type} (client : ConfluenceClient R) (ctx : Option Context)
    (method endpoint : String) : Traced (Option R × Option Error) :=
  Traced.bind ⟨[.NewRequest ctx method endpoint none], client.newRequest ctx method endpoint none⟩
    fun r =>
    match r with
    | (_, some err) => .pure (none, some err)
    | (request, none) =>
      Traced.bind ⟨[.Call request none], client.Call request none⟩ fun r =>
      match r with
      | (response, some err) => .pure (response, some err)
      | (response, none) => .pure (response, none)

/-- A Confluence client in the manner of a mock: `newRequest` and `Call` return
what they are told to. -/
def mockConfluence (request : Option Request × Option Error)
    (answer : Option ResponseScheme × Option Error) : ConfluenceClient ResponseScheme :=
  { newRequest := fun _ _ _ _ => .returns request, Call := fun _ _ => .returns answer }

/-! ## Theorems -/

/-- The success test of `Call` as a proposition. -/
theorem wasSuccess_iff (code : Int) :
    (decide (code ≥ 200) && decide (code < 300)) = true ↔ 200 ≤ code ∧ code < 300 := by
  simp

/-- Agile `Call`, transport failure: no envelope, the error of the transport. -/
theorem agile_Call_transport_error (json : JSONCodec) (url : NetURL) (c : Client)
    (request : Request) (target : Interface) (r : Option Response) (e : Error)
    (hDo : c.HTTP request = ⟨r, some e⟩) :
    Client.Call json url c request target = .returns ⟨none, some e, target⟩ := by
  simp [Client.Call, hDo]

/-- Agile `Call`, unreadable body: the envelope without bytes, the read error. -/
theorem agile_Call_read_error (json : JSONCodec) (url : NetURL) (c : Client)
    (request : Request) (target : Interface) (response : Response) (e : Error)
    (hDo : c.HTTP request = ⟨some response, none⟩) (hRead : response.Body.err = some e) :
    Client.Call json url c request target =
      .returns ⟨some (envelopeOf url response []), some e, target⟩ := by
  simp [Client.Call, hDo, Client.TransformTheHTTPResponse, ReadAll, hRead, envelopeOf]

/-- Agile `Call`, status outside [200, 300): the envelope with the body, the status
error, the target untouched. -/
theorem agile_Call_status_error (json : JSONCodec) (url : NetURL) (c : Client)
    (request : Request) (target : Interface) (response : Response)
    (hDo : c.HTTP request = ⟨some response, none⟩) (hRead : response.Body.err = none)
    (hCode : ¬ (200 ≤ response.StatusCode ∧ response.StatusCode < 300)) :
    Client.Call json url c request target =
      .returns ⟨some (envelopeOf url response response.Body.data),
        some .ErrInvalidStatusCodeError, target⟩ := by
  have h : (decide (response.StatusCode ≥ 200) && decide (response.StatusCode < 300)) = false := by
    rw [Bool.eq_false_iff]
    intro hc
    exact hCode ((wasSuccess_iff _).1 hc)
  simp only [Client.Call, hDo, Client.TransformTheHTTPResponse, ReadAll, hRead, h, envelopeOf,
    BufferWrite]
  simp

/-- Agile `Call`, status in [200, 300) and a nil target: the envelope with the body
and a nil error. -/
theorem agile_Call_success_nil (json : JSONCodec) (url : NetURL) (c : Client)
    (request : Request) (response : Response)
    (hDo : c.HTTP request = ⟨some response, none⟩) (hRead : response.Body.err = none)
    (hCode : 200 ≤ response.StatusCode ∧ response.StatusCode < 300) :
    Client.Call json url c request none =
      .returns ⟨some (envelopeOf url response response.Body.data), none, none⟩ := by
  have h : (decide (response.StatusCode ≥ 200) && decide (response.StatusCode < 300)) = true :=
    (wasSuccess_iff _).2 hCode
  simp only [Client.Call, hDo, Client.TransformTheHTTPResponse, ReadAll, hRead, h, envelopeOf,
    BufferWrite]
  simp

/-- Agile `Call`, status in [200, 300) and a non-nil target: the envelope with the
body, and what the decoder makes of the body and the target. -/
theorem agile_Call_success_decode (json : JSONCodec) (url : NetURL) (c : Client)
    (request : Request) (response : Response) (x : Dyn)
    (hDo : c.HTTP request = ⟨some response, none⟩) (hRead : response.Body.err = none)
    (hCode : 200 ≤ response.StatusCode ∧ response.StatusCode < 300) :
    Client.Call json url c request (some x) =
      .returns ⟨some (envelopeOf url response response.Body.data),
        (json.Unmarshal response.Body.data x).2, some (json.Unmarshal response.Body.data x).1⟩ := by
  have h : (decide (response.StatusCode ≥ 200) && decide (response.StatusCode < 300)) = true :=
    (wasSuccess_iff _).2 hCode
  simp only [Client.Call, hDo, Client.TransformTheHTTPResponse, ReadAll, hRead, h, envelopeOf,
    BufferWrite]
  rcases hU : json.Unmarshal response.Body.data x with ⟨y, _ | e⟩ <;> simp

/-- C1: for a response whose body is read without error, agile `Client.Call` with a
nil decode target returns a nil error exactly when the status code lies in
[200, 300); for every status code outside that range it returns a non-nil envelope
with `ErrInvalidStatusCodeError`, and whatever the decode target is, it is left
unchanged (no decode takes place, whatever the JSON decoder would do). -/
theorem Call_classifies_status (json : JSONCodec) (url : NetURL) (c : Client)
    (request : Request) (response : Response) (target : Interface)
    (hDo : c.HTTP request = ⟨some response, none⟩)
    (hRead : (ReadAll response.Body).2 = none) :
    (∃ env err, Client.Call json url c request none = .returns ⟨some env, err, none⟩ ∧
        (err = none ↔ 200 ≤ response.StatusCode ∧ response.StatusCode < 300)) ∧
    (¬ (200 ≤ response.StatusCode ∧ response.StatusCode < 300) →
      ∃ env, Client.Call json url c request target =
        .returns ⟨some env, some .ErrInvalidStatusCodeError, target⟩) := by
  have hErr : response.Body.err = none := hRead
  constructor
  · by_cases h : 200 ≤ response.StatusCode ∧ response.StatusCode < 300
    · exact ⟨_, none, agile_Call_success_nil json url c request response hDo hErr h, by simp [h]⟩
    · exact ⟨_, _, agile_Call_status_error json url c request none response hDo hErr h,
        by simp [h]⟩
  · intro h
    exact ⟨_, agile_Call_status_error json url c request target response hDo hErr h⟩

/-- A run of C1 on status 199 and status 300 with a target holding a pointer. -/
theorem Call_classifies_status_witness :
    (∃ env, Client.Call encodingJSON netURL (sampleClient ⟨some (sampleResponse 199 "\x7b\x7d"), none⟩)
        sampleRequest (some (.pointer (some (nameStruct "old")))) =
      .returns ⟨some env, some .ErrInvalidStatusCodeError,
        some (.pointer (some (nameStruct "old")))⟩) ∧
    (∃ env, Client.Call encodingJSON netURL (sampleClient ⟨some (sampleResponse 300 "\x7b\x7d"), none⟩)
        sampleRequest (some (.pointer (some (nameStruct "old")))) =
      .returns ⟨some env, some .ErrInvalidStatusCodeError,
        some (.pointer (some (nameStruct "old")))⟩) :=
  ⟨(Call_classifies_status encodingJSON netURL _ sampleRequest (sampleResponse 199 "\x7b\x7d") _
      rfl rfl).2 (by decide),
   (Call_classifies_status encodingJSON netURL _ sampleRequest (sampleResponse 300 "\x7b\x7d") _
      rfl rfl).2 (by decide)⟩

/-- C2: for a response whose body is read without error, the envelope agile
`Client.Call` returns holds exactly the bytes of the body, for every status code,
every decode target and every behaviour of the JSON decoder. -/
theorem Call_envelope_holds_body (json : JSONCodec) (url : NetURL) (c : Client)
    (request : Request) (response : Response) (target : Interface)
    (hDo : c.HTTP request = ⟨some response, none⟩)
    (hRead : (ReadAll response.Body).2 = none) :
    ∃ env err after, Client.Call json url c request target = .returns ⟨some env, err, after⟩ ∧
      env.Bytes = response.Body.data := by
  have hErr : response.Body.err = none := hRead
  by_cases h : 200 ≤ response.StatusCode ∧ response.StatusCode < 300
  · cases target with
    | none => exact ⟨_, _, _, agile_Call_success_nil json url c request response hDo hErr h, rfl⟩
    | some x =>
      exact ⟨_, _, _, agile_Call_success_decode json url c request response x hDo hErr h, rfl⟩
  · exact ⟨_, _, _, agile_Call_status_error json url c request target response hDo hErr h, rfl⟩

/-- A run of C2 on the 400 scenario: the envelope holds the JSON error body. -/
theorem Call_envelope_holds_body_witness :
    ∃ env err after,
      Client.Call encodingJSON netURL (sampleClient ⟨some (sampleResponse 400 badRequestBody), none⟩)
        sampleRequest (some (.pointer (some (nameStruct "")))) =
        .returns ⟨some env, err, after⟩ ∧
      env.Bytes = bytesOf badRequestBody :=
  Call_envelope_holds_body encodingJSON netURL _ sampleRequest
    (sampleResponse 400 badRequestBody) _ rfl rfl

/-- V3 `Call`, status outside [200, 300): the body is not read, the envelope holds
no bytes. -/
theorem v3_Call_status_error (json : JSONCodec) (url : NetURL) (c : ClientV2)
    (request : Request) (target : Interface) (response : Response)
    (hDo : c.HTTP request = ⟨some response, none⟩)
    (hCode : ¬ (200 ≤ response.StatusCode ∧ response.StatusCode < 300)) :
    ClientV2.Call json url c request target =
      .returns ⟨some (envelopeOf url response []), some .ErrInvalidStatusCodeError, target⟩ := by
  have h : (decide (response.StatusCode ≥ 200) && decide (response.StatusCode < 300)) = false := by
    rw [Bool.eq_false_iff]
    intro hc
    exact hCode ((wasSuccess_iff _).1 hc)
  simp only [ClientV2.Call, hDo, h, envelopeOf]
  simp

/-- V3 `Call`, status in [200, 300), readable body, decode error: the envelope is
returned before the bytes are written to it. -/
theorem v3_Call_decode_error (json : JSONCodec) (url : NetURL) (c : ClientV2)
    (request : Request) (x : Dyn) (response : Response) (e : Error)
    (hDo : c.HTTP request = ⟨some response, none⟩) (hRead : response.Body.err = none)
    (hCode : 200 ≤ response.StatusCode ∧ response.StatusCode < 300)
    (hDecode : (json.Unmarshal response.Body.data x).2 = some e) :
    ClientV2.Call json url c request (some x) =
      .returns ⟨some (envelopeOf url response []), some e,
        some (json.Unmarshal response.Body.data x).1⟩ := by
  have h : (decide (response.StatusCode ≥ 200) && decide (response.StatusCode < 300)) = true :=
    (wasSuccess_iff _).2 hCode
  simp only [ClientV2.Call, hDo, h, envelopeOf, ReadAll, hRead, hDecode]
  simp

/-- C3 (the code at its failing inputs): v3 `ClientV2.Call` on a 400 response with
the body `{"errorMessages":["bad"]}` returns an envelope with code 400 and no
bytes although the body is not empty; and on a 200 response whose body is not JSON
it returns the decode error with an envelope that holds no bytes either. -/
theorem ClientV2_Call_drops_body :
    (ClientV2.Call encodingJSON netURL
        (sampleClientV2 ⟨some (sampleResponse 400 badRequestBody), none⟩) sampleRequest
        (some (.pointer (some (nameStruct "")))) =
      .returns ⟨some (envelopeOf netURL (sampleResponse 400 badRequestBody) []),
        some .ErrInvalidStatusCodeError, some (.pointer (some (nameStruct "")))⟩) ∧
    (envelopeOf netURL (sampleResponse 400 badRequestBody) []).Code = 400 ∧
    (envelopeOf netURL (sampleResponse 400 badRequestBody) []).Bytes = [] ∧
    (sampleResponse 400 badRequestBody).Body.data ≠ [] ∧
    (ClientV2.Call encodingJSON netURL
        (sampleClientV2 ⟨some (sampleResponse 200 "oops"), none⟩) sampleRequest
        (some (.pointer (some (nameStruct "")))) =
      .returns ⟨some (envelopeOf netURL (sampleResponse 200 "oops") []),
        some syntaxError, some (.pointer (some (nameStruct "")))⟩) ∧
    (sampleResponse 200 "oops").Body.data ≠ [] := by
  refine ⟨?_, rfl, rfl, by decide, ?_, by decide⟩
  · exact v3_Call_status_error encodingJSON netURL _ sampleRequest _
      (sampleResponse 400 badRequestBody) rfl (by decide)
  · exact v3_Call_decode_error encodingJSON netURL _ sampleRequest _
      (sampleResponse 200 "oops") syntaxError rfl rfl (by decide) rfl

/-- C4: agile `Client.Call` returns the error of the transport unmodified and no
envelope when `Do` returns an error; it returns a non-nil envelope whenever `Do`
returns a response and no error (unreadable body, status error, decode error and
success alike); so whenever it returns, the envelope is nil exactly when `Do`
returned an error. -/
theorem Call_nil_envelope_iff_transport_error (json : JSONCodec) (url : NetURL) (c : Client)
    (request : Request) (target : Interface) :
    (∀ e, (c.HTTP request).err = some e →
      Client.Call json url c request target = .returns ⟨none, some e, target⟩) ∧
    (∀ response, c.HTTP request = ⟨some response, none⟩ →
      ∃ env err after,
        Client.Call json url c request target = .returns ⟨some env, err, after⟩) ∧
    (∀ r, Client.Call json url c request target = .returns r →
      (r.envelope = none ↔ (c.HTTP request).err ≠ none)) := by
  have hOk : ∀ response, c.HTTP request = ⟨some response, none⟩ →
      ∃ env err after,
        Client.Call json url c request target = .returns ⟨some env, err, after⟩ := by
    intro response hDo
    cases hRead : response.Body.err with
    | some e => exact ⟨_, _, _, agile_Call_read_error json url c request target response e hDo hRead⟩
    | none =>
      by_cases h : 200 ≤ response.StatusCode ∧ response.StatusCode < 300
      · cases target with
        | none => exact ⟨_, _, _, agile_Call_success_nil json url c request response hDo hRead h⟩
        | some x =>
          exact ⟨_, _, _, agile_Call_success_decode json url c request response x hDo hRead h⟩
      · exact ⟨_, _, _, agile_Call_status_error json url c request target response hDo hRead h⟩
  have hErr : ∀ e, (c.HTTP request).err = some e →
      Client.Call json url c request target = .returns ⟨none, some e, target⟩ := by
    intro e he
    exact agile_Call_transport_error json url c request target (c.HTTP request).response e
      (by rw [← he])
  refine ⟨hErr, hOk, ?_⟩
  intro r hr
  rcases hD : c.HTTP request with ⟨resp, _ | e⟩
  · cases resp with
    | none => simp [Client.Call, hD, Client.TransformTheHTTPResponse] at hr
    | some response =>
      obtain ⟨env, err, after, hc⟩ := hOk response hD
      rw [hc] at hr
      cases hr
      simp
  · have := hErr e (by rw [hD])
    rw [this] at hr
    cases hr
    simp

/-- A run of C4: a transport error and a 500 response. -/
theorem Call_nil_envelope_iff_transport_error_witness :
    Client.Call encodingJSON netURL (sampleClient ⟨none, some (.other "dial tcp: timeout")⟩)
        sampleRequest none = .returns ⟨none, some (.other "dial tcp: timeout"), none⟩ ∧
    ∃ env err after,
      Client.Call encodingJSON netURL (sampleClient ⟨some (sampleResponse 500 "down"), none⟩)
        sampleRequest none = .returns ⟨some env, err, after⟩ :=
  ⟨(Call_nil_envelope_iff_transport_error encodingJSON netURL
      (sampleClient ⟨none, some (.other "dial tcp: timeout")⟩) sampleRequest none).1 _ rfl,
   (Call_nil_envelope_iff_transport_error encodingJSON netURL
      (sampleClient ⟨some (sampleResponse 500 "down"), none⟩) sampleRequest none).2.1 _ rfl⟩

/-- C5 (the code at its failing input): an untyped nil payload is rejected with
`ErrNilPayloadError`, but a nil pointer of a payload struct type, such as the nil
`*SprintPayloadScheme` that `Create` forwards, passes both guards and comes back as
a reader over the JSON text `null` with a nil error. -/
theorem TransformStructToReader_typed_nil_pointer :
    Client.TransformStructToReader encodingJSON none = (none, some .ErrNilPayloadError) ∧
    Client.TransformStructToReader encodingJSON (some (.pointer none)) =
      (some (bytesOf "null"), none) ∧
    ClientV2.TransformStructToReader encodingJSON (some (.pointer none)) =
      (some (bytesOf "null"), none) :=
  ⟨rfl, rfl, rfl⟩

/-- C6: a payload that is a bare struct (passed by value) is rejected with
`ErrNonPayloadPointerError` and no reader, by the agile client and by the v3 client
alike, whatever `json.Marshal` would do with it. -/
theorem TransformStructToReader_rejects_struct_value (json : JSONCodec)
    (fields : List (StructField × GoValue)) :
    Client.TransformStructToReader json (some (.value (.struct fields))) =
      (none, some .ErrNonPayloadPointerError) ∧
    ClientV2.TransformStructToReader json (some (.value (.struct fields))) =
      (none, some .ErrNonPayloadPointerError) :=
  ⟨rfl, rfl⟩

/-- C7 (counterexample): a string passed by value is not a pointer, and yet
`TransformStructToReader` returns a reader for it, over its JSON text. -/
theorem TransformStructToReader_accepts_string_value :
    (Dyn.value (.str (bytesOf "abc"))).Kind ≠ Kind.Ptr ∧
    Client.TransformStructToReader encodingJSON (some (.value (.str (bytesOf "abc")))) =
      (some (bytesOf "\"abc\""), none) :=
  ⟨by decide, rfl⟩

/-- C7 (amended): `TransformStructToReader` returns a reader without error exactly
when the payload is not nil, its kind is not `Struct`, and `json.Marshal` succeeds
on it; the reader then holds the bytes `json.Marshal` produced. So every bare
struct is rejected, while a value of another kind is encoded whether or not it is
a pointer. -/
theorem TransformStructToReader_reader_iff (json : JSONCodec) (payload : Interface)
    (bytes : Bytes) :
    Client.TransformStructToReader json payload = (some bytes, none) ↔
      ∃ x, payload = some x ∧ x.Kind ≠ Kind.Struct ∧ json.Marshal x = .ok bytes := by
  cases payload with
  | none => simp [Client.TransformStructToReader]
  | some x =>
    by_cases hk : x.Kind = Kind.Struct
    · simp [Client.TransformStructToReader, hk]
    · cases hm : json.Marshal x with
      | error e => simp [Client.TransformStructToReader, hk, hm]
      | ok b => simp [Client.TransformStructToReader, hk, hm]

/-- A request that `http.NewRequestWithContext` returns has an empty header map. -/
theorem NewRequestWithContext_header (url : NetURL) (ctx : Option Context)
    (method urlStr : String) (body : Option Bytes) (request : Request)
    (h : NewRequestWithContext url ctx method urlStr body = .ok request) :
    request.Header = Header.empty := by
  unfold NewRequestWithContext at h
  simp only at h
  by_cases hm : (!validMethod (if method = "" then "GET" else method)) = true
  · simp [hm] at h
  · cases ctx with
    | none => simp [hm] at h
    | some ctx =>
      cases hp : url.Parse urlStr with
      | error e => simp [hm, hp] at h
      | ok u =>
        simp [hm, hp] at h
        rw [← h]

/-- The headers of a request agile `NewRequest` returns. -/
theorem agile_NewRequest_header (url : NetURL) (c : Client) (ctx : Option Context)
    (method apiEndpoint : String) (payload : Option Bytes) (req : Request)
    (h : Client.NewRequest url c ctx method apiEndpoint payload = (some req, none)) :
    req.Header = requestHeaders c.Auth payload := by
  unfold Client.NewRequest at h
  cases hp : url.Parse apiEndpoint with
  | error e => simp [hp] at h
  | ok relativePath =>
    simp only [hp] at h
    cases hreq : NewRequestWithContext url ctx method
        (url.String (url.ResolveReference c.Site relativePath)) payload with
    | error e => simp [hreq] at h
    | ok request =>
      have hh := NewRequestWithContext_header _ _ _ _ _ _ hreq
      simp only [hreq, Prod.mk.injEq, Option.some.injEq, and_true] at h
      subst h
      unfold requestHeaders
      cases payload <;> cases hb : c.Auth.HasBasicAuth <;> cases hu : c.Auth.HasUserAgent <;>
        simp [hh, Request.SetBasicAuth]

/-- The headers of a request v3 `NewRequest` returns. -/
theorem v3_NewRequest_header (url : NetURL) (c : ClientV2) (ctx : Option Context)
    (method apiEndpoint : String) (payload : Option Bytes) (req : Request)
    (h : ClientV2.NewRequest url c ctx method apiEndpoint payload = (some req, none)) :
    req.Header = requestHeaders c.Authentication payload := by
  unfold ClientV2.NewRequest at h
  cases hp : url.Parse apiEndpoint with
  | error e => simp [hp] at h
  | ok relativePath =>
    simp only [hp] at h
    cases hreq : NewRequestWithContext url ctx method
        (url.String (url.ResolveReference c.Site relativePath)) payload with
    | error e => simp [hreq] at h
    | ok request =>
      have hh := NewRequestWithContext_header _ _ _ _ _ _ hreq
      simp only [hreq, Prod.mk.injEq, Option.some.injEq, and_true] at h
      subst h
      unfold requestHeaders
      cases payload <;> cases hb : c.Authentication.HasBasicAuth <;> cases hu : c.Authentication.HasUserAgent <;>
        simp [hh, Request.SetBasicAuth]

theorem canonical_Accept : canonicalMIMEHeaderKey "Accept" = "Accept" := by decide

theorem canonical_ContentType : canonicalMIMEHeaderKey "Content-Type" = "Content-Type" := by
  decide

theorem canonical_Authorization : canonicalMIMEHeaderKey "Authorization" = "Authorization" := by
  decide

theorem canonical_UserAgent : canonicalMIMEHeaderKey "User-Agent" = "User-Agent" := by decide

/-- The `Accept` and `Content-Type` entries of the headers `NewRequest` sets. -/
theorem requestHeaders_content (auth : AuthenticationService) (payload : Option Bytes) :
    requestHeaders auth payload "Accept" = some ["application/json"] ∧
    requestHeaders auth payload "Content-Type" =
      if payload.isSome then some ["application/json"] else none := by
  unfold requestHeaders
  cases payload <;> cases auth.HasBasicAuth <;> cases auth.HasUserAgent <;>
    simp [Header.Set, Header.empty, canonical_Accept, canonical_ContentType,
      canonical_Authorization, canonical_UserAgent]

/-- The `Authorization` and `User-Agent` entries of the headers `NewRequest` sets. -/
theorem requestHeaders_auth (auth : AuthenticationService) (payload : Option Bytes) :
    requestHeaders auth payload "Authorization" =
      (if auth.HasBasicAuth then
        some ["Basic " ++ base64 (auth.GetBasicAuth.1 ++ ":" ++ auth.GetBasicAuth.2)]
      else none) ∧
    requestHeaders auth payload "User-Agent" =
      if auth.HasUserAgent then some [auth.GetUserAgent] else none := by
  unfold requestHeaders
  cases payload <;> cases auth.HasBasicAuth <;> cases auth.HasUserAgent <;>
    simp [Header.Set, Header.empty, canonical_Accept, canonical_ContentType,
      canonical_Authorization, canonical_UserAgent]

/-- C9: every request that `NewRequest` returns (agile and v3) carries `Accept`
with the single value `application/json`, and carries `Content-Type:
application/json` exactly when the body is non-nil; with a nil body it has no
`Content-Type` header at all. -/
theorem NewRequest_content_negotiation (url : NetURL) (c : Client) (c2 : ClientV2)
    (ctx : Option Context) (method apiEndpoint : String) (payload : Option Bytes) :
    (∀ req, Client.NewRequest url c ctx method apiEndpoint payload = (some req, none) →
      req.Header "Accept" = some ["application/json"] ∧
      (req.Header "Content-Type" = some ["application/json"] ↔ payload ≠ none) ∧
      (payload = none → req.Header "Content-Type" = none)) ∧
    (∀ req, ClientV2.NewRequest url c2 ctx method apiEndpoint payload = (some req, none) →
      req.Header "Accept" = some ["application/json"] ∧
      (req.Header "Content-Type" = some ["application/json"] ↔ payload ≠ none) ∧
      (payload = none → req.Header "Content-Type" = none)) := by
  constructor
  · intro req h
    rw [agile_NewRequest_header url c ctx method apiEndpoint payload req h]
    obtain ⟨ha, hc⟩ := requestHeaders_content c.Auth payload
    rw [ha, hc]
    cases payload <;> simp
  · intro req h
    rw [v3_NewRequest_header url c2 ctx method apiEndpoint payload req h]
    obtain ⟨ha, hc⟩ := requestHeaders_content c2.Authentication payload
    rw [ha, hc]
    cases payload <;> simp

/-- A run of C9: a GET without a body and a POST with one. -/
theorem NewRequest_content_negotiation_witness :
    (∃ req, Client.NewRequest netURL (sampleClient ⟨none, none⟩) (some {}) "GET"
        "rest/agile/1.0/sprint/1" none = (some req, none) ∧
      req.Header "Accept" = some ["application/json"] ∧ req.Header "Content-Type" = none) ∧
    (∃ req, ClientV2.NewRequest netURL (sampleClientV2 ⟨none, none⟩) (some {}) "POST"
        "rest/api/3/filter" (some (bytesOf "null")) = (some req, none) ∧
      req.Header "Accept" = some ["application/json"] ∧
      req.Header "Content-Type" = some ["application/json"]) :=
  ⟨⟨_, rfl,
      ((NewRequest_content_negotiation netURL (sampleClient ⟨none, none⟩)
        (sampleClientV2 ⟨none, none⟩) (some {}) "GET" "rest/agile/1.0/sprint/1" none).1 _ rfl).1,
      ((NewRequest_content_negotiation netURL (sampleClient ⟨none, none⟩)
        (sampleClientV2 ⟨none, none⟩) (some {}) "GET" "rest/agile/1.0/sprint/1" none).1 _
          rfl).2.2 rfl⟩,
   ⟨_, rfl,
      ((NewRequest_content_negotiation netURL (sampleClient ⟨none, none⟩)
        (sampleClientV2 ⟨none, none⟩) (some {}) "POST" "rest/api/3/filter"
          (some (bytesOf "null"))).2 _ rfl).1,
      ((NewRequest_content_negotiation netURL (sampleClient ⟨none, none⟩)
        (sampleClientV2 ⟨none, none⟩) (some {}) "POST" "rest/api/3/filter"
          (some (bytesOf "null"))).2 _ rfl).2.1.2 (by simp)⟩⟩

/-- C10: on every request that `NewRequest` returns, an `Authorization` header is
present exactly when `HasBasicAuth()` is true, and is then the single value
`Basic ` followed by the base64 text of `mail:token` for the stored pair; a
`User-Agent` header is present exactly when `HasUserAgent()` is true, and is then
the single stored agent string. -/
theorem NewRequest_authentication_headers (url : NetURL) (c : Client) (ctx : Option Context)
    (method apiEndpoint : String) (payload : Option Bytes) (req : Request)
    (h : Client.NewRequest url c ctx method apiEndpoint payload = (some req, none)) :
    (req.Header "Authorization" ≠ none ↔ c.Auth.HasBasicAuth = true) ∧
    (c.Auth.HasBasicAuth = true →
      req.Header "Authorization" =
        some ["Basic " ++ base64 (c.Auth.GetBasicAuth.1 ++ ":" ++ c.Auth.GetBasicAuth.2)]) ∧
    (req.Header "User-Agent" ≠ none ↔ c.Auth.HasUserAgent = true) ∧
    (c.Auth.HasUserAgent = true → req.Header "User-Agent" = some [c.Auth.GetUserAgent]) := by
  rw [agile_NewRequest_header url c ctx method apiEndpoint payload req h]
  obtain ⟨ha, hu⟩ := requestHeaders_auth c.Auth payload
  rw [ha, hu]
  cases c.Auth.HasBasicAuth <;> cases c.Auth.HasUserAgent <;> simp

/-- A run of C10: after `SetBasicAuth("user", "pass")` and `SetUserAgent("curl/7.54.0")`
the request carries `Authorization: Basic dXNlcjpwYXNz` and the agent. -/
theorem NewRequest_authentication_headers_witness :
    ∃ req,
      Client.NewRequest netURL
        (clientWithAuth ((NewAuthenticationService.SetBasicAuth "user" "pass").SetUserAgent
          "curl/7.54.0"))
        (some {}) "GET" "rest/agile/1.0/sprint/1" none = (some req, none) ∧
      req.Header "Authorization" = some ["Basic dXNlcjpwYXNz"] ∧
      req.Header "User-Agent" = some ["curl/7.54.0"] :=
  ⟨_, rfl,
    (NewRequest_authentication_headers netURL
      (clientWithAuth ((NewAuthenticationService.SetBasicAuth "user" "pass").SetUserAgent
        "curl/7.54.0"))
      (some {}) "GET" "rest/agile/1.0/sprint/1" none _ rfl).2.1 rfl,
    (NewRequest_authentication_headers netURL
      (clientWithAuth ((NewAuthenticationService.SetBasicAuth "user" "pass").SetUserAgent
        "curl/7.54.0"))
      (some {}) "GET" "rest/agile/1.0/sprint/1" none _ rfl).2.2.2 rfl⟩

/-! ### `encoding/json`: what `Marshal` writes, `Unmarshal` reads back -/
/-- A character is a Unicode scalar value. -/
theorem char_valid (c : Char) : c.toNat < 0xD800 ∨ (0xDFFF < c.toNat ∧ c.toNat < 0x110000) := by
  have := c.valid
  simp only [UInt32.isValidChar, Nat.isValidChar] at this
  exact this

/-- Decoding a two-byte encoding. -/
theorem decodeRune_two (n : Nat) (rest : Bytes) (h1 : ¬ n < 0x80) (h2 : n < 0x800) :
    decodeRune ([0xC0 + n / 0x40, 0x80 + n % 0x40] ++ rest) = (n, 2) := by
  have c1 : ¬ (0xC0 + n / 0x40 < 0x80) := by omega
  have c2 : ¬ (0xC0 + n / 0x40 < 0xC2) := by omega
  have c3 : 0xC0 + n / 0x40 < 0xE0 := by omega
  have c4 : 0x80 ≤ 0x80 + n % 0x40 ∧ 0x80 + n % 0x40 < 0xC0 := by omega
  have e : (0xC0 + n / 0x40 - 0xC0) * 0x40 + (0x80 + n % 0x40 - 0x80) = n := by omega
  simp only [decodeRune, List.cons_append, List.nil_append, if_neg c1, if_neg c2, if_pos c3,
    if_pos c4, e]

/-- Decoding a three-byte encoding. -/
theorem decodeRune_three (n : Nat) (rest : Bytes) (h1 : ¬ n < 0x800) (h2 : n < 0x10000)
    (hv : n < 0xD800 ∨ 0xDFFF < n) :
    decodeRune ([0xE0 + n / 0x1000, 0x80 + n / 0x40 % 0x40, 0x80 + n % 0x40] ++ rest) = (n, 3) := by
  have c1 : ¬ (0xE0 + n / 0x1000 < 0x80) := by omega
  have c2 : ¬ (0xE0 + n / 0x1000 < 0xC2) := by omega
  have c3 : ¬ (0xE0 + n / 0x1000 < 0xE0) := by omega
  have c4 : 0xE0 + n / 0x1000 < 0xF0 := by omega
  have c5 : (if 0xE0 + n / 0x1000 = 0xE0 then 0xA0 else 0x80) ≤ 0x80 + n / 0x40 % 0x40 ∧
      0x80 + n / 0x40 % 0x40 < (if 0xE0 + n / 0x1000 = 0xED then 0xA0 else 0xC0) ∧
      0x80 ≤ 0x80 + n % 0x40 ∧ 0x80 + n % 0x40 < 0xC0 := by
    split_ifs <;> omega
  have e : (0xE0 + n / 0x1000 - 0xE0) * 0x1000 + (0x80 + n / 0x40 % 0x40 - 0x80) * 0x40 +
      (0x80 + n % 0x40 - 0x80) = n := by omega
  simp only [decodeRune, List.cons_append, List.nil_append, if_neg c1, if_neg c2, if_neg c3,
    if_pos c4, if_pos c5, e]

/-- Decoding a four-byte encoding. -/
theorem decodeRune_four (n : Nat) (rest : Bytes) (h1 : ¬ n < 0x10000) (h2 : n < 0x110000) :
    decodeRune ([0xF0 + n / 0x40000, 0x80 + n / 0x1000 % 0x40, 0x80 + n / 0x40 % 0x40,
      0x80 + n % 0x40] ++ rest) = (n, 4) := by
  have c1 : ¬ (0xF0 + n / 0x40000 < 0x80) := by omega
  have c2 : ¬ (0xF0 + n / 0x40000 < 0xC2) := by omega
  have c3 : ¬ (0xF0 + n / 0x40000 < 0xE0) := by omega
  have c4 : ¬ (0xF0 + n / 0x40000 < 0xF0) := by omega
  have c5 : 0xF0 + n / 0x40000 < 0xF5 := by omega
  have c6 : (if 0xF0 + n / 0x40000 = 0xF0 then 0x90 else 0x80) ≤ 0x80 + n / 0x1000 % 0x40 ∧
      0x80 + n / 0x1000 % 0x40 < (if 0xF0 + n / 0x40000 = 0xF4 then 0x90 else 0xC0) ∧
      0x80 ≤ 0x80 + n / 0x40 % 0x40 ∧ 0x80 + n / 0x40 % 0x40 < 0xC0 ∧
      0x80 ≤ 0x80 + n % 0x40 ∧ 0x80 + n % 0x40 < 0xC0 := by
    split_ifs <;> omega
  have e : (0xF0 + n / 0x40000 - 0xF0) * 0x40000 + (0x80 + n / 0x1000 % 0x40 - 0x80) * 0x1000 +
      (0x80 + n / 0x40 % 0x40 - 0x80) * 0x40 + (0x80 + n % 0x40 - 0x80) = n := by omega
  simp only [decodeRune, List.cons_append, List.nil_append, if_neg c1, if_neg c2, if_neg c3,
    if_neg c4, if_pos c5, if_pos c6, e]

/-- The function `utf8.DecodeRune` reads back what `utf8.EncodeRune` wrote. -/
theorem decodeRune_encode (c : Char) (rest : Bytes) :
    decodeRune (utf8EncodeChar c ++ rest) = (c.toNat, (utf8EncodeChar c).length) := by
  have hv := char_valid c
  unfold utf8EncodeChar
  simp only
  generalize c.toNat = n at hv ⊢
  split_ifs with h1 h2 h3
  · simp [decodeRune, h1]
  · exact decodeRune_two n rest h1 h2
  · exact decodeRune_three n rest h2 h3 (by omega)
  · exact decodeRune_four n rest h3 (by omega)

/-- An encoding has at least one byte. -/
theorem utf8EncodeChar_ne_nil (c : Char) : utf8EncodeChar c ≠ [] := by
  unfold utf8EncodeChar
  simp only
  split_ifs <;> simp

/-- Passing over the remaining bytes of a rune. -/
theorem utf8DecodeFrom_skip (pre rest : Bytes) :
    utf8DecodeFrom pre.length (pre ++ rest) = utf8DecodeFrom 0 rest := by
  induction pre with
  | nil => rfl
  | cons b pre ih => simpa [utf8DecodeFrom] using ih

/-- Text written as UTF-8 reads back unchanged. -/
theorem utf8Decode_encode (cs : List Char) : utf8Decode (cs.flatMap utf8EncodeChar) = cs := by
  unfold utf8Decode
  induction cs with
  | nil => rfl
  | cons c cs ih =>
    rw [List.flatMap_cons]
    have hd := decodeRune_encode c (cs.flatMap utf8EncodeChar)
    cases he : utf8EncodeChar c with
    | nil => exact absurd he (utf8EncodeChar_ne_nil c)
    | cons b0 tail =>
      rw [he] at hd
      simp only [List.cons_append] at hd ⊢
      simp only [utf8DecodeFrom, hd, List.length_cons, Nat.add_sub_cancel, Char.ofNat_toNat]
      rw [utf8DecodeFrom_skip, ih]

/-- Passing over the remaining bytes of a rune. -/
theorem runesFrom_skip (pre rest : Bytes) :
    runesFrom pre.length (pre ++ rest) = runesFrom 0 rest := by
  induction pre with
  | nil => rfl
  | cons b pre ih => simpa [runesFrom] using ih

/-- A character that takes one byte is an ASCII character. -/
theorem ascii_of_length_one (c : Char) (h : (utf8EncodeChar c).length = 1) :
    c.toNat < 0x80 := by
  unfold utf8EncodeChar at h
  simp only at h
  split_ifs at h with h1 h2 h3
  · exact h1
  · simp at h
  · simp at h
  · simp at h

/-- The runes of text written as UTF-8 are its characters, and none of them stands
for an invalid byte. -/
theorem runesFrom_encode (cs : List Char) :
    runesFrom 0 (cs.flatMap utf8EncodeChar) = cs.map fun c => (c, false) := by
  induction cs with
  | nil => rfl
  | cons c cs ih =>
    rw [List.flatMap_cons]
    have hd := decodeRune_encode c (cs.flatMap utf8EncodeChar)
    have hflag : decide (c.toNat = 0xFFFD ∧ (utf8EncodeChar c).length = 1) = false := by
      rw [decide_eq_false_iff_not]
      rintro ⟨h1, h2⟩
      have := ascii_of_length_one c h2
      omega
    cases he : utf8EncodeChar c with
    | nil => exact absurd he (utf8EncodeChar_ne_nil c)
    | cons b0 tail =>
      rw [he] at hd hflag
      simp only [List.cons_append] at hd ⊢
      simp only [List.length_cons] at hflag
      simp only [runesFrom, hd, hflag, List.length_cons, Nat.add_sub_cancel, Char.ofNat_toNat,
        List.map_cons]
      rw [runesFrom_skip, ih]

/-- The code points of the runes of a string are its decoded text. -/
theorem runesFrom_fst (s : Bytes) :
    ∀ skip, (runesFrom skip s).map Prod.fst = utf8DecodeFrom skip s := by
  induction s with
  | nil => intro skip; cases skip <;> rfl
  | cons b s ih =>
    intro skip
    cases skip with
    | zero => simp only [runesFrom, utf8DecodeFrom, List.map_cons, ih]
    | succ k => simp only [runesFrom, utf8DecodeFrom, ih]

/-- A rune that stands for an invalid byte is U+FFFD. -/
theorem runesFrom_bad (s : Bytes) :
    ∀ skip, ∀ r ∈ runesFrom skip s, r.2 = true → r.1 = Char.ofNat 0xFFFD := by
  induction s with
  | nil => intro skip r hr; cases skip <;> simp [runesFrom] at hr
  | cons b s ih =>
    intro skip r hr hbad
    cases skip with
    | zero =>
      simp only [runesFrom, List.mem_cons] at hr
      rcases hr with hr | hr
      · rw [hr] at hbad ⊢
        simp only [decide_eq_true_eq] at hbad
        simp only [hbad.1]
      · exact ih _ r hr hbad
    | succ k =>
      simp only [runesFrom] at hr
      exact ih _ r hr hbad

/-- The text of a string written as UTF-8 is the string. -/
theorem goText_bytesOf (s : String) : goText (bytesOf s) = s := by
  unfold goText bytesOf
  rw [utf8Decode_encode]

/-- A string written as UTF-8 is valid UTF-8. -/
theorem validUTF8_bytesOf (s : String) : validUTF8 (bytesOf s) = true := by
  simp [validUTF8, goText_bytesOf]

/-- The JSON text of a string that is valid UTF-8, character by character. -/
theorem encodeString_bytesOf (s : String) :
    encodeString (bytesOf s) = quoteChar :: (s.data.flatMap encodeChar ++ [quoteChar]) := by
  unfold encodeString bytesOf
  rw [runesFrom_encode]
  congr 2
  induction s.data with
  | nil => rfl
  | cons c cs ih => simp [encodeRune, ih]

/-- A hexadecimal digit reads back as its value. -/
theorem hexValue_digitChar (d : Nat) (h : d < 16) : hexValue (Nat.digitChar d) = some d := by
  interval_cases d <;> rfl

/-- The four digits of a `\u00XX` escape read back as the code point. -/
theorem hex4_escape (n : Nat) (h : n < 256) (rest : List Char) :
    hex4 ('0' :: '0' :: Nat.digitChar (n / 16) :: Nat.digitChar (n % 16) :: rest) =
      some (n, rest) := by
  have h1 := hexValue_digitChar (n / 16) (by omega)
  have h2 := hexValue_digitChar (n % 16) (by omega)
  have h0 : hexValue '0' = some 0 := rfl
  simp only [hex4, h0, h1, h2]
  congr 2
  omega

/-- One step of the string reader. -/
theorem parseStringBody_step (fuel : Nat) (c : Char) (rest : List Char) :
    parseStringBody (fuel + 1) (c :: rest) =
      if c = quoteChar then some ([], rest)
      else if c = backslash then
        match rest with
        | [] => none
        | e :: rest =>
          if e = 'u' then
            match hex4 rest with
            | none => none
            | some (hi, rest) =>
              if 0xD800 ≤ hi ∧ hi < 0xE000 then
                match (if hi < 0xDC00 then lowSurrogate rest else none) with
                | some (lo, rest) =>
                  (parseStringBody fuel rest).map fun r =>
                    (Char.ofNat ((hi - 0xD800) * 0x400 + (lo - 0xDC00) + 0x10000) :: r.1, r.2)
                | none =>
                  (parseStringBody fuel rest).map fun r => (Char.ofNat 0xFFFD :: r.1, r.2)
              else (parseStringBody fuel rest).map fun r => (Char.ofNat hi :: r.1, r.2)
          else
            match simpleEscape e with
            | none => none
            | some ch => (parseStringBody fuel rest).map fun r => (ch :: r.1, r.2)
      else if c.toNat < 32 then none
      else (parseStringBody fuel rest).map fun r => (c :: r.1, r.2) := by
  rfl

/-- Reading a one-letter escape. -/
theorem parseStringBody_simple (fuel : Nat) (e ch : Char) (rest : List Char)
    (hu : e ≠ 'u') (hs : simpleEscape e = some ch) :
    parseStringBody (fuel + 1) (backslash :: e :: rest) =
      (parseStringBody fuel rest).map fun r => (ch :: r.1, r.2) := by
  have hq : backslash ≠ quoteChar := by decide
  simp only [parseStringBody_step, if_neg hq, if_true, if_neg hu, hs]

/-- Reading a `\u` escape of a code point that is not a surrogate. -/
theorem parseStringBody_hex (fuel hi : Nat) (digits rest : List Char)
    (hx : hex4 digits = some (hi, rest)) (hlt : hi < 0xD800 ∨ 0xE000 ≤ hi) :
    parseStringBody (fuel + 1) (backslash :: 'u' :: digits) =
      (parseStringBody fuel rest).map fun r => (Char.ofNat hi :: r.1, r.2) := by
  have hq : backslash ≠ quoteChar := by decide
  have hs : ¬ (0xD800 ≤ hi ∧ hi < 0xE000) := by omega
  simp only [parseStringBody_step, if_neg hq, if_true, hx, if_neg hs]

/-- Reading a character that stands for itself. -/
theorem parseStringBody_plain (fuel : Nat) (c : Char) (rest : List Char)
    (h1 : c.toNat ≠ 34) (h2 : c.toNat ≠ 92) (h3 : ¬ c.toNat < 32) :
    parseStringBody (fuel + 1) (c :: rest) =
      (parseStringBody fuel rest).map fun r => (c :: r.1, r.2) := by
  have hq : c ≠ quoteChar := fun h => h1 (by rw [h]; rfl)
  have hb : c ≠ backslash := fun h => h2 (by rw [h]; rfl)
  simp only [parseStringBody_step, if_neg hq, if_neg hb, if_neg h3]

set_option maxHeartbeats 1000000 in
/-- The string reader reads back one encoded character. -/
theorem parseStringBody_encodeChar (fuel : Nat) (c : Char) (rest : List Char) :
    parseStringBody (fuel + 1) (encodeChar c ++ rest) =
      (parseStringBody fuel rest).map fun r => (c :: r.1, r.2) := by
  have hc : c = Char.ofNat c.toNat := (Char.ofNat_toNat c).symm
  unfold encodeChar
  simp only
  split_ifs with h1 h2 hb hf h3 h4 h5 h6 h7 h8
  · rw [hc, h1]
    exact parseStringBody_simple fuel quoteChar _ rest (by decide) rfl
  · rw [hc, h2]
    exact parseStringBody_simple fuel backslash _ rest (by decide) rfl
  · rw [hc, hb]
    exact parseStringBody_simple fuel 'b' _ rest (by decide) rfl
  · rw [hc, hf]
    exact parseStringBody_simple fuel 'f' _ rest (by decide) rfl
  · rw [hc, h3]
    exact parseStringBody_simple fuel 'n' _ rest (by decide) rfl
  · rw [hc, h4]
    exact parseStringBody_simple fuel 'r' _ rest (by decide) rfl
  · rw [hc, h5]
    exact parseStringBody_simple fuel 't' _ rest (by decide) rfl
  · have hx := hex4_escape c.toNat (by omega) rest
    have := parseStringBody_hex fuel c.toNat _ rest hx (by omega)
    rw [← hc] at this
    exact this
  · rw [hc, h7]
    exact parseStringBody_hex fuel 0x2028 _ rest rfl (by decide)
  · rw [hc, h8]
    exact parseStringBody_hex fuel 0x2029 _ rest rfl (by decide)
  · exact parseStringBody_plain fuel c rest h1 h2 (by omega)

set_option maxHeartbeats 1000000 in
/-- An encoded character has at least one character. -/
theorem encodeChar_ne_nil (c : Char) : encodeChar c ≠ [] := by
  unfold encodeChar
  simp only
  split_ifs <;> simp

/-- The string reader reads back an encoded string, given fuel beyond its length. -/
theorem parseStringBody_encode (cs rest : List Char) (fuel : Nat) (h : cs.length < fuel) :
    parseStringBody fuel (cs.flatMap encodeChar ++ quoteChar :: rest) = some (cs, rest) := by
  induction cs generalizing fuel with
  | nil =>
    obtain ⟨f, rfl⟩ : ∃ f, fuel = f + 1 := ⟨fuel - 1, by simp at h; omega⟩
    simp [parseStringBody_step]
  | cons c cs ih =>
    obtain ⟨f, rfl⟩ : ∃ f, fuel = f + 1 := ⟨fuel - 1, by simp at h; omega⟩
    rw [List.flatMap_cons, List.append_assoc, parseStringBody_encodeChar,
      ih f (by simp at h; omega)]
    rfl

/-- Encoding does not shorten a string. -/
theorem length_le_flatMap_encodeChar (cs : List Char) :
    cs.length ≤ (cs.flatMap encodeChar).length := by
  induction cs with
  | nil => simp
  | cons c cs ih =>
    have := encodeChar_ne_nil c
    have : 0 < (encodeChar c).length := List.length_pos.mpr this
    simp only [List.flatMap_cons, List.length_cons, List.length_append]
    omega

/-- Reading a string literal that `Marshal` wrote yields the string. -/
theorem parseString_encode (s : String) (rest : List Char) :
    parseString (s.data.flatMap encodeChar ++ quoteChar :: rest) = some (s, rest) := by
  unfold parseString
  rw [parseStringBody_encode]
  · rfl
  · have := length_le_flatMap_encodeChar s.data
    simp only [List.length_append, List.length_cons]
    omega

/-- The string reader reads back one encoded rune. -/
theorem parseStringBody_encodeRune (fuel : Nat) (r : Char × Bool) (rest : List Char)
    (hbad : r.2 = true → r.1 = Char.ofNat 0xFFFD) :
    parseStringBody (fuel + 1) (encodeRune r ++ rest) =
      (parseStringBody fuel rest).map fun x => (r.1 :: x.1, x.2) := by
  unfold encodeRune
  cases h : r.2 with
  | false => exact parseStringBody_encodeChar fuel r.1 rest
  | true =>
    rw [hbad h]
    exact parseStringBody_hex fuel 0xFFFD _ rest rfl (by decide)

/-- An encoded rune has at least one character. -/
theorem encodeRune_ne_nil (r : Char × Bool) : encodeRune r ≠ [] := by
  unfold encodeRune
  split_ifs
  · simp
  · exact encodeChar_ne_nil r.1

/-- The string reader reads back encoded runes, given fuel beyond their number. -/
theorem parseStringBody_encodeRunes (rs : List (Char × Bool)) (rest : List Char)
    (hbad : ∀ r ∈ rs, r.2 = true → r.1 = Char.ofNat 0xFFFD) (fuel : Nat)
    (h : rs.length < fuel) :
    parseStringBody fuel (rs.flatMap encodeRune ++ quoteChar :: rest) =
      some (rs.map Prod.fst, rest) := by
  induction rs generalizing fuel with
  | nil =>
    obtain ⟨f, rfl⟩ : ∃ f, fuel = f + 1 := ⟨fuel - 1, by simp at h; omega⟩
    simp [parseStringBody_step]
  | cons r rs ih =>
    obtain ⟨f, rfl⟩ : ∃ f, fuel = f + 1 := ⟨fuel - 1, by simp at h; omega⟩
    rw [List.flatMap_cons, List.append_assoc,
      parseStringBody_encodeRune f r _ (hbad r (List.mem_cons_self _ _)),
      ih (fun x hx => hbad x (List.mem_cons_of_mem _ hx)) f (by simp at h; omega)]
    rfl

/-- Encoding does not lessen the number of runes. -/
theorem length_le_flatMap_encodeRune (rs : List (Char × Bool)) :
    rs.length ≤ (rs.flatMap encodeRune).length := by
  induction rs with
  | nil => simp
  | cons r rs ih =>
    have : 0 < (encodeRune r).length := List.length_pos.mpr (encodeRune_ne_nil r)
    simp only [List.flatMap_cons, List.length_cons, List.length_append]
    omega

/-- Reading the string literal that `Marshal` wrote for a Go string yields the text
of the string. -/
theorem parseString_encodeRunes (s : Bytes) (rest : List Char) :
    parseString ((runesFrom 0 s).flatMap encodeRune ++ quoteChar :: rest) =
      some (goText s, rest) := by
  unfold parseString
  rw [parseStringBody_encodeRunes _ _ (runesFrom_bad s 0)]
  · simp only [Option.map_some', goText, utf8Decode, runesFrom_fst]
  · have := length_le_flatMap_encodeRune (runesFrom 0 s)
    simp only [List.length_append, List.length_cons]
    omega

/-- A decimal digit character and its value. -/
theorem digitChar_isDigit (d : Nat) (h : d < 10) :
    (Nat.digitChar d).isDigit = true ∧ (Nat.digitChar d).toNat - 48 = d ∧
      (Nat.digitChar d = '0' → d = 0) := by
  interval_cases d <;> decide

/-- The value of digits read in two parts. -/
theorem digitsValue_append (acc : Nat) (l1 l2 : List Char) :
    digitsValue acc (l1 ++ l2) = (digitsValue acc l1).bind fun a => digitsValue a l2 := by
  induction l1 generalizing acc with
  | nil => rfl
  | cons c l1 ih =>
    simp only [List.cons_append, digitsValue]
    split_ifs
    · exact ih _
    · rfl

/-- The digits `Nat.toDigitsCore` puts in front: decimal digits with the value of the number, without a leading zero. -/
theorem toDigitsCore_spec (fuel n : Nat) (ds : List Char) (h : n < fuel) :
    ∃ pre, Nat.toDigitsCore 10 fuel n ds = pre ++ ds ∧ (∀ c ∈ pre, c.isDigit = true) ∧
      digitsValue 0 pre = some n ∧ pre ≠ [] ∧ (pre.head? = some '0' → pre = ['0']) := by
  induction fuel generalizing n ds with
  | zero => omega
  | succ f ih =>
    obtain ⟨hd1, hd2, hd3⟩ := digitChar_isDigit (n % 10) (Nat.mod_lt _ (by decide))
    simp only [Nat.toDigitsCore]
    split_ifs with hz
    · refine ⟨[Nat.digitChar (n % 10)], rfl, ?_, ?_, by simp, by intro h0; simp at h0; simp [h0]⟩
      · intro c hc
        simp only [List.mem_singleton] at hc
        rw [hc]
        exact hd1
      · simp only [digitsValue, hd1, if_true, hd2]
        congr 1
        omega
    · obtain ⟨pre, hp, hdig, hval, hne, hhead⟩ :=
        ih (n / 10) (Nat.digitChar (n % 10) :: ds) (by omega)
      refine ⟨pre ++ [Nat.digitChar (n % 10)], by rw [hp]; simp, ?_, ?_, by simp, ?_⟩
      · intro c hc
        rcases List.mem_append.mp hc with hc | hc
        · exact hdig c hc
        · simp only [List.mem_singleton] at hc
          rw [hc]
          exact hd1
      · rw [digitsValue_append, hval]
        simp only [Option.some_bind, digitsValue, hd1, if_true, hd2]
        congr 1
        omega
      · intro h0
        exfalso
        cases pre with
        | nil => exact hne rfl
        | cons p ps =>
          simp only [List.cons_append, List.head?_cons, Option.some.injEq] at h0
          have := hhead (by simp [h0])
          rw [this] at hval
          simp [digitsValue] at hval
          omega

/-- The decimal text of a number: digits with its value, without a leading zero. -/
theorem toDigits_spec (n : Nat) :
    (∀ c ∈ Nat.toDigits 10 n, c.isDigit = true) ∧ digitsValue 0 (Nat.toDigits 10 n) = some n ∧
      Nat.toDigits 10 n ≠ [] ∧ ((Nat.toDigits 10 n).head? = some '0' → Nat.toDigits 10 n = ['0']) := by
  obtain ⟨pre, hp, h⟩ := toDigitsCore_spec (n + 1) n [] (by omega)
  unfold Nat.toDigits
  rw [hp, List.append_nil]
  exact h

/-- Digits followed by a terminated text split at the end of the digits. -/
theorem takeWhile_digits (ds rest : List Char) (hd : ∀ c ∈ ds, c.isDigit = true)
    (hr : Terminated rest) :
    (ds ++ rest).takeWhile Char.isDigit = ds ∧ (ds ++ rest).dropWhile Char.isDigit = rest := by
  induction ds with
  | nil =>
    cases rest with
    | nil => simp
    | cons r rest =>
      have : r.isDigit = false := by
        rcases hr r rfl with h | h <;> rw [h] <;> decide
      simp [List.takeWhile, List.dropWhile, this]
  | cons d ds ih =>
    have h1 := hd d (List.mem_cons_self _ _)
    obtain ⟨i1, i2⟩ := ih (fun c hc => hd c (List.mem_cons_of_mem _ hc))
    simp [List.takeWhile, List.dropWhile, h1, i1, i2]

/-- No fraction before a terminated text. -/
theorem scanFraction_terminated (rest : List Char) (hr : Terminated rest) :
    scanFraction rest = some ([], rest) := by
  cases rest with
  | nil => rfl
  | cons r rest =>
    have : r ≠ '.' := by
      rcases hr r rfl with h | h <;> rw [h] <;> decide
    unfold scanFraction
    split
    · rename_i heq
      simp only [List.cons.injEq] at heq
      exact absurd heq.1 this
    · rfl

/-- No exponent before a terminated text. -/
theorem scanExponent_terminated (rest : List Char) (hr : Terminated rest) :
    scanExponent rest = some ([], rest) := by
  cases rest with
  | nil => rfl
  | cons r rest =>
    have : ¬ (r = 'e' ∨ r = 'E') := by
      rcases hr r rfl with h | h <;> rw [h] <;> decide
    simp only [scanExponent, if_neg this]

/-- The integer part of a number written without a leading zero. -/
theorem scanIntPart_digits (ds rest : List Char) (hd : ∀ c ∈ ds, c.isDigit = true)
    (hne : ds ≠ []) (hz : ds.head? = some '0' → ds = ['0']) (hr : Terminated rest) :
    scanIntPart (ds ++ rest) = some (ds, rest) := by
  cases ds with
  | nil => exact absurd rfl hne
  | cons d ds =>
    simp only [List.cons_append, scanIntPart]
    split_ifs with h0 h1
    · have := hz (by simp [h0])
      simp only [List.cons.injEq] at this
      simp [h0, this.2]
    · obtain ⟨i1, i2⟩ := takeWhile_digits ds rest (fun c hc => hd c (List.mem_cons_of_mem _ hc)) hr
      rw [i1, i2]
    · exact absurd (hd d (List.mem_cons_self _ _)) h1

/-- Scanning decimal digits, with or without a minus sign. -/
theorem scanNumber_digits (ds rest : List Char) (hd : ∀ c ∈ ds, c.isDigit = true)
    (hne : ds ≠ []) (hz : ds.head? = some '0' → ds = ['0']) (hr : Terminated rest) :
    scanNumber (ds ++ rest) = some (ds, rest) ∧
    scanNumber ('-' :: (ds ++ rest)) = some ('-' :: ds, rest) := by
  have hi := scanIntPart_digits ds rest hd hne hz hr
  have hf := scanFraction_terminated rest hr
  have he := scanExponent_terminated rest hr
  constructor
  · cases ds with
    | nil => exact absurd rfl hne
    | cons d ds =>
      have hd0 : d ≠ '-' := by
        intro h
        have := hd d (List.mem_cons_self _ _)
        rw [h] at this
        exact absurd this (by decide)
      unfold scanNumber
      split
      · rename_i heq
        simp only [List.cons_append, List.cons.injEq] at heq
        exact absurd heq.1 hd0
      · simp only [hi, hf, he, List.append_nil, List.nil_append]
  · simp only [scanNumber, hi, hf, he, List.append_nil, List.singleton_append]

/-- Scanning an integer that `Marshal` wrote yields its text. -/
theorem scanNumber_encodeInt (n : Int) (rest : List Char) (hr : Terminated rest) :
    scanNumber (encodeInt n ++ rest) = some (encodeInt n, rest) := by
  cases n with
  | ofNat m =>
    obtain ⟨hd, _, hne, hz⟩ := toDigits_spec m
    exact (scanNumber_digits _ rest hd hne hz hr).1
  | negSucc m =>
    obtain ⟨hd, _, hne, hz⟩ := toDigits_spec (m + 1)
    exact (scanNumber_digits _ rest hd hne hz hr).2

/-- The text of a 64-bit integer parses back to the integer. -/
theorem parseInt64_encodeInt (n : Int) (hlo : -(2 ^ 63 : Int) ≤ n) (hhi : n < 2 ^ 63) :
    parseInt64 (encodeInt n) = some n := by
  cases n with
  | ofNat m =>
    obtain ⟨hd, hv, hne, _⟩ := toDigits_spec m
    simp only [encodeInt]
    cases hds : Nat.toDigits 10 m with
    | nil => exact absurd hds hne
    | cons d ds =>
      have hd0 : d ≠ '-' := by
        intro h
        have := hd d (by rw [hds]; exact List.mem_cons_self _ _)
        rw [h] at this
        exact absurd this (by decide)
      rw [hds] at hv
      have hm : m < 2 ^ 63 := by
        have : ((m : Nat) : Int) < 2 ^ 63 := hhi
        exact_mod_cast this
      simp only [parseInt64, if_neg hd0, hv, if_pos hm]
      rfl
  | negSucc m =>
    obtain ⟨hd, hv, hne, _⟩ := toDigits_spec (m + 1)
    simp only [encodeInt]
    cases hds : Nat.toDigits 10 (m + 1) with
    | nil => exact absurd hds hne
    | cons d ds =>
      rw [hds] at hv
      have hm : m + 1 ≤ 2 ^ 63 := by
        have : -(2 ^ 63 : Int) ≤ Int.negSucc m := hlo
        rw [Int.negSucc_eq] at this
        have h2 : ((m : Int) + 1) ≤ 2 ^ 63 := by omega
        exact_mod_cast h2
      simp only [parseInt64, if_true, hv, if_pos hm]
      rw [Int.negSucc_eq]
      simp

/-- No white space to drop before a character that is none. -/
theorem skipSpace_cons (c : Char) (cs : List Char) (h : isSpace c = false) :
    skipSpace (c :: cs) = c :: cs := by
  simp [skipSpace, h]

/-- Joining a first member to the rest. -/
theorem joinMembers_cons (m : List Char) (ms : List (List Char)) :
    joinMembers (m :: ms) = if ms = [] then m else m ++ ',' :: joinMembers ms := by
  cases ms <;> simp [joinMembers]

/-- No member written means no member parsed. -/
theorem jsonMembers_nil_of_encodeFields_nil (all : List StructField)
    (fields : List (StructField × GoValue)) (h : encodeFields all fields = []) :
    jsonMembers all fields = [] := by
  induction fields with
  | nil => rfl
  | cons fv tl ih =>
    obtain ⟨f, v⟩ := fv
    unfold encodeFields at h
    unfold jsonMembers
    split_ifs at h ⊢ with hc
    · exact ih h

/-- One step of the value reader. -/
theorem parseValue_step (fuel depth : Nat) (cs : List Char) :
    parseValue (fuel + 1) depth cs =
    match skipSpace cs with
    | [] => none
    | c :: rest =>
      if c = '{' then
        if maxNestingDepth ≤ depth then none
        else
          match skipSpace rest with
          | d :: rest1 =>
            if d = '}' then some (.object [], rest1)
            else (parseMembers fuel (depth + 1) rest).map fun r => (.object r.1, r.2)
          | [] => none
      else if c = '[' then
        if maxNestingDepth ≤ depth then none
        else
          match skipSpace rest with
          | d :: rest1 =>
            if d = ']' then some (.array [], rest1)
            else (parseElements fuel (depth + 1) rest).map fun r => (.array r.1, r.2)
          | [] => none
      else if c = quoteChar then (parseString rest).map fun r => (.string r.1, r.2)
      else if c = 't' then (stripLiteral ['r', 'u', 'e'] rest).map fun r => (.bool true, r)
      else if c = 'f' then
        (stripLiteral ['a', 'l', 's', 'e'] rest).map fun r => (.bool false, r)
      else if c = 'n' then (stripLiteral ['u', 'l', 'l'] rest).map fun r => (.null, r)
      else (scanNumber (c :: rest)).map fun r => (.number r.1, r.2) := by
  rw [parseValue]

/-- One step of the member reader. -/
theorem parseMembers_step (fuel depth : Nat) (cs : List Char) :
    parseMembers (fuel + 1) depth cs =
    match skipSpace cs with
    | q :: rest =>
      if q = quoteChar then
        match parseString rest with
        | none => none
        | some (key, rest) =>
          match skipSpace rest with
          | colon :: rest =>
            if colon = ':' then
              match parseValue fuel depth rest with
              | none => none
              | some (v, rest) =>
                match skipSpace rest with
                | d :: rest =>
                  if d = ',' then
                    (parseMembers fuel depth rest).map fun r => ((key, v) :: r.1, r.2)
                  else if d = '}' then some ([(key, v)], rest)
                  else none
                | [] => none
            else none
          | [] => none
      else none
    | [] => none := by
  rw [parseMembers]

/-- A digit or a minus sign starts a number and nothing else. -/
theorem lead_char (c : Char) (h : c.isDigit = true ∨ c = '-') :
    isSpace c = false ∧ c ≠ '{' ∧ c ≠ '[' ∧ c ≠ quoteChar ∧ c ≠ 't' ∧ c ≠ 'f' ∧ c ≠ 'n' := by
  rcases h with h | h
  · refine ⟨?_, ?_, ?_, ?_, ?_, ?_, ?_⟩
    · cases hs : isSpace c with
      | false => rfl
      | true =>
        simp only [isSpace, Bool.or_eq_true, beq_iff_eq] at hs
        rcases hs with ((hs | hs) | hs) | hs <;> rw [hs] at h <;> exact absurd h (by decide)
    all_goals (intro hc; rw [hc] at h; exact absurd h (by decide))
  · rw [h]
    decide

/-- The text of an integer starts with a digit or a minus sign. -/
theorem encodeInt_head (n : Int) :
    ∃ c tl, encodeInt n = c :: tl ∧ (c.isDigit = true ∨ c = '-') := by
  cases n with
  | ofNat m =>
    obtain ⟨hd, _, hne, _⟩ := toDigits_spec m
    simp only [encodeInt]
    cases hds : Nat.toDigits 10 m with
    | nil => exact absurd hds hne
    | cons d ds => exact ⟨d, ds, rfl, Or.inl (hd d (by rw [hds]; exact List.mem_cons_self _ _))⟩
  | negSucc m => exact ⟨'-', _, rfl, Or.inr rfl⟩

/-- Reading an integer that `Marshal` wrote. -/
theorem parseValue_number (fuel depth : Nat) (n : Int) (rest : List Char)
    (hr : Terminated rest) :
    parseValue (fuel + 1) depth (encodeInt n ++ rest) = some (.number (encodeInt n), rest) := by
  have hs := scanNumber_encodeInt n rest hr
  obtain ⟨c, tl, he, hc⟩ := encodeInt_head n
  obtain ⟨h0, h1, h2, h3, h4, h5, h6⟩ := lead_char c hc
  rw [he] at hs ⊢
  simp only [List.cons_append] at hs ⊢
  simp only [parseValue_step, skipSpace_cons _ _ h0, if_neg h1, if_neg h2, if_neg h3, if_neg h4,
    if_neg h5, if_neg h6, hs, Option.map_some']

/-- Reading a boolean that `Marshal` wrote. -/
theorem parseValue_bool (fuel depth : Nat) (b : Bool) (rest : List Char) :
    parseValue (fuel + 1) depth ((if b then ['t', 'r', 'u', 'e'] else ['f', 'a', 'l', 's', 'e']) ++ rest) =
      some (.bool b, rest) := by
  cases b
  · have h0 : isSpace 'f' = false := by decide
    simp [parseValue_step, skipSpace_cons _ _ h0, stripLiteral, quoteChar]
  · have h0 : isSpace 't' = false := by decide
    simp [parseValue_step, skipSpace_cons _ _ h0, stripLiteral, quoteChar]

/-- Reading a string that `Marshal` wrote. -/
theorem parseValue_string (fuel depth : Nat) (s : Bytes) (rest : List Char) :
    parseValue (fuel + 1) depth (encodeString s ++ rest) = some (.string (goText s), rest) := by
  have h0 : isSpace quoteChar = false := by decide
  have h1 : quoteChar ≠ '{' := by decide
  have h2 : quoteChar ≠ '[' := by decide
  have hp := parseString_encodeRunes s rest
  simp only [encodeString, List.cons_append, List.append_assoc, List.singleton_append,
    List.nil_append, parseValue_step, skipSpace_cons _ _ h0, if_neg h1, if_neg h2, if_true, hp,
    Option.map_some']

/-- Every member `Marshal` writes starts with the quote of its key. -/
theorem encodeFields_head (all : List StructField) (fields : List (StructField × GoValue))
    (m : List Char) (ms : List (List Char)) (h : encodeFields all fields = m :: ms) :
    ∃ t, m = quoteChar :: t := by
  induction fields with
  | nil => simp [encodeFields] at h
  | cons fv tl ih =>
    obtain ⟨f, v⟩ := fv
    unfold encodeFields at h
    split_ifs at h with hc
    · simp only [List.cons.injEq] at h
      rw [← h.1]
      simp only [encodeString, List.cons_append]
      exact ⟨_, rfl⟩
    · exact ih h

/-- One step of the element reader. -/
theorem parseElements_step (fuel depth : Nat) (cs : List Char) :
    parseElements (fuel + 1) depth cs =
    match parseValue fuel depth cs with
    | none => none
    | some (v, rest) =>
      match skipSpace rest with
      | d :: rest =>
        if d = ',' then (parseElements fuel depth rest).map fun r => (v :: r.1, r.2)
        else if d = ']' then some ([v], rest)
        else none
      | [] => none := by
  rw [parseElements]

/-- Reading the strings of a slice that `Marshal` wrote. -/
theorem parseElements_strings (depth : Nat) (rest : List Char) :
    (elems : List Bytes) → (fuel : Nat) → elems ≠ [] → elems.length + 1 ≤ fuel →
    parseElements fuel depth (joinMembers (elems.map encodeString) ++ ']' :: rest) =
      some (elems.map fun s => .string (goText s), rest)
  | [], _, hne, _ => absurd rfl hne
  | s :: tl, fuel, _, hw => by
    simp only [List.length_cons] at hw
    obtain ⟨fv, rfl⟩ : ∃ fv, fuel = fv + 2 := ⟨fuel - 2, by omega⟩
    have hcomma : isSpace ',' = false := by decide
    have hbr : isSpace ']' = false := by decide
    have hcb : (']' : Char) ≠ ',' := by decide
    simp only [List.map_cons, joinMembers_cons]
    by_cases htl : tl = []
    · subst htl
      have hv := parseValue_string fv depth s (']' :: rest)
      simp only [List.map_nil, if_true, parseElements_step, hv, skipSpace_cons _ _ hbr,
        if_neg hcb]
    · have hm : tl.map encodeString ≠ [] := by simpa using htl
      have hv := parseValue_string fv depth s
        (',' :: (joinMembers (tl.map encodeString) ++ ']' :: rest))
      have ht := parseElements_strings depth rest tl (fv + 1) htl (by omega)
      simp only [hm, if_false, List.append_assoc, List.cons_append]
      rw [parseElements_step, hv]
      simp only [skipSpace_cons _ _ hcomma, if_true, ht, Option.map_some']

/-- Reading a slice of strings that `Marshal` wrote. -/
theorem parseValue_strs (fuel depth : Nat) (elems : Option (List Bytes)) (rest : List Char)
    (hw : weight (.strs elems) ≤ fuel)
    (hn : depth + (GoValue.strs elems).nesting ≤ maxNestingDepth) :
    parseValue fuel depth (encodeValue (.strs elems) ++ rest) =
      some (jsonOf (.strs elems), rest) := by
  cases elems with
  | none =>
    obtain ⟨f, rfl⟩ : ∃ f, fuel = f + 1 := ⟨fuel - 1, by simp [weight] at hw; omega⟩
    have h0 : isSpace 'n' = false := by decide
    simp [encodeValue, jsonOf, parseValue_step, skipSpace_cons _ _ h0, stripLiteral, quoteChar]
  | some l =>
    simp only [weight] at hw
    simp only [GoValue.nesting] at hn
    obtain ⟨f, rfl⟩ : ∃ f, fuel = f + 1 := ⟨fuel - 1, by omega⟩
    have hdepth : ¬ maxNestingDepth ≤ depth := by omega
    have h0 : isSpace '[' = false := by decide
    have h1 : ('[' : Char) ≠ '{' := by decide
    have hbr : isSpace ']' = false := by decide
    have hq : isSpace quoteChar = false := by decide
    have hq2 : quoteChar ≠ ']' := by decide
    simp only [encodeValue, jsonOf, List.cons_append, List.append_assoc, List.singleton_append,
      List.nil_append, parseValue_step, skipSpace_cons _ _ h0, if_neg h1, if_true,
      if_neg hdepth]
    cases l with
    | nil => simp [joinMembers, skipSpace_cons _ _ hbr]
    | cons s tl =>
      have hp := parseElements_strings (depth + 1) rest (s :: tl) f (by simp)
        (by simp only [List.length_cons] at hw ⊢; omega)
      have hj : ∃ t2, joinMembers ((s :: tl).map encodeString) ++ ']' :: rest =
          quoteChar :: t2 := by
        rw [List.map_cons, joinMembers_cons, encodeString]
        split_ifs <;> simp
      obtain ⟨t2, ht2⟩ := hj
      rw [ht2] at hp ⊢
      simp only [skipSpace_cons _ _ hq, if_neg hq2, hp, Option.map_some']

mutual
/-- Reading a value that `Marshal` wrote yields its parsed form, given fuel for its
weight and room for its nesting. -/
theorem parseValue_encode : (v : GoValue) → (rest : List Char) → (fuel depth : Nat) →
    weight v ≤ fuel → depth + v.nesting ≤ maxNestingDepth → Terminated rest →
    parseValue fuel depth (encodeValue v ++ rest) = some (jsonOf v, rest)
  | .bool b, rest, fuel, depth, hw, _, _ => by
    obtain ⟨f, rfl⟩ : ∃ f, fuel = f + 1 := ⟨fuel - 1, by simp [weight] at hw; omega⟩
    simp only [encodeValue, jsonOf]
    exact parseValue_bool f depth b rest
  | .int n, rest, fuel, depth, hw, _, hr => by
    obtain ⟨f, rfl⟩ : ∃ f, fuel = f + 1 := ⟨fuel - 1, by simp [weight] at hw; omega⟩
    simp only [encodeValue, jsonOf]
    exact parseValue_number f depth n rest hr
  | .str s, rest, fuel, depth, hw, _, _ => by
    obtain ⟨f, rfl⟩ : ∃ f, fuel = f + 1 := ⟨fuel - 1, by simp [weight] at hw; omega⟩
    simp only [encodeValue, jsonOf]
    exact parseValue_string f depth s rest
  | .strs elems, rest, fuel, depth, hw, hn, _ => parseValue_strs fuel depth elems rest hw hn
  | .struct fields, rest, fuel, depth, hw, hn, _ => by
    obtain ⟨f, rfl⟩ : ∃ f, fuel = f + 1 := ⟨fuel - 1, by simp [weight] at hw; omega⟩
    have hwf : weightFields (fields.map Prod.fst) fields ≤ f := by simp [weight] at hw; omega
    simp only [GoValue.nesting] at hn
    have hdepth : ¬ maxNestingDepth ≤ depth := by omega
    have h0 : isSpace '{' = false := by decide
    simp only [encodeValue, jsonOf, List.cons_append, List.append_assoc, List.singleton_append,
      List.nil_append, parseValue_step, skipSpace_cons _ _ h0, if_true, if_neg hdepth]
    cases hm : encodeFields (fields.map Prod.fst) fields with
    | nil =>
      have h1 : isSpace '}' = false := by decide
      simp [joinMembers, skipSpace_cons _ _ h1,
        jsonMembers_nil_of_encodeFields_nil _ _ hm]
    | cons m ms =>
      obtain ⟨t, ht⟩ := encodeFields_head _ _ m ms hm
      have hq : isSpace quoteChar = false := by decide
      have hq2 : quoteChar ≠ '}' := by decide
      have hp := parseMembers_encode (fields.map Prod.fst) fields rest f (depth + 1)
        (by rw [hm]; simp) hwf (by omega)
      rw [hm] at hp
      have hj : ∃ t2, joinMembers (m :: ms) ++ '}' :: rest = quoteChar :: t2 := by
        rw [joinMembers_cons, ht]
        split_ifs <;> simp
      obtain ⟨t2, ht2⟩ := hj
      rw [ht2] at hp ⊢
      simp only [skipSpace_cons _ _ hq, if_neg hq2, hp, Option.map_some']
/-- Reading the members that `Marshal` wrote yields their parsed forms. -/
theorem parseMembers_encode (all : List StructField) :
    (fields : List (StructField × GoValue)) → (rest : List Char) → (fuel depth : Nat) →
    encodeFields all fields ≠ [] → weightFields all fields ≤ fuel →
    depth + nestingFields fields ≤ maxNestingDepth →
    parseMembers fuel depth (joinMembers (encodeFields all fields) ++ '}' :: rest) =
      some (jsonMembers all fields, rest)
  | [], _, _, _, hne, _, _ => by simp [encodeFields] at hne
  | (f, v) :: tl, rest, fuel, depth, hne, hw, hn => by
    simp only [nestingFields] at hn
    have hnv : depth + v.nesting ≤ maxNestingDepth := by
      have := Nat.le_max_left v.nesting (nestingFields tl)
      omega
    have hnt : depth + nestingFields tl ≤ maxNestingDepth := by
      have := Nat.le_max_right v.nesting (nestingFields tl)
      omega
    by_cases hc : (dominant all f && !(f.OmitEmpty && isEmptyValue v)) = true
    · have hw2 : weight v + 1 + weightFields all tl ≤ fuel := by
        simp only [weightFields] at hw
        rw [if_pos hc] at hw
        exact hw
      obtain ⟨fu, rfl⟩ : ∃ fu, fuel = fu + 1 := ⟨fuel - 1, by omega⟩
      have hwv : weight v ≤ fu := by omega
      have hwt : weightFields all tl ≤ fu := by omega
      have hq : isSpace quoteChar = false := by decide
      have hcol : isSpace ':' = false := by decide
      have hcomma : isSpace ',' = false := by decide
      have hbrace : isSpace '}' = false := by decide
      have hcb : (',' : Char) ≠ '}' := by decide
      simp only [encodeFields, jsonMembers, hc, if_true, joinMembers_cons]
      by_cases hms : encodeFields all tl = []
      · have hv := parseValue_encode v ('}' :: rest) fu depth hwv hnv
          (by intro c hc; simp at hc; exact Or.inr hc.symm)
        simp only [hms, if_true, encodeString_bytesOf, List.cons_append, List.append_assoc,
          List.singleton_append, List.nil_append, parseMembers_step, skipSpace_cons _ _ hq,
          parseString_encode, skipSpace_cons _ _ hcol, hv, skipSpace_cons _ _ hbrace,
          if_neg hcb.symm, jsonMembers_nil_of_encodeFields_nil _ _ hms]
      · have hv := parseValue_encode v
          (',' :: (joinMembers (encodeFields all tl) ++ '}' :: rest)) fu depth hwv hnv
          (by intro c hc; simp at hc; exact Or.inl hc.symm)
        have ht := parseMembers_encode all tl rest fu depth hms hwt hnt
        simp only [hms, if_false, encodeString_bytesOf, List.cons_append, List.append_assoc,
          List.singleton_append, List.nil_append, parseMembers_step, skipSpace_cons _ _ hq,
          parseString_encode, skipSpace_cons _ _ hcol, hv, skipSpace_cons _ _ hcomma,
          if_true, ht, Option.map_some']
    · have hne2 : encodeFields all tl ≠ [] := by
        intro h
        apply hne
        simp only [encodeFields]
        rw [if_neg hc]
        exact h
      have hwt : weightFields all tl ≤ fuel := by
        simp only [weightFields] at hw
        rw [if_neg hc] at hw
        exact hw
      have ht := parseMembers_encode all tl rest fuel depth hne2 hwt hnt
      simp only [encodeFields, jsonMembers, hc]
      simpa using ht
end

/-- Joined members are at least as long as their parts. -/
theorem length_joinMembers_cons (m : List Char) (ms : List (List Char)) :
    m.length + (joinMembers ms).length ≤ (joinMembers (m :: ms)).length := by
  rw [joinMembers_cons]
  split_ifs with h
  · simp [h, joinMembers]
  · simp

/-- The strings of a slice are at most as many as the characters of their text. -/
theorem length_le_joinMembers_strings (elems : List Bytes) :
    elems.length ≤ (joinMembers (elems.map encodeString)).length := by
  induction elems with
  | nil => simp
  | cons s tl ih =>
    have h := length_joinMembers_cons (encodeString s) (tl.map encodeString)
    have hs : 1 ≤ (encodeString s).length := by simp [encodeString]
    simp only [List.map_cons, List.length_cons]
    omega

mutual
/-- The weight of a value is at most the length of its text. -/
theorem weight_le_length : (v : GoValue) → weight v ≤ (encodeValue v).length
  | .bool b => by cases b <;> simp [weight, encodeValue]
  | .int n => by
    obtain ⟨c, tl, he, _⟩ := encodeInt_head n
    simp [weight, encodeValue, he]
  | .str s => by simp [weight, encodeValue, encodeString]
  | .strs none => by simp [weight, encodeValue]
  | .strs (some elems) => by
    have := length_le_joinMembers_strings elems
    simp only [weight, encodeValue, List.length_cons, List.length_append, List.length_nil]
    omega
  | .struct fields => by
    have := weightFields_le_length (fields.map Prod.fst) fields
    simp only [weight, encodeValue, List.length_cons, List.length_append, List.length_nil]
    omega
/-- The weight of the members is at most the length of their text. -/
theorem weightFields_le_length (all : List StructField) :
    (fields : List (StructField × GoValue)) →
    weightFields all fields ≤ (joinMembers (encodeFields all fields)).length
  | [] => by simp [weightFields]
  | (f, v) :: tl => by
    have h1 := weight_le_length v
    have h2 := weightFields_le_length all tl
    simp only [weightFields, encodeFields]
    split_ifs with hc
    · have h3 := length_joinMembers_cons (encodeString (bytesOf f.key) ++ ':' :: encodeValue v)
        (encodeFields all tl)
      have hl : (encodeValue v).length + 1 ≤
          (encodeString (bytesOf f.key) ++ ':' :: encodeValue v).length := by
        simp only [List.length_append, List.length_cons]
        omega
      omega
    · exact h2
end

/-- The text `Marshal` writes for a value nested no deeper than the scanner allows
is valid JSON and parses to the parsed form of the value. -/
theorem parseJSON_encode (v : GoValue) (hn : v.nesting ≤ maxNestingDepth) :
    parseJSON (encodeValue v) = some (jsonOf v) := by
  have h := parseValue_encode v [] ((encodeValue v).length + 1) 0
    (by have := weight_le_length v; omega) (by omega) (by intro c hc; simp at hc)
  rw [List.append_nil] at h
  simp [parseJSON, h, skipSpace]

/-- No candidate carries a key that no field carries. -/
theorem filter_key_nil (l : List StructField) (f : StructField)
    (h : l.all (fun g => g.key != f.key) = true) :
    l.filter (fun g => g.candidate && g.key == f.key) = [] := by
  rw [List.filter_eq_nil_iff]
  intro g hg
  have := List.all_eq_true.mp h g hg
  simp only [bne_iff_ne, ne_eq] at this
  simp [this]

/-- Among fields with distinct keys exactly one candidate carries the key of a field. -/
theorem filter_key_length (l : List StructField) (f : StructField)
    (hc : l.all StructField.candidate = true) (hd : distinctKeys l = true) (hf : f ∈ l) :
    (l.filter (fun g => g.candidate && g.key == f.key)).length = 1 := by
  induction l with
  | nil => cases hf
  | cons g l ih =>
    simp only [distinctKeys, Bool.and_eq_true] at hd
    simp only [List.all_cons, Bool.and_eq_true] at hc
    by_cases hk : g.key = f.key
    · have hnil := filter_key_nil l g hd.1
      rw [hk] at hnil
      simp [List.filter_cons, hc.1, hk, hnil]
    · have hfl : f ∈ l := by
        rcases List.mem_cons.mp hf with h | h
        · exact absurd (by rw [h]) hk
        · exact h
      simp [List.filter_cons, hk, ih hc.2 hd.2 hfl]

/-- Candidates with pairwise distinct keys are all used by `encoding/json`. -/
theorem dominant_of_distinct (all : List StructField) (f : StructField)
    (hc : all.all StructField.candidate = true) (hd : distinctKeys all = true) (hf : f ∈ all) :
    dominant all f = true := by
  have h1 := List.all_eq_true.mp hc f hf
  have h2 := filter_key_length all f hc hd hf
  simp [dominant, h1, h2]

/-- With distinct keys, no field before a field shares its key. -/
theorem distinctKeys_append (l1 l2 : List StructField) (f : StructField)
    (hd : distinctKeys (l1 ++ f :: l2) = true) : ∀ g ∈ l1, g.key ≠ f.key := by
  induction l1 with
  | nil => intro g hg; cases hg
  | cons a l1 ih =>
    simp only [List.cons_append, distinctKeys, Bool.and_eq_true] at hd
    intro g hg
    rcases List.mem_cons.mp hg with h | h
    · have := List.all_eq_true.mp hd.1 f (by simp)
      simp only [bne_iff_ne, ne_eq] at this
      rw [h]
      exact fun e => this e.symm
    · exact ih hd.2 g h

/-- The first index of a test that fails on a prefix and holds right after it. -/
theorem firstIndex_append (p : StructField → Bool) (l1 l2 : List StructField) (f : StructField)
    (h1 : ∀ g ∈ l1, p g = false) (h2 : p f = true) :
    firstIndex p (l1 ++ f :: l2) = some l1.length := by
  induction l1 with
  | nil => simp [firstIndex, h2]
  | cons a l1 ih =>
    have ha := h1 a (List.mem_cons_self _ _)
    simp [firstIndex, ha, ih (fun g hg => h1 g (List.mem_cons_of_mem _ hg))]

/-- Updating the field that follows a prefix. -/
theorem updateField_append (step : GoValue → GoValue × Option Error)
    (l1 l2 : List (StructField × GoValue)) (f : StructField) (v : GoValue) :
    updateField step l1.length (l1 ++ (f, v) :: l2) =
      (l1 ++ (f, (step v).1) :: l2, (step v).2) := by
  induction l1 with
  | nil => rfl
  | cons a l1 ih => simp [updateField, ih]

/-- An empty value other than an empty slice that is not nil is the zero value of
its type. -/
theorem zero_of_empty (v : GoValue) (hs : emptySlice v = false) (h : isEmptyValue v = true) :
    v.zero = v := by
  cases v with
  | bool b => cases b <;> simp_all [isEmptyValue, GoValue.zero]
  | int n => simp_all [isEmptyValue, GoValue.zero]
  | str s =>
    simp only [isEmptyValue, List.isEmpty_iff] at h
    simp only [GoValue.zero, GoValue.str.injEq]
    exact h.symm
  | strs elems =>
    cases elems with
    | none => rfl
    | some l =>
      cases l with
      | nil => simp [emptySlice] at hs
      | cons a l => simp [isEmptyValue] at h
  | struct fields => simp [isEmptyValue] at h

/-- Decoding the parsed forms of valid strings yields the strings, whatever the
slice held before. -/
theorem assignElems_strings (elems : List Bytes) (h : elems.all validUTF8 = true) :
    ∀ olds, assignElems (elems.map fun s => .string (goText s)) olds = (elems, none) := by
  induction elems with
  | nil => intro olds; rfl
  | cons s tl ih =>
    intro olds
    simp only [List.all_cons, Bool.and_eq_true] at h
    have hs : bytesOf (goText s) = s := by simpa [validUTF8] using h.1
    simp only [List.map_cons, assignElems, ih h.2, hs]
    rfl

/-- Zeroing the values keeps the fields. -/
theorem zeroFields_map_fst (fields : List (StructField × GoValue)) :
    (zeroFields fields).map Prod.fst = fields.map Prod.fst := by
  induction fields with
  | nil => rfl
  | cons fv tl ih =>
    obtain ⟨f, v⟩ := fv
    simp [zeroFields, ih]

/-- With distinct keys, the key of a field is decoded into that field. -/
theorem findField_at (done todo : List (StructField × GoValue)) (f : StructField)
    (v w : GoValue)
    (hc : ((done ++ (f, v) :: todo).map Prod.fst).all StructField.candidate = true)
    (hd : distinctKeys ((done ++ (f, v) :: todo).map Prod.fst) = true) :
    findField ((done ++ (f, w) :: zeroFields todo).map Prod.fst) f.key = some done.length := by
  have hall : (done ++ (f, w) :: zeroFields todo).map Prod.fst =
      done.map Prod.fst ++ f :: todo.map Prod.fst := by
    simp [zeroFields_map_fst]
  have hall2 : (done ++ (f, v) :: todo).map Prod.fst =
      done.map Prod.fst ++ f :: todo.map Prod.fst := by simp
  rw [hall2] at hc hd
  rw [hall]
  have hdom := dominant_of_distinct _ f hc hd (by simp)
  have hne := distinctKeys_append _ _ _ hd
  have := firstIndex_append
    (fun g => dominant (done.map Prod.fst ++ f :: todo.map Prod.fst) g && g.key == f.key)
    (done.map Prod.fst) (todo.map Prod.fst) f
    (by intro g hg; simp [hne g hg]) (by simp [hdom])
  simp [findField, this]

/-- Decoding an object into a struct. -/
theorem assign_object (members : List (String × JSON)) (fields : List (StructField × GoValue)) :
    assign (.object members) (.struct fields) =
      (.struct (assignMembers members fields).1, (assignMembers members fields).2) := by
  rw [assign]

/-- Decoding the first member, then the others. -/
theorem assignMembers_cons (key : String) (j : JSON) (members : List (String × JSON))
    (fields : List (StructField × GoValue)) :
    assignMembers ((key, j) :: members) fields =
      ((assignMembers members
          (match findField (fields.map Prod.fst) key with
            | some i => updateField (assign j) i fields
            | none => (fields, none)).1).1,
        (match findField (fields.map Prod.fst) key with
            | some i => updateField (assign j) i fields
            | none => (fields, none)).2 <|>
          (assignMembers members
            (match findField (fields.map Prod.fst) key with
              | some i => updateField (assign j) i fields
              | none => (fields, none)).1).2) := by
  rw [assignMembers]

mutual
/-- Decoding the parsed form of a plain value into the zero value of its type yields the value. -/
theorem assign_jsonOf : (v : GoValue) → v.plain = true → assign (jsonOf v) v.zero = (v, none)
  | .bool b, _ => by simp [jsonOf, GoValue.zero, assign]
  | .str s, h => by
    have hs : bytesOf (goText s) = s := by simpa [GoValue.plain, validUTF8] using h
    simp [jsonOf, GoValue.zero, assign, hs]
  | .strs none, _ => by simp [jsonOf, GoValue.zero, assign]
  | .strs (some elems), h => by
    simp only [GoValue.plain] at h
    simp [jsonOf, GoValue.zero, assign, assignElems_strings elems h]
  | .int n, h => by
    simp only [GoValue.plain, Bool.and_eq_true, decide_eq_true_eq] at h
    simp [jsonOf, GoValue.zero, assign, parseInt64_encodeInt n h.1 h.2]
  | .struct fields, h => by
    simp only [GoValue.plain, Bool.and_eq_true] at h
    have := assignMembers_jsonMembers [] fields (by simpa using h.1.1) (by simpa using h.1.2) h.2
    simp only [List.nil_append] at this
    simp only [jsonOf, GoValue.zero, assign_object, this]
/-- Decoding the members of the fields still to do, after the fields done. -/
theorem assignMembers_jsonMembers (done : List (StructField × GoValue)) :
    (todo : List (StructField × GoValue)) →
    ((done ++ todo).map Prod.fst).all StructField.candidate = true →
    distinctKeys ((done ++ todo).map Prod.fst) = true →
    plainFields todo = true →
    assignMembers (jsonMembers ((done ++ todo).map Prod.fst) todo) (done ++ zeroFields todo) =
      (done ++ todo, none)
  | [], _, _, _ => by simp [jsonMembers, zeroFields, assignMembers]
  | (f, v) :: tl, hc, hd, hp => by
    simp only [plainFields, Bool.and_eq_true] at hp
    have hdom : dominant ((done ++ (f, v) :: tl).map Prod.fst) f = true :=
      dominant_of_distinct _ f hc hd (by simp)
    have hassoc : done ++ (f, v) :: tl = (done ++ [(f, v)]) ++ tl := by simp
    have ih := assignMembers_jsonMembers (done ++ [(f, v)]) tl (by rw [← hassoc]; exact hc)
      (by rw [← hassoc]; exact hd) hp.2
    rw [← hassoc] at ih
    by_cases ho : (f.OmitEmpty && isEmptyValue v) = true
    · have hes : emptySlice v = false := by
        simp only [Bool.and_eq_true] at ho
        have h2 := hp.1.2
        simp only [ho.1, Bool.true_and, Bool.not_eq_true'] at h2
        exact h2
      have hz : v.zero = v := zero_of_empty v hes
        (by simp only [Bool.and_eq_true] at ho; exact ho.2)
      have hz2 : done ++ zeroFields ((f, v) :: tl) = (done ++ [(f, v)]) ++ zeroFields tl := by
        simp [zeroFields, hz]
      rw [hz2]
      simp only [jsonMembers, hdom, ho, Bool.not_true, Bool.and_false, Bool.false_eq_true,
        if_false]
      exact ih
    · have hv := assign_jsonOf v hp.1.1
      have hfind := findField_at done tl f v v.zero hc hd
      have hupd := updateField_append (assign (jsonOf v)) done (zeroFields tl) f v.zero
      rw [hv] at hupd
      have hz2 : done ++ (f, v) :: zeroFields tl = (done ++ [(f, v)]) ++ zeroFields tl := by simp
      have ho2 : (f.OmitEmpty && isEmptyValue v) = false := by
        cases h : (f.OmitEmpty && isEmptyValue v)
        · rfl
        · exact absurd h ho
      simp only [jsonMembers, hdom, ho2, Bool.not_false, Bool.and_true, if_true, zeroFields,
        assignMembers_cons, hfind, hupd, hz2, ih]
      rfl
end

/-- The bytes `Marshal` writes for a plain value decode into the zero value of its type to the value. -/
theorem Unmarshal_Marshal (v : GoValue) (h : v.plain = true)
    (hn : v.nesting ≤ maxNestingDepth) :
    Unmarshal ((encodeValue v).flatMap utf8EncodeChar) (.pointer (some v.zero)) =
      (.pointer (some v), none) := by
  have ha := assign_jsonOf v h
  simp only [Unmarshal, utf8Decode_encode, parseJSON_encode v hn]
  cases v with
  | bool b => simp only [jsonOf] at ha ⊢; simp only [ha]
  | int n => simp only [jsonOf] at ha ⊢; simp only [ha]
  | str s => simp only [jsonOf] at ha ⊢; simp only [ha]
  | strs elems =>
    cases elems with
    | none => rfl
    | some l => simp only [jsonOf] at ha ⊢; simp only [ha]
  | struct fields => simp only [jsonOf] at ha ⊢; simp only [ha]

/-- C8 (counterexample): three structs that `TransformStructToReader` encodes
without error and whose bytes decode, into a fresh struct of the same type, to a
value that differs from the original. A field tagged `-` is left out of
`{"name":"X"}` and comes back empty. A name whose bytes `a\xffb` are not valid UTF-8
is written as `a\ufffdb` and comes back as the text with U+FFFD. An empty slice
that is not nil, tagged `omitempty`, is left out and comes back nil. -/
theorem TransformStructToReader_round_trip_fails :
    (Client.TransformStructToReader encodingJSON
        (some (.pointer (some (secretStruct "X" "s")))) =
      (some (bytesOf "\x7b\"name\":\"X\"\x7d"), none) ∧
    encodingJSON.Unmarshal (bytesOf "\x7b\"name\":\"X\"\x7d")
        (.pointer (some (secretStruct "X" "s").zero)) =
      (.pointer (some (secretStruct "X" "")), none) ∧
    secretStruct "X" "" ≠ secretStruct "X" "s") ∧
    (Client.TransformStructToReader encodingJSON
        (some (.pointer (some (rawNameStruct [97, 255, 98])))) =
      (some (bytesOf "\x7b\"name\":\"a\\ufffdb\"\x7d"), none) ∧
    encodingJSON.Unmarshal (bytesOf "\x7b\"name\":\"a\\ufffdb\"\x7d")
        (.pointer (some (rawNameStruct [97, 255, 98]).zero)) =
      (.pointer (some (rawNameStruct [97, 239, 191, 189, 98])), none) ∧
    rawNameStruct [97, 239, 191, 189, 98] ≠ rawNameStruct [97, 255, 98]) ∧
    (Client.TransformStructToReader encodingJSON
        (some (.pointer (some (tagsStruct (some []))))) =
      (some (bytesOf "\x7b\x7d"), none) ∧
    encodingJSON.Unmarshal (bytesOf "\x7b\x7d")
        (.pointer (some (tagsStruct (some [])).zero)) =
      (.pointer (some (tagsStruct none)), none) ∧
    tagsStruct none ≠ tagsStruct (some [])) := by
  refine ⟨⟨rfl, rfl, ?_⟩, ⟨rfl, rfl, ?_⟩, ⟨rfl, rfl, ?_⟩⟩
  · simp [secretStruct]; decide
  · simp [rawNameStruct]
  · simp [tagsStruct]

/-- C8 (amended): for every pointer to a struct whose fields, at every depth, are
exported, not tagged `-`, have pairwise distinct JSON keys and hold booleans,
64-bit integers, strings that are valid UTF-8, slices of such strings (an empty
slice that is not nil only in a field without `omitempty`) or such structs, nested
no deeper than the 10000 levels the JSON scanner accepts, `TransformStructToReader`
returns a reader, and its bytes decode into a zero value of the struct type to the
original value, without error; agile `Call` does so with the target it is given
when a 2xx response carries these bytes. For the struct with the single field `Name` tagged
`name` holding `X` the bytes are exactly `{"name":"X"}`. -/
theorem TransformStructToReader_round_trip (fields : List (StructField × GoValue))
    (hPlain : (GoValue.struct fields).plain = true)
    (hDepth : (GoValue.struct fields).nesting ≤ maxNestingDepth) :
    (∃ bytes,
      Client.TransformStructToReader encodingJSON (some (.pointer (some (.struct fields)))) =
        (some bytes, none) ∧
      encodingJSON.Unmarshal bytes (.pointer (some (GoValue.struct fields).zero)) =
        (.pointer (some (.struct fields)), none) ∧
      ∀ (url : NetURL) (c : Client) (request : Request) (response : Response),
        c.HTTP request = ⟨some response, none⟩ → response.Body = ⟨bytes, none⟩ →
        200 ≤ response.StatusCode ∧ response.StatusCode < 300 →
        ∃ env, Client.Call encodingJSON url c request
            (some (.pointer (some (GoValue.struct fields).zero))) =
          .returns ⟨some env, none, some (.pointer (some (.struct fields)))⟩) ∧
    Client.TransformStructToReader encodingJSON (some (.pointer (some (nameStruct "X")))) =
      (some (bytesOf "\x7b\"name\":\"X\"\x7d"), none) := by
  refine ⟨⟨(encodeValue (.struct fields)).flatMap utf8EncodeChar, rfl,
    Unmarshal_Marshal _ hPlain hDepth, ?_⟩, rfl⟩
  intro url c request response hDo hBody hCode
  have hRead : response.Body.err = none := by rw [hBody]
  have hData : response.Body.data = (encodeValue (.struct fields)).flatMap utf8EncodeChar := by
    rw [hBody]
  have hCall := agile_Call_success_decode encodingJSON url c request response
    (.pointer (some (GoValue.struct fields).zero)) hDo hRead hCode
  have hU : encodingJSON.Unmarshal response.Body.data
      (.pointer (some (GoValue.struct fields).zero)) = (.pointer (some (.struct fields)), none) := by
    rw [hData]
    exact Unmarshal_Marshal _ hPlain hDepth
  rw [hU] at hCall
  exact ⟨_, hCall⟩

/-- A run of C8 on the scenario: the pointer to `{Name: "X"}` is encoded as
`{"name":"X"}`, and a 201 response with that body decodes into a fresh struct to
`{Name: "X"}`. -/
theorem TransformStructToReader_round_trip_witness :
    (nameStruct "X").plain = true ∧ (nameStruct "X").nesting ≤ maxNestingDepth ∧
    ∃ env, Client.Call encodingJSON netURL
        (sampleClient ⟨some (sampleResponse 201 "\x7b\"name\":\"X\"\x7d"), none⟩) sampleRequest
        (some (.pointer (some (nameStruct "")))) =
      .returns ⟨some env, none, some (.pointer (some (nameStruct "X")))⟩ :=
  ⟨rfl, by decide, by
    obtain ⟨bytes, hb, _, hc⟩ :=
      (TransformStructToReader_round_trip
        [({ Name := "Name", JSONName := "name" }, .str (bytesOf "X"))] rfl (by decide)).1
    have hbytes : bytes = bytesOf "\x7b\"name\":\"X\"\x7d" := by
      have h2 : Client.TransformStructToReader encodingJSON
          (some (.pointer (some (nameStruct "X")))) =
          (some (bytesOf "\x7b\"name\":\"X\"\x7d"), none) := rfl
      have h3 := hb.symm.trans h2
      simpa using h3
    subst hbytes
    exact hc netURL _ sampleRequest (sampleResponse 201 "\x7b\"name\":\"X\"\x7d") rfl rfl
      (by decide)⟩

/-! ### Relative paths with and without a leading slash (C11), the query (C12) -/

/-- Cutting a text that starts with another character than the separator. -/
theorem cutAt_cons_ne (sep c : Char) (cs : List Char) (h : c ≠ sep) :
    cutAt sep (c :: cs) = (c :: (cutAt sep cs).1, (cutAt sep cs).2.1, (cutAt sep cs).2.2) := by
  simp [cutAt, h]

/-- What `strings.Cut` returns: the whole text when the separator does not occur,
else the parts before and after its first occurrence. -/
theorem cutAt_spec (sep : Char) (l : List Char) :
    ((cutAt sep l).2.2 = false ∧ (cutAt sep l).1 = l ∧ (cutAt sep l).2.1 = []) ∨
    ((cutAt sep l).2.2 = true ∧ l = (cutAt sep l).1 ++ sep :: (cutAt sep l).2.1) := by
  induction l with
  | nil => simp [cutAt]
  | cons c cs ih =>
    by_cases h : c = sep
    · simp [cutAt, h]
    · rw [cutAt_cons_ne sep c cs h]
      rcases ih with ⟨h1, h2, h3⟩ | ⟨h1, h2⟩
      · left
        simp [h1, h2, h3]
      · right
        refine ⟨h1, ?_⟩
        simp only [List.cons_append]
        rw [← h2]

/-- The first part of a cut starts like the text. -/
theorem cutAt_head (sep : Char) (l : List Char) (c : Char)
    (h : (cutAt sep l).1.head? = some c) : l.head? = some c := by
  cases l with
  | nil => simp [cutAt] at h
  | cons d cs =>
    by_cases hd : d = sep
    · simp [cutAt, hd] at h
    · rw [cutAt_cons_ne sep d cs hd] at h
      simpa using h

/-- A text without its last character starts like the text. -/
theorem dropLast_head (l : List Char) (c : Char) (h : l.dropLast.head? = some c) :
    l.head? = some c := by
  cases l with
  | nil => simp at h
  | cons d cs =>
    cases cs with
    | nil => simp at h
    | cons e es => simpa [List.dropLast] using h

/-- When `getScheme` finds no scheme it hands back the whole text. -/
theorem getSchemeFrom_no_scheme (raw : List Char) :
    ∀ (cs pre : List Char) (i : Nat) (rest : List Char), raw = pre ++ cs → pre.length = i →
      getSchemeFrom raw i cs = .ok ([], rest) → rest = raw := by
  intro cs
  induction cs with
  | nil =>
    intro pre i rest _ _ h
    simp only [getSchemeFrom, Except.ok.injEq, Prod.mk.injEq, true_and] at h
    exact h.symm
  | cons c cs ih =>
    intro pre i rest hraw hi h
    have hnext : raw = (pre ++ [c]) ++ cs := by simp [hraw]
    have hlen : (pre ++ [c]).length = i + 1 := by simp [hi]
    simp only [getSchemeFrom] at h
    split_ifs at h with h1 h2 h3 h4 h5
    · exact ih _ _ _ hnext hlen h
    · simp only [Except.ok.injEq, Prod.mk.injEq, true_and] at h
      exact h.symm
    · exact ih _ _ _ hnext hlen h
    · simp only [Except.ok.injEq, Prod.mk.injEq] at h
      exfalso
      have h0 : List.take i raw = [] := h.1
      rw [List.take_eq_nil_iff] at h0
      rcases h0 with h0 | h0
      · exact h5 h0
      · rw [hraw] at h0
        simp at h0
    · simp only [Except.ok.injEq, Prod.mk.injEq, true_and] at h
      exact h.symm

/-- A text that starts with a slash has no scheme. -/
theorem getSchemeFrom_slash (cs : List Char) :
    getSchemeFrom ('/' :: cs) 0 ('/' :: cs) = .ok ([], '/' :: cs) := by
  have h1 : ('/' : Char).isAlpha = false := by decide
  have h2 : (('/' : Char).isDigit || '/' == '+' || '/' == '-' || '/' == '.') = false := by decide
  have h3 : (('/' : Char) == ':') = false := by decide
  simp [getSchemeFrom, h1, h2, h3]

/-- The function `parse` in two steps: the scheme, then the rest. -/
theorem parseNoFragment_eq (raw : List Char) :
    parseNoFragment raw =
      if raw.any (fun c => c.toNat < 32 || c.toNat == 127) then
        .error (.other "net/url: invalid control character in URL")
      else if raw = ['*'] then .ok { Path := "*" }
      else
        match getSchemeFrom raw 0 raw with
        | .error err => .error err
        | .ok (scheme, rest) => parseAfterScheme (scheme.map Char.toLower) rest := by
  rfl

/-- The forced-query test is the same after a leading slash. -/
theorem forceQuery_slash (rest : List Char) :
    (decide (('/' :: rest).getLast? = some '?') && ('/' :: rest).count '?' == 1) =
      (decide (rest.getLast? = some '?') && rest.count '?' == 1) := by
  cases rest with
  | nil => decide
  | cons c cs =>
    rw [List.getLast?_cons_cons]
    have : ('/' :: c :: cs).count '?' = (c :: cs).count '?' := by
      rw [List.count_cons]
      simp
    rw [this]

/-- The text before the query, after a leading slash. -/
theorem beforeQuery_slash (rest : List Char) (fq : Bool)
    (hfq : fq = true → rest ≠ []) :
    (if fq = true then ('/' :: rest).dropLast else (cutAt '?' ('/' :: rest)).1) =
      '/' :: (if fq = true then rest.dropLast else (cutAt '?' rest).1) ∧
    (if fq = true then [] else (cutAt '?' ('/' :: rest)).2.1) =
      (if fq = true then [] else (cutAt '?' rest).2.1) := by
  cases fq with
  | true =>
    simp only [if_true]
    exact ⟨List.dropLast_cons_of_ne_nil (hfq rfl), trivial⟩
  | false =>
    simp only [Bool.false_eq_true, if_false]
    rw [cutAt_cons_ne '?' '/' rest (by decide)]
    exact ⟨rfl, rfl⟩

/-- Parsing a reference without scheme that does not start with a slash, and the
same reference after a slash: only the path differs, by that slash. -/
theorem parseAfterScheme_slash (rest : List Char) (u : URL)
    (h : parseAfterScheme [] rest = .ok u) (hh : rest.head? ≠ some '/') :
    parseAfterScheme [] ('/' :: rest) = .ok { u with Path := "/" ++ u.Path } ∧
    u.Scheme = "" ∧ u.Host = "" ∧ u.Opaque = "" ∧ u.User = none ∧ u.RawPath = "" ∧
    u.Path.data.head? ≠ some '/' := by
  have hfqe := forceQuery_slash rest
  generalize hfq : (decide (rest.getLast? = some '?') && rest.count '?' == 1) = fq at hfqe
  have hne : fq = true → rest ≠ [] := by
    intro hf hr
    rw [hr] at hfq
    rw [← hfq] at hf
    simp at hf
  obtain ⟨hb1, hb2⟩ := beforeQuery_slash rest fq hne
  have hhead : (if fq = true then rest.dropLast else (cutAt '?' rest).1).head? ≠ some '/' := by
    intro hc
    apply hh
    cases fq with
    | true => exact dropLast_head _ _ (by simpa using hc)
    | false => exact cutAt_head _ _ _ (by simpa using hc)
  generalize hr1 : (if fq = true then rest.dropLast else (cutAt '?' rest).1) = rest1 at hb1 hhead
  generalize hq : (if fq = true then [] else (cutAt '?' rest).2.1) = rawQuery at hb2
  have h2 : ¬ (rest1.take 2 = ['/', '/']) := by
    intro hc
    apply hhead
    have := congrArg List.head? hc
    rw [List.head?_take] at this
    simpa using this
  have h2s : ¬ (('/' :: rest1).take 2 = ['/', '/']) := by
    intro hc
    apply hhead
    cases rest1 with
    | nil => simp at hc
    | cons c cs =>
      simp only [List.take, List.cons.injEq, and_true, true_and] at hc
      simp [hc]
  simp only [parseAfterScheme, hfq, hr1, hq, List.isEmpty_nil, not_true_eq_false, and_false,
    if_false, false_or, h2] at h
  simp only [parseAfterScheme, hfqe, hb1, hb2, List.isEmpty_nil, not_true_eq_false, and_false,
    if_false, false_or, h2s, List.head?_cons, ne_eq, not_true_eq_false, false_and]
  split_ifs at h with hcol
  simp only [Except.ok.injEq] at h
  subst h
  exact ⟨rfl, rfl, rfl, rfl, rfl, rfl, hhead⟩

/-- The scheme of a parsed reference is the scheme split off. -/
theorem parseAfterScheme_scheme (scheme rest : List Char) (u : URL)
    (h : parseAfterScheme scheme rest = .ok u) : u.Scheme = String.mk scheme := by
  simp only [parseAfterScheme] at h
  split_ifs at h <;> simp only [Except.ok.injEq] at h <;> subst h <;> rfl

/-- Parsing a text without scheme that does not start with a slash, and the same
text after a slash: only the path differs, by that slash. -/
theorem parseNoFragment_slash (raw : List Char) (u : URL)
    (h : parseNoFragment raw = .ok u) (hs : u.Scheme = "") (hh : raw.head? ≠ some '/') :
    parseNoFragment ('/' :: raw) = .ok { u with Path := "/" ++ u.Path } ∧
    u.Host = "" ∧ u.Opaque = "" ∧ u.User = none ∧ u.RawPath = "" ∧
    u.Path.data.head? ≠ some '/' := by
  rw [parseNoFragment_eq] at h
  split_ifs at h with hctl hstar
  · subst hstar
    simp only [Except.ok.injEq] at h
    subst h
    exact ⟨rfl, rfl, rfl, rfl, rfl, by decide⟩
  · cases hg : getSchemeFrom raw 0 raw with
    | error e => simp [hg] at h
    | ok r =>
      obtain ⟨scheme, rest⟩ := r
      simp only [hg] at h
      have hsch := parseAfterScheme_scheme _ _ _ h
      rw [hs] at hsch
      have hnil : scheme = [] := by
        have hd : scheme.map Char.toLower = [] := (congrArg String.data hsch).symm
        exact List.map_eq_nil_iff.mp hd
      subst hnil
      have hrest : rest = raw := getSchemeFrom_no_scheme raw raw [] 0 rest rfl rfl hg
      subst hrest
      obtain ⟨hp, h1, h2, h3, h4, h5, h6⟩ := parseAfterScheme_slash rest u h hh
      refine ⟨?_, h2, h3, h4, h5, h6⟩
      rw [parseNoFragment_eq]
      have hctl2 : (('/' :: rest).any fun c => c.toNat < 32 || c.toNat == 127) = false := by
        rw [List.any_cons]
        simp only [Bool.not_eq_true] at hctl
        rw [hctl]
        decide
      have hstar2 : ('/' :: rest) ≠ ['*'] := by
        intro hc
        simp only [List.cons.injEq] at hc
        exact absurd hc.1 (by decide)
      simp only [hctl2, Bool.false_eq_true, if_false, hstar2, getSchemeFrom_slash]
      exact hp

/-- C11, the parser: a relative reference without scheme that does not start with
a slash parses, after a slash is put in front, to the same reference with the
slash in front of its path. -/
theorem urlParse_slash (P : String) (ref : URL) (h : urlParse P = .ok ref)
    (hs : ref.Scheme = "") (hh : P.data.head? ≠ some '/') :
    urlParse ("/" ++ P) = .ok { ref with Path := "/" ++ ref.Path } ∧
    ref.Host = "" ∧ ref.Opaque = "" ∧ ref.User = none ∧ ref.RawPath = "" ∧
    ref.Path.data.head? ≠ some '/' := by
  unfold urlParse at h ⊢
  have hd : ("/" ++ P).data = '/' :: P.data := rfl
  rw [hd, cutAt_cons_ne '#' '/' P.data (by decide)]
  simp only
  cases hp : parseNoFragment (cutAt '#' P.data).1 with
  | error e => simp [hp] at h
  | ok u =>
    simp only [hp, Except.ok.injEq] at h
    have hraw : (cutAt '#' P.data).1.head? ≠ some '/' := fun hc => hh (cutAt_head _ _ _ hc)
    have hsu : u.Scheme = "" := by rw [← h] at hs; exact hs
    obtain ⟨hq, h1, h2, h3, h4, h5⟩ := parseNoFragment_slash _ u hp hsu hraw
    rw [hq, ← h]
    exact ⟨rfl, h1, h2, h3, h4, h5⟩

/-- Against the root path, a path resolves the same with and without a slash in
front. -/
theorem resolvePath_root_slash (a : List Char) (h : a.head? ≠ some '/') :
    resolvePath ['/'] ('/' :: a) = resolvePath ['/'] a := by
  cases a with
  | nil => rfl
  | cons c cs =>
    have hc : c ≠ '/' := by simpa using h
    have hd : dirOf ['/'] = ['/'] := by decide
    simp [resolvePath, hc, hd]

/-- C11, the resolution: against a base with the root path and neither opaque part,
query nor fragment, a reference without scheme and host resolves the same with and
without a slash in front of its path. -/
theorem urlResolveReference_slash (site ref : URL)
    (hsite : site.Path = "/" ∧ site.Opaque = "" ∧ site.RawQuery = "" ∧ site.Fragment = "")
    (h : ref.Scheme = "" ∧ ref.Host = "" ∧ ref.Opaque = "" ∧ ref.User = none ∧
      ref.RawPath = "" ∧ ref.Path.data.head? ≠ some '/') :
    urlResolveReference site { ref with Path := "/" ++ ref.Path } =
      urlResolveReference site ref := by
  obtain ⟨s1, s2, s3, s4⟩ := hsite
  obtain ⟨h1, h2, h3, h4, h5, h6⟩ := h
  obtain ⟨rScheme, rOpaque, rUser, rHost, rPath, rRawPath, rForce, rQuery, rFragment⟩ := ref
  simp only at h1 h2 h3 h4 h5 h6
  subst h1 h2 h3 h4 h5
  have hp : ("/" ++ rPath).data = '/' :: rPath.data := rfl
  have hne : "/" ++ rPath ≠ "" := by
    intro hc
    have := congrArg String.data hc
    rw [hp] at this
    exact absurd this (List.cons_ne_nil _ _)
  have hres := resolvePath_root_slash rPath.data h6
  have hsp : site.Path.data = ['/'] := by rw [s1]
  simp only [urlResolveReference, Option.isSome_none, Bool.false_eq_true, or_false, ne_eq,
    not_true_eq_false, if_false, hne, false_and, s2, and_false, hp, hsp, hres, s3, s4,
    or_self]
  have hq : (if rPath = "" ∧ ¬rForce = true ∧ rQuery = "" then "" else rQuery) = rQuery := by
    split_ifs with hk
    · exact hk.2.2.symm
    · rfl
  have hf : (if (rPath = "" ∧ ¬rForce = true ∧ rQuery = "") ∧ rFragment = "" then ""
      else rFragment) = rFragment := by
    split_ifs with hk
    · exact hk.2.symm
    · rfl
  rw [hq, hf]

/-- C11 (counterexample): with the base site `https://host/jira/`, `NewRequest`
resolves `rest/api/3/issue` to `https://host/jira/rest/api/3/issue` and
`/rest/api/3/issue` to `https://host/rest/api/3/issue`. -/
theorem NewRequest_leading_slash_differs :
    ∃ c plain slashed,
      New netURL versionChecked silentTransport none "https://host/jira/" = (some c, none) ∧
      Client.NewRequest netURL c (some {}) "GET" "rest/api/3/issue" none = (some plain, none) ∧
      Client.NewRequest netURL c (some {}) "GET" ("/" ++ "rest/api/3/issue") none =
        (some slashed, none) ∧
      netURL.String plain.URL = "https://host/jira/rest/api/3/issue" ∧
      netURL.String slashed.URL = "https://host/rest/api/3/issue" ∧
      netURL.String plain.URL ≠ netURL.String slashed.URL :=
  ⟨_, _, _, rfl, rfl, rfl, rfl, rfl, by decide⟩

/-- C11 (amended): for a base site of the form `scheme://host/` (root path, no
opaque part, query or fragment) and every relative path `P` that parses, carries no
scheme and does not itself start with `/`, `NewRequest` returns the same result for
`P` and for `"/" + P`, in the agile client and in the v3 client. -/
theorem NewRequest_leading_slash (c : Client) (c2 : ClientV2) (ctx : Option Context)
    (method P : String) (payload : Option Bytes) (ref : URL)
    (hSite : c.Site.Path = "/" ∧ c.Site.Opaque = "" ∧ c.Site.RawQuery = "" ∧
      c.Site.Fragment = "")
    (hSite2 : c2.Site.Path = "/" ∧ c2.Site.Opaque = "" ∧ c2.Site.RawQuery = "" ∧
      c2.Site.Fragment = "")
    (hParse : netURL.Parse P = .ok ref) (hScheme : ref.Scheme = "")
    (hSlash : P.data.head? ≠ some '/') :
    Client.NewRequest netURL c ctx method ("/" ++ P) payload =
      Client.NewRequest netURL c ctx method P payload ∧
    ClientV2.NewRequest netURL c2 ctx method ("/" ++ P) payload =
      ClientV2.NewRequest netURL c2 ctx method P payload := by
  have hParse2 : urlParse P = .ok ref := hParse
  obtain ⟨hq, h1, h2, h3, h4, h5⟩ := urlParse_slash P ref hParse2 hScheme hSlash
  have hr := urlResolveReference_slash c.Site ref hSite ⟨hScheme, h1, h2, h3, h4, h5⟩
  have hr2 := urlResolveReference_slash c2.Site ref hSite2 ⟨hScheme, h1, h2, h3, h4, h5⟩
  constructor
  · simp only [Client.NewRequest, netURL, hq, hParse2, hr]
  · simp only [ClientV2.NewRequest, netURL, hq, hParse2, hr2]

/-- A run of C11 (amended) on the base site `https://x.atlassian.net/`. -/
theorem NewRequest_leading_slash_witness :
    ∃ req,
      Client.NewRequest netURL (sampleClient ⟨none, none⟩) (some {}) "GET"
        ("/" ++ "rest/api/3/issue") none = (some req, none) ∧
      Client.NewRequest netURL (sampleClient ⟨none, none⟩) (some {}) "GET"
        "rest/api/3/issue" none = (some req, none) ∧
      netURL.String req.URL = "https://x.atlassian.net/rest/api/3/issue" :=
  ⟨_, ((NewRequest_leading_slash (sampleClient ⟨none, none⟩) (sampleClientV2 ⟨none, none⟩)
      (some {}) "GET" "rest/api/3/issue" none _ ⟨rfl, rfl, rfl, rfl⟩ ⟨rfl, rfl, rfl, rfl⟩
      rfl rfl (by decide)).1).trans rfl, rfl, rfl⟩

/-- C12 (counterexample): with the base site `https://x.atlassian.net/` and the
relative path `rest/api/3/myself?expand=groups,applicationRoles`, the URL of the
request keeps the comma as it is; it is not the URL with `%2C`. -/
theorem NewRequest_keeps_comma :
    ∃ c req,
      New netURL versionChecked silentTransport none "https://x.atlassian.net/" =
        (some c, none) ∧
      Client.NewRequest netURL c (some {}) "GET"
        "rest/api/3/myself?expand=groups,applicationRoles" none = (some req, none) ∧
      netURL.String req.URL =
        "https://x.atlassian.net/rest/api/3/myself?expand=groups,applicationRoles" ∧
      netURL.String req.URL ≠
        "https://x.atlassian.net/rest/api/3/myself?expand=groups%2CapplicationRoles" :=
  ⟨_, _, rfl, rfl, rfl, by decide⟩

/-- C12 (amended): with the base site `https://x.atlassian.net/`, a nil body and
the relative path `rest/api/3/myself?expand=groups%2CapplicationRoles`, in which the
caller has escaped the comma, the URL of the request is exactly
`https://x.atlassian.net/rest/api/3/myself?expand=groups%2CapplicationRoles`, with
`Accept: application/json` set and no `Content-Type` header. -/
theorem NewRequest_myself_scenario :
    ∃ c req,
      New netURL versionChecked silentTransport none "https://x.atlassian.net/" =
        (some c, none) ∧
      Client.NewRequest netURL c (some {}) "GET"
        "rest/api/3/myself?expand=groups%2CapplicationRoles" none = (some req, none) ∧
      netURL.String req.URL =
        "https://x.atlassian.net/rest/api/3/myself?expand=groups%2CapplicationRoles" ∧
      req.Header "Accept" = some ["application/json"] ∧
      req.Header "Content-Type" = none :=
  ⟨_, _, rfl, rfl, rfl, by decide, by decide⟩

/-! ### Request construction, envelope fields and decoding (C13 to C18, C20) -/

/-- C13: when the relative path cannot be parsed, agile `NewRequest`, v3 `NewRequest`
and v3 `NewFormRequest` return a nil request together with the error of the parser,
unmodified; this holds whatever URL resolution and printing would do, and for every
base site, authentication strategy, context, method and body. -/
theorem NewRequest_unparsable_path (url : NetURL) (c : Client) (c2 : ClientV2)
    (ctx : Option Context) (method apiEndpoint contentType : String) (payload : Option Bytes)
    (e : Error) (hParse : url.Parse apiEndpoint = .error e) :
    Client.NewRequest url c ctx method apiEndpoint payload = (none, some e) ∧
    ClientV2.NewRequest url c2 ctx method apiEndpoint payload = (none, some e) ∧
    ClientV2.NewFormRequest url c2 ctx method apiEndpoint contentType payload =
      (none, some e) := by
  simp [Client.NewRequest, ClientV2.NewRequest, ClientV2.NewFormRequest, hParse]

/-- A run of C13: a path that starts with a colon has no protocol scheme. -/
theorem NewRequest_unparsable_path_witness :
    Client.NewRequest netURL (sampleClient ⟨none, none⟩) (some {}) "GET" ":rest" none =
      (none, some (.other "missing protocol scheme")) ∧
    ClientV2.NewFormRequest netURL (sampleClientV2 ⟨none, none⟩) (some {}) "POST" ":rest"
      "multipart/form-data" none = (none, some (.other "missing protocol scheme")) :=
  ⟨(NewRequest_unparsable_path netURL (sampleClient ⟨none, none⟩) (sampleClientV2 ⟨none, none⟩)
      (some {}) "GET" ":rest" "" none _ rfl).1,
   (NewRequest_unparsable_path netURL (sampleClient ⟨none, none⟩) (sampleClientV2 ⟨none, none⟩)
      (some {}) "POST" ":rest" "multipart/form-data" none _ rfl).2.2⟩

/-- The entries of the headers `NewFormRequest` sets. -/
theorem formHeaders_entries (auth : AuthenticationService) (contentType : String) :
    formHeaders auth contentType "Content-Type" = some [contentType] ∧
    formHeaders auth contentType "Accept" = some ["application/json"] ∧
    formHeaders auth contentType "X-Atlassian-Token" = some ["no-check"] ∧
    formHeaders auth contentType "Authorization" =
      (if auth.HasBasicAuth then
        some ["Basic " ++ base64 (auth.GetBasicAuth.1 ++ ":" ++ auth.GetBasicAuth.2)]
      else none) ∧
    formHeaders auth contentType "User-Agent" =
      (if auth.HasUserAgent then some [auth.GetUserAgent] else none) := by
  have hx : canonicalMIMEHeaderKey "X-Atlassian-Token" = "X-Atlassian-Token" := by decide
  unfold formHeaders
  cases auth.HasBasicAuth <;> cases auth.HasUserAgent <;>
    simp [Header.Set, Header.Add, Header.empty, canonical_Accept, canonical_ContentType,
      canonical_Authorization, canonical_UserAgent, hx]

/-- The headers of a request v3 `NewFormRequest` returns. -/
theorem v3_NewFormRequest_header (url : NetURL) (c : ClientV2) (ctx : Option Context)
    (method apiEndpoint contentType : String) (payload : Option Bytes) (req : Request)
    (h : ClientV2.NewFormRequest url c ctx method apiEndpoint contentType payload =
      (some req, none)) :
    req.Header = formHeaders c.Authentication contentType ∧
    ∃ relativePath request, url.Parse apiEndpoint = .ok relativePath ∧
      NewRequestWithContext url ctx method
        (url.String (url.ResolveReference c.Site relativePath)) payload = .ok request ∧
      req.URL = request.URL ∧ req.Method = request.Method ∧ req.Body = request.Body ∧
      req.ctx = request.ctx := by
  unfold ClientV2.NewFormRequest at h
  cases hp : url.Parse apiEndpoint with
  | error e => simp [hp] at h
  | ok relativePath =>
    simp only [hp] at h
    cases hreq : NewRequestWithContext url ctx method
        (url.String (url.ResolveReference c.Site relativePath)) payload with
    | error e => simp [hreq] at h
    | ok request =>
      have hh := NewRequestWithContext_header _ _ _ _ _ _ hreq
      simp only [hreq, Prod.mk.injEq, Option.some.injEq, and_true] at h
      subst h
      refine ⟨?_, relativePath, request, rfl, hreq, ?_⟩
      · unfold formHeaders
        cases hb : c.Authentication.HasBasicAuth <;>
          cases hu : c.Authentication.HasUserAgent <;>
          simp [hh, Request.SetBasicAuth]
      · cases hb : c.Authentication.HasBasicAuth <;>
          cases hu : c.Authentication.HasUserAgent <;>
          simp [Request.SetBasicAuth]

/-- C14: every request v3 `NewFormRequest` returns has `Content-Type` equal to the
content type given (also with a nil body), `Accept: application/json` and
`X-Atlassian-Token: no-check`; `NewRequest` succeeds on the same arguments with the
same URL, method and body, and the `Authorization` and `User-Agent` headers of the
two requests are the same: present exactly when the authentication strategy
reports them. -/
theorem NewFormRequest_headers (url : NetURL) (c : ClientV2) (ctx : Option Context)
    (method apiEndpoint contentType : String) (payload : Option Bytes) (req : Request)
    (h : ClientV2.NewFormRequest url c ctx method apiEndpoint contentType payload =
      (some req, none)) :
    req.Header "Content-Type" = some [contentType] ∧
    req.Header "Accept" = some ["application/json"] ∧
    req.Header "X-Atlassian-Token" = some ["no-check"] ∧
    (∃ plain, ClientV2.NewRequest url c ctx method apiEndpoint payload = (some plain, none) ∧
      plain.URL = req.URL ∧ plain.Method = req.Method ∧ plain.Body = req.Body ∧
      plain.Header "Authorization" = req.Header "Authorization" ∧
      plain.Header "User-Agent" = req.Header "User-Agent") ∧
    (req.Header "Authorization" ≠ none ↔ c.Authentication.HasBasicAuth = true) ∧
    (c.Authentication.HasBasicAuth = true →
      req.Header "Authorization" =
        some ["Basic " ++ base64 (c.Authentication.GetBasicAuth.1 ++ ":" ++
          c.Authentication.GetBasicAuth.2)]) ∧
    (req.Header "User-Agent" ≠ none ↔ c.Authentication.HasUserAgent = true) ∧
    (c.Authentication.HasUserAgent = true →
      req.Header "User-Agent" = some [c.Authentication.GetUserAgent]) := by
  obtain ⟨hh, relativePath, request, hp, hreq, hURL, hMethod, hBody, _⟩ :=
    v3_NewFormRequest_header url c ctx method apiEndpoint contentType payload req h
  obtain ⟨e1, e2, e3, e4, e5⟩ := formHeaders_entries c.Authentication contentType
  obtain ⟨a1, a2⟩ := requestHeaders_auth c.Authentication payload
  rw [hh, e1, e2, e3, e4, e5]
  refine ⟨rfl, rfl, rfl, ?_, ?_, ?_, ?_, ?_⟩
  · have hplain : ∃ plain, ClientV2.NewRequest url c ctx method apiEndpoint payload =
        (some plain, none) ∧ plain.URL = request.URL ∧ plain.Method = request.Method ∧
        plain.Body = request.Body := by
      simp only [ClientV2.NewRequest, hp, hreq]
      refine ⟨_, rfl, ?_⟩
      cases c.Authentication.HasBasicAuth <;> cases c.Authentication.HasUserAgent <;>
        cases payload <;> simp [Request.SetBasicAuth]
    obtain ⟨plain, hpl, u1, u2, u3⟩ := hplain
    refine ⟨plain, hpl, by rw [u1, hURL], by rw [u2, hMethod], by rw [u3, hBody], ?_, ?_⟩
    · rw [v3_NewRequest_header url c ctx method apiEndpoint payload plain hpl, a1]
    · rw [v3_NewRequest_header url c ctx method apiEndpoint payload plain hpl, a2]
  · cases c.Authentication.HasBasicAuth <;> simp
  · intro hb
    simp [hb]
  · cases c.Authentication.HasUserAgent <;> simp
  · intro hu
    simp [hu]

/-- A run of C14: a multipart upload without a body, with credentials set. -/
theorem NewFormRequest_headers_witness :
    ∃ req,
      ClientV2.NewFormRequest netURL
        (clientV2WithAuth (NewAuthenticationService.SetBasicAuth "user" "pass"))
        (some {}) "POST" "rest/api/3/issue/KP-1/attachments" "multipart/form-data; boundary=b"
        none = (some req, none) ∧
      req.Header "Content-Type" = some ["multipart/form-data; boundary=b"] ∧
      req.Header "X-Atlassian-Token" = some ["no-check"] ∧
      req.Header "Authorization" = some ["Basic dXNlcjpwYXNz"] :=
  ⟨_, rfl,
    (NewFormRequest_headers netURL
      (clientV2WithAuth (NewAuthenticationService.SetBasicAuth "user" "pass")) (some {}) "POST"
      "rest/api/3/issue/KP-1/attachments" "multipart/form-data; boundary=b" none _ rfl).1,
    (NewFormRequest_headers netURL
      (clientV2WithAuth (NewAuthenticationService.SetBasicAuth "user" "pass")) (some {}) "POST"
      "rest/api/3/issue/KP-1/attachments" "multipart/form-data; boundary=b" none _ rfl).2.2.1,
    (NewFormRequest_headers netURL
      (clientV2WithAuth (NewAuthenticationService.SetBasicAuth "user" "pass")) (some {}) "POST"
      "rest/api/3/issue/KP-1/attachments" "multipart/form-data; boundary=b" none _
      rfl).2.2.2.2.2.1 rfl⟩

/-- C15 (the code at its failing input): the agile `Client.NewFormRequest` returns a
nil request together with a nil error, whatever it is given. -/
theorem agile_NewFormRequest_returns_nothing (c : Client) (ctx : Option Context)
    (method apiEndpoint contentType : String) (payload : Option Bytes) :
    Client.NewFormRequest c ctx method apiEndpoint contentType payload = (none, none) :=
  rfl

/-- Agile `Call` on a response delivered without a transport error: the envelope it
returns is the one built from the response, with the body or without bytes. -/
theorem agile_Call_envelope (json : JSONCodec) (url : NetURL) (c : Client)
    (request : Request) (target : Interface) (response : Response)
    (hDo : c.HTTP request = ⟨some response, none⟩) :
    ∃ bytes err after, Client.Call json url c request target =
      .returns ⟨some (envelopeOf url response bytes), err, after⟩ := by
  cases hRead : response.Body.err with
  | some e => exact ⟨_, _, _, agile_Call_read_error json url c request target response e hDo hRead⟩
  | none =>
    by_cases h : 200 ≤ response.StatusCode ∧ response.StatusCode < 300
    · cases target with
      | none => exact ⟨_, _, _, agile_Call_success_nil json url c request response hDo hRead h⟩
      | some x =>
        exact ⟨_, _, _, agile_Call_success_decode json url c request response x hDo hRead h⟩
    · exact ⟨_, _, _, agile_Call_status_error json url c request target response hDo hRead h⟩

/-- C16: whenever agile `Client.Call` returns an envelope for a response, the
envelope's `Code` is the status code of the response, its `Endpoint` the string
form of the URL of the request attached to the response, and its `Method` the
method of that request, on every path (unreadable body, status error, decode error,
success) and for every decoder. -/
theorem Call_envelope_fields (json : JSONCodec) (url : NetURL) (c : Client)
    (request : Request) (target : Interface) (response : Response)
    (env : ResponseScheme) (err : Option Error) (after : Interface)
    (hDo : c.HTTP request = ⟨some response, none⟩)
    (hCall : Client.Call json url c request target = .returns ⟨some env, err, after⟩) :
    env.Code = response.StatusCode ∧
    env.Endpoint = url.String response.Request.URL ∧
    env.Method = response.Request.Method := by
  obtain ⟨bytes, err2, after2, h⟩ := agile_Call_envelope json url c request target response hDo
  rw [h] at hCall
  simp only [Run.returns.injEq, CallResult.mk.injEq, Option.some.injEq] at hCall
  rw [← hCall.1]
  exact ⟨rfl, rfl, rfl⟩

/-- A run of C16 on a 404 answer to `sampleRequest`. -/
theorem Call_envelope_fields_witness :
    ∃ env, Client.Call encodingJSON netURL
        (sampleClient ⟨some (sampleResponse 404 "gone"), none⟩) sampleRequest none =
        .returns ⟨some env, some .ErrInvalidStatusCodeError, none⟩ ∧
      env.Code = 404 ∧ env.Endpoint = "https://x.atlassian.net/rest/agile/1.0/sprint/1" ∧
      env.Method = "GET" :=
  ⟨_, rfl,
    Call_envelope_fields encodingJSON netURL
      (sampleClient ⟨some (sampleResponse 404 "gone"), none⟩) sampleRequest none
      (sampleResponse 404 "gone") _ _ _ rfl rfl⟩

/-- C17 (counterexample): a 200 response delivers `{"name":"Sprint 1"}`, which is
valid JSON for the target, and then fails to read. Agile `Client.Call` returns the
error of the read, not nil, with an envelope without bytes, and the target is left
as it was, not holding the decoded value. -/
theorem Call_read_error_before_decode :
    encodingJSON.Unmarshal (brokenResponse 200 "\x7b\"name\":\"Sprint 1\"\x7d").Body.data
        (.pointer (some (nameStruct ""))) = (.pointer (some (nameStruct "Sprint 1")), none) ∧
    Client.Call encodingJSON netURL
        (sampleClient ⟨some (brokenResponse 200 "\x7b\"name\":\"Sprint 1\"\x7d"), none⟩)
        sampleRequest (some (.pointer (some (nameStruct "")))) =
      .returns ⟨some (envelopeOf netURL
          (brokenResponse 200 "\x7b\"name\":\"Sprint 1\"\x7d") []),
        some (.other "unexpected EOF"), some (.pointer (some (nameStruct "")))⟩ :=
  ⟨rfl, rfl⟩

/-- C17 (amended): for a response with a status in [200, 300) whose body is read
without error and a target holding a non-nil pointer, agile `Client.Call` returns
the envelope with the body together with exactly the error of `json.Unmarshal`, and
leaves the target as `json.Unmarshal` left it. With `encoding/json`: when the body
is the JSON text of a value that its text represents in full and the target points
to a zero value of the type of that value, the error is nil and the target holds
the value; when the body is not valid JSON, the error is the syntax error, the
envelope is not nil and the target is unchanged. -/
theorem Call_decodes_into_pointer (json : JSONCodec) (url : NetURL) (c : Client)
    (request : Request) (response : Response)
    (hDo : c.HTTP request = ⟨some response, none⟩) (hRead : response.Body.err = none)
    (hCode : 200 ≤ response.StatusCode ∧ response.StatusCode < 300) :
    (∀ v, Client.Call json url c request (some (.pointer (some v))) =
      .returns ⟨some (envelopeOf url response response.Body.data),
        (json.Unmarshal response.Body.data (.pointer (some v))).2,
        some (json.Unmarshal response.Body.data (.pointer (some v))).1⟩) ∧
    (∀ w, w.plain = true → w.nesting ≤ maxNestingDepth →
      response.Body.data = (encodeValue w).flatMap utf8EncodeChar →
      Client.Call encodingJSON url c request (some (.pointer (some w.zero))) =
        .returns ⟨some (envelopeOf url response response.Body.data), none,
          some (.pointer (some w))⟩) ∧
    (parseJSON (utf8Decode response.Body.data) = none →
      ∀ v, Client.Call encodingJSON url c request (some (.pointer (some v))) =
        .returns ⟨some (envelopeOf url response response.Body.data), some syntaxError,
          some (.pointer (some v))⟩) := by
  refine ⟨fun v => agile_Call_success_decode json url c request response _ hDo hRead hCode,
    ?_, ?_⟩
  · intro w hw hn hbody
    have h := agile_Call_success_decode encodingJSON url c request response
      (.pointer (some w.zero)) hDo hRead hCode
    have hU : encodingJSON.Unmarshal response.Body.data (.pointer (some w.zero)) =
        (.pointer (some w), none) := by
      rw [hbody]
      exact Unmarshal_Marshal w hw hn
    rw [hU] at h
    exact h
  · intro hj v
    have h := agile_Call_success_decode encodingJSON url c request response
      (.pointer (some v)) hDo hRead hCode
    have hU : encodingJSON.Unmarshal response.Body.data (.pointer (some v)) =
        (.pointer (some v), some syntaxError) := by
      simp only [encodingJSON, Unmarshal, hj]
    rw [hU] at h
    exact h

/-- Runs of C17 (amended) on 200 responses. A name is decoded into a fresh struct. A
body cut short yields the syntax error with an envelope. A key in another case,
`NAME` for `name` and `É` for `é`, fills the field, and an unknown key is passed
over. A number for a string field yields the type error and leaves the field as it
was. The text `null` leaves a slice as it was. An array is decoded into a slice
element by element: `null` leaves an element as it was, and the slice ends where
the array ends. -/
theorem Call_decodes_into_pointer_witness :
    (∃ env, Client.Call encodingJSON netURL
        (sampleClient ⟨some (sampleResponse 200 "\x7b\"name\":\"Sprint 1\"\x7d"), none⟩)
        sampleRequest (some (.pointer (some (nameStruct "")))) =
      .returns ⟨some env, none, some (.pointer (some (nameStruct "Sprint 1")))⟩) ∧
    (∃ env, Client.Call encodingJSON netURL
        (sampleClient ⟨some (sampleResponse 200 "\x7b\"name\":"), none⟩)
        sampleRequest (some (.pointer (some (nameStruct "")))) =
      .returns ⟨some env, some syntaxError, some (.pointer (some (nameStruct "")))⟩) ∧
    (∃ env, Client.Call encodingJSON netURL
        (sampleClient ⟨some (sampleResponse 200
          "\x7b\"NAME\":\"Sprint 1\",\"extra\":[1,2]\x7d"), none⟩)
        sampleRequest (some (.pointer (some (nameStruct "old")))) =
      .returns ⟨some env, none, some (.pointer (some (nameStruct "Sprint 1")))⟩) ∧
    (∃ env, Client.Call encodingJSON netURL
        (sampleClient ⟨some (sampleResponse 200 "\x7b\"\u00c9\":\"upper-e\"\x7d"), none⟩)
        sampleRequest (some (.pointer (some (keyedStruct "\u00e9" "old")))) =
      .returns ⟨some env, none, some (.pointer (some (keyedStruct "\u00e9" "upper-e")))⟩) ∧
    (∃ env, Client.Call encodingJSON netURL
        (sampleClient ⟨some (sampleResponse 200 "\x7b\"name\":5\x7d"), none⟩)
        sampleRequest (some (.pointer (some (nameStruct "old")))) =
      .returns ⟨some env, some typeError, some (.pointer (some (nameStruct "old")))⟩) ∧
    (∃ env, Client.Call encodingJSON netURL
        (sampleClient ⟨some (sampleResponse 200 "null"), none⟩)
        sampleRequest (some (.pointer (some (stringSlice ["x"])))) =
      .returns ⟨some env, none, some (.pointer (some (stringSlice ["x"])))⟩) ∧
    (∃ env, Client.Call encodingJSON netURL
        (sampleClient ⟨some (sampleResponse 200 "[\"a\",null,\"c\"]"), none⟩)
        sampleRequest (some (.pointer (some (stringSlice ["x", "y", "z", "w"])))) =
      .returns ⟨some env, none, some (.pointer (some (stringSlice ["a", "y", "c"])))⟩) :=
  ⟨⟨_, (Call_decodes_into_pointer encodingJSON netURL _ sampleRequest
      (sampleResponse 200 "\x7b\"name\":\"Sprint 1\"\x7d") rfl rfl (by decide)).2.1
      (nameStruct "Sprint 1") rfl (by decide) rfl⟩,
   ⟨_, (Call_decodes_into_pointer encodingJSON netURL _ sampleRequest
      (sampleResponse 200 "\x7b\"name\":") rfl rfl (by decide)).2.2 rfl (nameStruct "")⟩,
   ⟨_, ((Call_decodes_into_pointer encodingJSON netURL _ sampleRequest
      (sampleResponse 200 "\x7b\"NAME\":\"Sprint 1\",\"extra\":[1,2]\x7d") rfl rfl
      (by decide)).1 (nameStruct "old")).trans rfl⟩,
   ⟨_, ((Call_decodes_into_pointer encodingJSON netURL _ sampleRequest
      (sampleResponse 200 "\x7b\"\u00c9\":\"upper-e\"\x7d") rfl rfl
      (by decide)).1 (keyedStruct "\u00e9" "old")).trans rfl⟩,
   ⟨_, ((Call_decodes_into_pointer encodingJSON netURL _ sampleRequest
      (sampleResponse 200 "\x7b\"name\":5\x7d") rfl rfl
      (by decide)).1 (nameStruct "old")).trans rfl⟩,
   ⟨_, ((Call_decodes_into_pointer encodingJSON netURL _ sampleRequest
      (sampleResponse 200 "null") rfl rfl
      (by decide)).1 (stringSlice ["x"])).trans rfl⟩,
   ⟨_, ((Call_decodes_into_pointer encodingJSON netURL _ sampleRequest
      (sampleResponse 200 "[\"a\",null,\"c\"]") rfl rfl
      (by decide)).1 (stringSlice ["x", "y", "z", "w"])).trans rfl⟩⟩

/-- The v3 `Call`, status in [200, 300), readable body and a nil target: the envelope
with the body and a nil error. -/
theorem v3_Call_success_nil (json : JSONCodec) (url : NetURL) (c : ClientV2)
    (request : Request) (response : Response)
    (hDo : c.HTTP request = ⟨some response, none⟩) (hRead : response.Body.err = none)
    (hCode : 200 ≤ response.StatusCode ∧ response.StatusCode < 300) :
    ClientV2.Call json url c request none =
      .returns ⟨some (envelopeOf url response response.Body.data), none, none⟩ := by
  have h : (decide (response.StatusCode ≥ 200) && decide (response.StatusCode < 300)) = true :=
    (wasSuccess_iff _).2 hCode
  simp only [ClientV2.Call, hDo, ReadAll, hRead, h, envelopeOf, BufferWrite]
  simp

/-- C18 (counterexample): a 200 response whose body fails to read, with a nil
decode target: agile `Client.Call` and v3 `ClientV2.Call` both return the error of
the read, not nil, and an envelope without the bytes of the body. -/
theorem Call_nil_target_read_error :
    Client.Call encodingJSON netURL (sampleClient ⟨some (brokenResponse 200 "ok"), none⟩)
        sampleRequest none =
      .returns ⟨some (envelopeOf netURL (brokenResponse 200 "ok") []),
        some (.other "unexpected EOF"), none⟩ ∧
    ClientV2.Call encodingJSON netURL (sampleClientV2 ⟨some (brokenResponse 200 "ok"), none⟩)
        sampleRequest none =
      .returns ⟨some (envelopeOf netURL (brokenResponse 200 "ok") []),
        some (.other "unexpected EOF"), none⟩ :=
  ⟨rfl, rfl⟩

/-- C18 (amended): for a response with a status in [200, 300) whose body is read without
error and a nil decode target, `Call` (agile `Client.Call` and v3 `ClientV2.Call`)
returns a nil error and an envelope holding the body, whatever the bytes of the body
are and whatever the decoder would do with them: no decode takes place. -/
theorem Call_nil_target_success (json : JSONCodec) (url : NetURL) (c : Client) (c2 : ClientV2)
    (request : Request) (response : Response)
    (hDo : c.HTTP request = ⟨some response, none⟩)
    (hDo2 : c2.HTTP request = ⟨some response, none⟩) (hRead : response.Body.err = none)
    (hCode : 200 ≤ response.StatusCode ∧ response.StatusCode < 300) :
    (∃ env, Client.Call json url c request none = .returns ⟨some env, none, none⟩ ∧
      env.Bytes = response.Body.data) ∧
    (∃ env, ClientV2.Call json url c2 request none = .returns ⟨some env, none, none⟩ ∧
      env.Bytes = response.Body.data) :=
  ⟨⟨_, agile_Call_success_nil json url c request response hDo hRead hCode, rfl⟩,
   ⟨_, v3_Call_success_nil json url c2 request response hDo2 hRead hCode, rfl⟩⟩

/-- A run of C18: a 204 with an empty body and a 200 whose body is not JSON. -/
theorem Call_nil_target_success_witness :
    ((∃ env, Client.Call encodingJSON netURL
        (sampleClient ⟨some (sampleResponse 204 ""), none⟩) sampleRequest none =
      .returns ⟨some env, none, none⟩ ∧ env.Bytes = []) ∧
     (∃ env, ClientV2.Call encodingJSON netURL
        (sampleClientV2 ⟨some (sampleResponse 204 ""), none⟩) sampleRequest none =
      .returns ⟨some env, none, none⟩ ∧ env.Bytes = [])) ∧
    ((∃ env, Client.Call encodingJSON netURL
        (sampleClient ⟨some (sampleResponse 200 "<html>"), none⟩) sampleRequest none =
      .returns ⟨some env, none, none⟩ ∧ env.Bytes = bytesOf "<html>") ∧
     (∃ env, ClientV2.Call encodingJSON netURL
        (sampleClientV2 ⟨some (sampleResponse 200 "<html>"), none⟩) sampleRequest none =
      .returns ⟨some env, none, none⟩ ∧ env.Bytes = bytesOf "<html>")) :=
  ⟨Call_nil_target_success encodingJSON netURL _ _ sampleRequest (sampleResponse 204 "")
      rfl rfl rfl (by decide),
   Call_nil_target_success encodingJSON netURL _ _ sampleRequest (sampleResponse 200 "<html>")
      rfl rfl rfl (by decide)⟩

/-- C20: a fresh `AuthenticationService` reports no basic auth, no user agent and no
experimental flag; after `SetBasicAuth(m, t)` it reports basic auth and returns
exactly `(m, t)`, for all strings; after `SetUserAgent(a)` it reports a user agent
and returns `a`; after `SetExperimentalFlag()` it reports the flag; and a later
`SetBasicAuth` or `SetUserAgent` replaces what an earlier one stored. -/
theorem AuthenticationService_setters (a : AuthenticationService)
    (m t m2 t2 agent agent2 : String) :
    NewAuthenticationService.HasBasicAuth = false ∧
    NewAuthenticationService.HasUserAgent = false ∧
    NewAuthenticationService.HasSetExperimentalFlag = false ∧
    (a.SetBasicAuth m t).HasBasicAuth = true ∧
    (a.SetBasicAuth m t).GetBasicAuth = (m, t) ∧
    (a.SetUserAgent agent).HasUserAgent = true ∧
    (a.SetUserAgent agent).GetUserAgent = agent ∧
    a.SetExperimentalFlag.HasSetExperimentalFlag = true ∧
    ((a.SetBasicAuth m t).SetBasicAuth m2 t2).GetBasicAuth = (m2, t2) ∧
    ((a.SetUserAgent agent).SetUserAgent agent2).GetUserAgent = agent2 :=
  ⟨rfl, rfl, rfl, rfl, rfl, rfl, rfl, rfl, rfl, rfl⟩

/-! ### The base site stored by the constructors (C19) -/

/-- A non-empty end of a text ends like the text. -/
theorem getLast?_of_suffix (l1 l2 : List Char) (h : l1 <:+ l2) (hne : l1 ≠ []) :
    l1.getLast? = l2.getLast? := by
  obtain ⟨t, ht⟩ := h
  rw [← ht, List.getLast?_append_of_ne_nil t hne]

/-- When the second part of a cut is empty and the text ends in a slash, the
separator (another character) does not occur: the first part is the whole text. -/
theorem cutAt_of_slash_end (sep : Char) (l : List Char) (hsep : sep ≠ '/')
    (hend : l.getLast? = some '/') (h : (cutAt sep l).2.1 = []) : (cutAt sep l).1 = l := by
  rcases cutAt_spec sep l with ⟨_, h2, _⟩ | ⟨_, h2⟩
  · exact h2
  · exfalso
    rw [h] at h2
    rw [h2, List.getLast?_append_of_ne_nil _ (List.cons_ne_nil _ _)] at hend
    simp only [List.getLast?_singleton, Option.some.injEq] at hend
    exact hsep hend

/-- What `getScheme` hands back is the whole text or what follows a colon in it. -/
theorem getSchemeFrom_rest (raw : List Char) :
    ∀ (cs : List Char) (i : Nat) (scheme rest : List Char),
      getSchemeFrom raw i cs = .ok (scheme, rest) →
      rest = raw ∨ ∃ pre, cs = pre ++ ':' :: rest := by
  intro cs
  induction cs with
  | nil =>
    intro i scheme rest h
    simp only [getSchemeFrom, Except.ok.injEq, Prod.mk.injEq] at h
    exact Or.inl h.2.symm
  | cons c cs ih =>
    intro i scheme rest h
    simp only [getSchemeFrom] at h
    split_ifs at h with h1 h2 h3 h4 h5
    · rcases ih _ _ _ h with hr | ⟨pre, hp⟩
      · exact Or.inl hr
      · exact Or.inr ⟨c :: pre, by rw [hp]; rfl⟩
    · simp only [Except.ok.injEq, Prod.mk.injEq] at h
      exact Or.inl h.2.symm
    · rcases ih _ _ _ h with hr | ⟨pre, hp⟩
      · exact Or.inl hr
      · exact Or.inr ⟨c :: pre, by rw [hp]; rfl⟩
    · simp only [Except.ok.injEq, Prod.mk.injEq] at h
      have hc : c = ':' := by simpa using h4
      exact Or.inr ⟨[], by rw [hc, h.2]; rfl⟩
    · simp only [Except.ok.injEq, Prod.mk.injEq] at h
      exact Or.inl h.2.symm

/-- The path of a parsed text that ends in a slash: when the URL has neither
opaque part nor query and its path is not empty, the path ends in a slash. -/
theorem parseAfterScheme_path (scheme rest : List Char) (u : URL)
    (h : parseAfterScheme scheme rest = .ok u) (hend : rest.getLast? = some '/')
    (hq : u.RawQuery = "") (ho : u.Opaque = "") (hp : u.Path ≠ "") :
    u.Path.data.getLast? = some '/' := by
  have hfq : (decide (rest.getLast? = some '?') && rest.count '?' == 1) = false := by
    have : decide (rest.getLast? = some '?') = false := by
      rw [hend]
      decide
    rw [this, Bool.false_and]
  simp only [parseAfterScheme, hfq, Bool.false_eq_true, if_false] at h
  have hcut : (cutAt '?' rest).2.1 = [] → (cutAt '?' rest).1 = rest :=
    cutAt_of_slash_end '?' rest (by decide) hend
  split_ifs at h with c1 c2 c3 <;> simp only [Except.ok.injEq] at h <;> subst h
  · exfalso
    have h1 : (cutAt '?' rest).2.1 = [] := congrArg String.data hq
    have h2 : (cutAt '?' rest).1 = [] := congrArg String.data ho
    rw [hcut h1] at h2
    rw [h2] at hend
    simp at hend
  · have h1 : (cutAt '?' rest).2.1 = [] := congrArg String.data hq
    rw [hcut h1] at hp ⊢
    simp only
    have hsuf : List.dropWhile (fun x => decide (x ≠ '/')) (List.drop 2 rest) <:+ rest :=
      (List.dropWhile_suffix _).trans (List.drop_suffix 2 rest)
    have hne : List.dropWhile (fun x => decide (x ≠ '/')) (List.drop 2 rest) ≠ [] := by
      intro hc
      apply hp
      simp only [hc]
    rw [getLast?_of_suffix _ _ hsuf hne, hend]
  · have h1 : (cutAt '?' rest).2.1 = [] := congrArg String.data hq
    rw [hcut h1]
    exact hend

/-- The URL parsed from a text that ends in a slash: when it has neither opaque
part, query nor fragment and its path is not empty, its path ends in a slash. -/
theorem urlParse_path (s : String) (u : URL) (h : urlParse s = .ok u)
    (hend : hasSlashSuffix s = true) (hq : u.RawQuery = "") (hf : u.Fragment = "")
    (ho : u.Opaque = "") (hp : u.Path ≠ "") : hasSlashSuffix u.Path = true := by
  have hend2 : s.data.getLast? = some '/' := by simpa [hasSlashSuffix] using hend
  unfold urlParse at h
  cases hp0 : parseNoFragment (cutAt '#' s.data).1 with
  | error e => simp [hp0] at h
  | ok u0 =>
    simp only [hp0, Except.ok.injEq] at h
    subst h
    simp only at hq hf ho hp ⊢
    have hfrag : (cutAt '#' s.data).2.1 = [] := congrArg String.data hf
    have hraw := cutAt_of_slash_end '#' s.data (by decide) hend2 hfrag
    rw [hraw, parseNoFragment_eq] at hp0
    split_ifs at hp0 with hctl hstar
    · rw [hstar] at hend2
      simp at hend2
    · cases hg : getSchemeFrom s.data 0 s.data with
      | error e => simp [hg] at hp0
      | ok r =>
        obtain ⟨scheme, rest⟩ := r
        simp only [hg] at hp0
        have hrest : rest.getLast? = some '/' := by
          rcases getSchemeFrom_rest s.data s.data 0 scheme rest hg with hr | ⟨pre, hpre⟩
          · rw [hr]
            exact hend2
          · cases rest with
            | nil =>
              rw [hpre, List.getLast?_append_of_ne_nil _ (List.cons_ne_nil _ _)] at hend2
              simp at hend2
            | cons c cs =>
              have hsuf : (c :: cs) <:+ s.data := ⟨pre ++ [':'], by rw [hpre]; simp⟩
              rw [getLast?_of_suffix _ _ hsuf (List.cons_ne_nil _ _)]
              exact hend2
        have := parseAfterScheme_path _ rest u0 hp0 hrest hq ho hp
        simpa [hasSlashSuffix] using this

/-- The normalized site ends in a slash. -/
theorem normalizeSite_suffix (site : String) : hasSlashSuffix (normalizeSite site) = true := by
  unfold normalizeSite
  cases h : hasSlashSuffix site with
  | true => simpa using h
  | false =>
    simp only [Bool.not_false, if_true]
    simp [hasSlashSuffix, String.data_append]

/-- The site stored by `New` is the parse of the normalized site. -/
theorem New_site (url : NetURL) (services : ServiceConstructors)
    (defaultClient : Request → DoResult) (httpClient : Option (Request → DoResult))
    (site : String) (c : Client)
    (h : New url services defaultClient httpClient site = (some c, none)) :
    url.Parse (normalizeSite site) = .ok c.Site := by
  unfold New at h
  simp only at h
  cases hp : url.Parse (normalizeSite site) with
  | error e => simp [hp] at h
  | ok u =>
    simp only [hp] at h
    split at h
    · simp at h
    · simp only [Prod.mk.injEq, Option.some.injEq, and_true] at h
      rw [← h]

/-- The site stored by `NewV2` is the parse of the normalized site. -/
theorem NewV2_site (url : NetURL) (services : ServiceConstructors)
    (defaultClient : Request → DoResult) (httpClient : Option (Request → DoResult))
    (site : String) (c : ClientV2)
    (h : NewV2 url services defaultClient httpClient site = (some c, none)) :
    url.Parse (normalizeSite site) = .ok c.Site := by
  unfold NewV2 at h
  simp only at h
  cases hp : url.Parse (normalizeSite site) with
  | error e => simp [hp] at h
  | ok u =>
    simp only [hp] at h
    split at h
    · simp at h
    · simp only [Prod.mk.injEq, Option.some.injEq, and_true] at h
      rw [← h]

/-- C19 (counterexample): `New` succeeds on the site `https://`, and the base site
URI it stores has an empty path and prints as `https:`; it succeeds on
`https://host/jira?x=1`, where the slash it appends goes to the query and the path
stored is `/jira`. -/
theorem New_site_without_trailing_slash :
    (∃ c, New netURL versionChecked silentTransport none "https://" = (some c, none) ∧
      c.Site.Path = "" ∧ netURL.String c.Site = "https:" ∧
      hasSlashSuffix (netURL.String c.Site) = false) ∧
    (∃ c, New netURL versionChecked silentTransport none "https://host/jira?x=1" =
        (some c, none) ∧
      c.Site.Path = "/jira" ∧ c.Site.RawQuery = "x=1/" ∧ hasSlashSuffix c.Site.Path = false) :=
  ⟨⟨_, rfl, rfl, rfl, rfl⟩, ⟨_, rfl, rfl, rfl, rfl⟩⟩

/-- C19 (amended): the base site URI that `New` and `NewV2` store is the parse of
the site string normalized to end in `/`: a site that already ends in `/` is parsed
as it is, a site `s` that does not and the site `s + "/"` give the same result, and
normalizing twice is normalizing once. With `net/url`, the path of the stored URI
ends in `/` whenever the URI has a path and neither opaque part, query nor
fragment. -/
theorem New_normalizes_site (url : NetURL) (services : ServiceConstructors)
    (defaultClient : Request → DoResult) (httpClient : Option (Request → DoResult))
    (site : String) :
    hasSlashSuffix (normalizeSite site) = true ∧
    normalizeSite (normalizeSite site) = normalizeSite site ∧
    (hasSlashSuffix site = true → normalizeSite site = site) ∧
    (∀ c, New url services defaultClient httpClient site = (some c, none) →
      url.Parse (normalizeSite site) = .ok c.Site) ∧
    (∀ c, NewV2 url services defaultClient httpClient site = (some c, none) →
      url.Parse (normalizeSite site) = .ok c.Site) ∧
    (hasSlashSuffix site = false →
      New url services defaultClient httpClient (site ++ "/") =
        New url services defaultClient httpClient site ∧
      NewV2 url services defaultClient httpClient (site ++ "/") =
        NewV2 url services defaultClient httpClient site) ∧
    (∀ c, New netURL services defaultClient httpClient site = (some c, none) →
      c.Site.Opaque = "" → c.Site.RawQuery = "" → c.Site.Fragment = "" → c.Site.Path ≠ "" →
      hasSlashSuffix c.Site.Path = true) ∧
    (∀ c, NewV2 netURL services defaultClient httpClient site = (some c, none) →
      c.Site.Opaque = "" → c.Site.RawQuery = "" → c.Site.Fragment = "" → c.Site.Path ≠ "" →
      hasSlashSuffix c.Site.Path = true) := by
  have hsuf := normalizeSite_suffix site
  have hid : ∀ s, hasSlashSuffix s = true → normalizeSite s = s := by
    intro s hs
    simp [normalizeSite, hs]
  refine ⟨hsuf, hid _ hsuf, hid site, ?_, ?_, ?_, ?_, ?_⟩
  · exact fun c h => New_site url services defaultClient httpClient site c h
  · exact fun c h => NewV2_site url services defaultClient httpClient site c h
  · intro hs
    have hn : normalizeSite (site ++ "/") = normalizeSite site := by
      have h1 : normalizeSite site = site ++ "/" := by simp [normalizeSite, hs]
      rw [h1]
      have h2 := hid (normalizeSite site) hsuf
      rw [h1] at h2
      exact h2
    simp only [New, NewV2, hn, and_self]
  · intro c h ho hq hf hp
    exact urlParse_path _ c.Site (New_site netURL services defaultClient httpClient site c h)
      hsuf hq hf ho hp
  · intro c h ho hq hf hp
    exact urlParse_path _ c.Site (NewV2_site netURL services defaultClient httpClient site c h)
      hsuf hq hf ho hp

/-- A run of C19 (amended): `https://host/jira` and `https://host/jira/` give the
same client, whose base site has the path `/jira/`. -/
theorem New_normalizes_site_witness :
    ∃ c, New netURL versionChecked silentTransport none "https://host/jira" = (some c, none) ∧
      New netURL versionChecked silentTransport none ("https://host/jira" ++ "/") =
        (some c, none) ∧
      c.Site.Path = "/jira/" ∧ hasSlashSuffix c.Site.Path = true :=
  ⟨_, rfl,
    ((New_normalizes_site netURL versionChecked silentTransport none
      "https://host/jira").2.2.2.2.2.1 rfl).1.trans rfl,
    rfl,
    (New_normalizes_site netURL versionChecked silentTransport none
      "https://host/jira").2.2.2.2.2.2.1 _ rfl rfl rfl rfl (by decide)⟩

/-! ### Query encoding -/

/-- The bytes of a text of ASCII characters are the codes of its characters. -/
theorem bytesOf_ascii (cs : List Char) (h : ∀ c ∈ cs, c.toNat < 128) :
    bytesOf (String.mk cs) = cs.map Char.toNat := by
  induction cs with
  | nil => rfl
  | cons c cs ih =>
    have hc := h c (List.mem_cons_self _ _)
    have ih2 := ih (fun d hd => h d (List.mem_cons_of_mem _ hd))
    simp only [bytesOf] at ih2 ⊢
    simp only [List.flatMap_cons, List.map_cons, ih2, utf8EncodeChar, if_pos hc,
      List.singleton_append]

/-- A text of unreserved ASCII characters other than the space is its own query
escape. -/
theorem QueryEscape_unreserved (cs : List Char)
    (h : ∀ c ∈ cs, c.toNat < 128 ∧ isUnreserved c.toNat = true) :
    QueryEscape (String.mk cs) = String.mk cs := by
  unfold QueryEscape
  rw [bytesOf_ascii cs (fun c hc => (h c hc).1)]
  congr 1
  induction cs with
  | nil => rfl
  | cons c cs ih =>
    obtain ⟨h1, h2⟩ := h c (List.mem_cons_self _ _)
    have h3 : c.toNat ≠ 32 := by
      intro h32
      rw [h32] at h2
      exact absurd h2 (by decide)
    have hc : Char.ofNat c.toNat = c := by simp
    simp only [List.map_cons, List.flatMap_cons, escapeByte, if_neg h3, h2, if_true, hc,
      List.singleton_append]
    rw [ih (fun d hd => h d (List.mem_cons_of_mem _ hd))]

/-- A decimal digit is an unreserved ASCII character. -/
theorem isUnreserved_digit (c : Char) (h : c.isDigit = true) :
    c.toNat < 128 ∧ isUnreserved c.toNat = true := by
  simp only [Char.isDigit, Bool.and_eq_true, decide_eq_true_eq] at h
  have h1 : 48 ≤ c.toNat := h.1
  have h2 : c.toNat ≤ 57 := h.2
  refine ⟨by omega, ?_⟩
  simp [isUnreserved, h1, h2]

/-- The decimal text of an integer is its own query escape. -/
theorem QueryEscape_Itoa (n : Int) : QueryEscape (Itoa n) = Itoa n := by
  unfold Itoa
  apply QueryEscape_unreserved
  intro c hc
  cases n with
  | ofNat m =>
    exact isUnreserved_digit c ((toDigits_spec m).1 c hc)
  | negSucc m =>
    simp only [encodeInt, List.mem_cons] at hc
    rcases hc with hc | hc
    · rw [hc]
      decide
    · exact isUnreserved_digit c ((toDigits_spec (m + 1)).1 c hc)

/-- The query of `Gets`: `limit` comes before `start`. -/
theorem Encode_start_limit (start limit : Int) :
    ((({} : Values).Add "start" (Itoa start)).Add "limit" (Itoa limit)).Encode =
      "limit=" ++ Itoa limit ++ "&start=" ++ Itoa start := by
  have h : ((({} : Values).Add "start" (Itoa start)).Add "limit" (Itoa limit)).Encode =
      QueryEscape "limit" ++ "=" ++ QueryEscape (Itoa limit) ++ "&" ++
        (QueryEscape "start" ++ "=" ++ QueryEscape (Itoa start)) := rfl
  rw [h, QueryEscape_Itoa, QueryEscape_Itoa]
  simp only [String.append_assoc]
  rfl

/-! ### The services on the client (C21 to C24) -/

/-- C21 (the code at its failing inputs): for every sprint id other than zero,
`SprintService.Start` and `SprintService.Close` on the agile client hand their
payload to `TransformStructToReader` as a struct value, get
`ErrNonPayloadPointerError` back and return it with a nil envelope: neither
`NewRequest` nor `Call` is invoked. -/
theorem Start_Close_stop_at_payload (json : JSONCodec) (url : NetURL) (c : Client)
    (models : ModelTypes) (version : String) (ctx : Option Context) (sprintID : Int)
    (hID : sprintID ≠ 0) :
    SprintService.Start models ⟨⟨some (c.asServiceClient json url), version⟩⟩ ctx sprintID =
      ⟨[.TransformStructToReader (some (.value (.struct (models.SprintPayloadScheme "Active"))))],
        .returns (none, some .ErrNonPayloadPointerError)⟩ ∧
    SprintService.Close models ⟨⟨some (c.asServiceClient json url), version⟩⟩ ctx sprintID =
      ⟨[.TransformStructToReader (some (.value (.struct (models.SprintPayloadScheme "Closed"))))],
        .returns (none, some .ErrNonPayloadPointerError)⟩ := by
  constructor
  · simp [SprintService.Start, internalSprintImpl.Start, hID, callTransformStructToReader,
      Traced.bind, Traced.pure, Client.asServiceClient, Client.TransformStructToReader, Dyn.Kind]
  · simp [SprintService.Close, internalSprintImpl.Close, hID, callTransformStructToReader,
      Traced.bind, Traced.pure, Client.asServiceClient, Client.TransformStructToReader, Dyn.Kind]

/-- A run of C21: starting sprint 1 on a client for `https://x.atlassian.net/` ends
with `ErrNonPayloadPointerError` and without a call of `Call`. -/
theorem Start_Close_stop_at_payload_witness :
    (SprintService.Start sampleModels
        ⟨⟨some ((sampleClient ⟨none, none⟩).asServiceClient encodingJSON netURL), "1.0"⟩⟩
        (some {}) 1).outcome = .returns (none, some .ErrNonPayloadPointerError) ∧
    ((SprintService.Start sampleModels
        ⟨⟨some ((sampleClient ⟨none, none⟩).asServiceClient encodingJSON netURL), "1.0"⟩⟩
        (some {}) 1).calls.filter ClientCall.isCall).length = 0 :=
  ⟨congrArg Traced.outcome (Start_Close_stop_at_payload encodingJSON netURL
      (sampleClient ⟨none, none⟩) sampleModels "1.0" (some {}) 1 (by decide)).1,
   rfl⟩

/-- The relative path of `Gets`. -/
theorem Gets_endpoint (issueKeyOrID : String) (start limit : Int) :
    "rest/servicedeskapi/request/" ++ issueKeyOrID ++ "/participant?" ++
        ((({} : Values).Add "start" (Itoa start)).Add "limit" (Itoa limit)).Encode =
      "rest/servicedeskapi/request/" ++ issueKeyOrID ++ "/participant?limit=" ++ Itoa limit ++
        "&start=" ++ Itoa start := by
  rw [Encode_start_limit]
  simp only [String.append_assoc]
  rfl

/-- What a run does after a first step that returned. -/
theorem Traced.bind_returns {α β : Type} (x : Traced α) (f : α → Traced β) (a : α)
    (h : x.outcome = .returns a) :
    x.bind f = ⟨x.calls ++ (f a).calls, (f a).outcome⟩ := by
  simp [Traced.bind, h]

/-- What a run does after a first step that panicked. -/
theorem Traced.bind_panics {α β : Type} (x : Traced α) (f : α → Traced β)
    (h : x.outcome = .panics) : x.bind f = ⟨x.calls, .panics⟩ := by
  simp [Traced.bind, h]

/-- The run of a method from `NewRequest` on: one call of `NewRequest`, then at most
one call of `Call`, with the error policy of the services. -/
theorem request_then_decode (c : ServiceClient) (ctx : Option Context)
    (method endpoint : String) (payload : Option Bytes) (page : GoValue) :
    (requestThenDecode (some c) ctx method endpoint payload page).calls.filter
        ClientCall.isNewRequest = [.NewRequest ctx method endpoint payload] ∧
    (requestThenDecode (some c) ctx method endpoint payload page).calls.head? =
      some (.NewRequest ctx method endpoint payload) ∧
    (requestThenDecode (some c) ctx method endpoint payload page).calls.filter
        ClientCall.isTransformStructToReader = [] ∧
    PropagatesErrors (requestThenDecode (some c) ctx method endpoint payload page)
      (c.NewRequest ctx method endpoint payload)
      (fun request => c.Call request (some (.pointer (some page)))) := by
  generalize hrunDef : requestThenDecode (some c) ctx method endpoint payload page = run
  unfold requestThenDecode at hrunDef
  cases hN : c.NewRequest ctx method endpoint payload with
  | panics =>
    have hrun : run = ⟨[.NewRequest ctx method endpoint payload], .panics⟩ := by
      simp [← hrunDef, callNewRequest, Traced.bind, hN]
    rw [hrun]
    refine ⟨rfl, rfl, rfl, ?_, ?_, ?_⟩ <;> intros <;> simp_all
  | returns r =>
    obtain ⟨request, err⟩ := r
    cases err with
    | some err =>
      have hrun : run = ⟨[.NewRequest ctx method endpoint payload],
          .returns (none, none, some err)⟩ := by
        simp [← hrunDef, callNewRequest, Traced.bind, Traced.pure, hN]
      rw [hrun]
      refine ⟨rfl, rfl, rfl, ?_, ?_, ?_⟩
      · intro request2 err2 h
        simp only [Run.returns.injEq, Prod.mk.injEq, Option.some.injEq] at h
        rw [h.2]
        exact ⟨rfl, rfl⟩
      · intro request2 r2 err2 h
        simp at h
      · intro request2 r2 h
        simp at h
    | none =>
      cases hC : c.Call request (some (.pointer (some page))) with
      | panics =>
        have hrun : run = ⟨[.NewRequest ctx method endpoint payload,
            .Call request (some (.pointer (some page)))], .panics⟩ := by
          simp [← hrunDef, callNewRequest, callCall, Traced.bind, Traced.pure, hN, hC]
        rw [hrun]
        refine ⟨rfl, rfl, rfl, ?_, ?_, ?_⟩
        · intro request2 err2 h
          simp at h
        · intro request2 r2 err2 h h2
          simp only [Run.returns.injEq, Prod.mk.injEq, and_true] at h
          subst h
          simp [hC] at h2
        · intro request2 r2 h h2
          simp only [Run.returns.injEq, Prod.mk.injEq, and_true] at h
          subst h
          simp [hC] at h2
      | returns r =>
        cases hE : r.err with
        | some err =>
          have hrun : run = ⟨[.NewRequest ctx method endpoint payload,
              .Call request (some (.pointer (some page)))],
              .returns (none, r.envelope, some err)⟩ := by
            simp [← hrunDef, callNewRequest, callCall, Traced.bind, Traced.pure, hN, hC, hE]
          rw [hrun]
          refine ⟨rfl, rfl, rfl, ?_, ?_, ?_⟩
          · intro request2 err2 h
            simp at h
          · intro request2 r2 err2 h h2 h3
            simp only [Run.returns.injEq, Prod.mk.injEq, and_true] at h
            subst h
            simp only [hC, Run.returns.injEq] at h2
            subst h2
            rw [hE] at h3
            simp only [Option.some.injEq] at h3
            rw [h3]
          · intro request2 r2 h h2 h3
            simp only [Run.returns.injEq, Prod.mk.injEq, and_true] at h
            subst h
            simp only [hC, Run.returns.injEq] at h2
            subst h2
            rw [hE] at h3
            simp at h3
        | none =>
          have hrun : run = ⟨[.NewRequest ctx method endpoint payload,
              .Call request (some (.pointer (some page)))],
              .returns (some (pointeeAfter page r.target), r.envelope, none)⟩ := by
            simp [← hrunDef, callNewRequest, callCall, Traced.bind, Traced.pure, hN, hC, hE]
          rw [hrun]
          refine ⟨rfl, rfl, rfl, ?_, ?_, ?_⟩
          · intro request2 err2 h
            simp at h
          · intro request2 r2 err2 h h2 h3
            simp only [Run.returns.injEq, Prod.mk.injEq, and_true] at h
            subst h
            simp only [hC, Run.returns.injEq] at h2
            subst h2
            rw [hE] at h3
            simp at h3
          · intro request2 r2 h h2 _
            simp only [Run.returns.injEq, Prod.mk.injEq, and_true] at h
            subst h
            simp only [hC, Run.returns.injEq] at h2
            subst h2
            exact ⟨_, rfl⟩

/-- The error policy of a run is kept when calls other than `Call` come before
it. -/
theorem PropagatesErrors_after (pre : List ClientCall)
    (run : Traced (Option GoValue × Option ResponseScheme × Option Error))
    (newRequest : Run (Option Request × Option Error)) (call : Option Request → Run CallResult)
    (hpre : pre.filter ClientCall.isCall = []) (h : PropagatesErrors run newRequest call) :
    PropagatesErrors ⟨pre ++ run.calls, run.outcome⟩ newRequest call := by
  obtain ⟨h1, h2, h3⟩ := h
  refine ⟨?_, h2, h3⟩
  intro request err hN
  obtain ⟨ho, hc⟩ := h1 request err hN
  exact ⟨ho, by simp only [List.filter_append, hpre, hc, List.append_nil]⟩

/-- The method `Gets` with a key and a client is the run from `NewRequest` on. -/
theorem Gets_run (models : ModelTypes) (s : ParticipantService (Option ServiceClient))
    (c : ServiceClient) (ctx : Option Context) (issueKeyOrID : String) (start limit : Int)
    (hClient : s.internalClient.c = some c) (hKey : issueKeyOrID ≠ "") :
    ParticipantService.Gets models s ctx issueKeyOrID start limit =
      requestThenDecode (some c) ctx "GET"
        ("rest/servicedeskapi/request/" ++ issueKeyOrID ++ "/participant?limit=" ++ Itoa limit ++
          "&start=" ++ Itoa start) none (.struct models.RequestParticipantPageScheme) := by
  rw [← Gets_endpoint]
  simp only [ParticipantService.Gets, internalServiceRequestParticipantImpl.Gets, if_neg hKey,
    hClient, requestThenDecode]

/-- The methods `Add` and `Remove` with a key, account ids and a client whose
`TransformStructToReader` returns a reader: that call, then the run from
`NewRequest` on. -/
theorem Add_Remove_run (models : ModelTypes) (s : ParticipantService (Option ServiceClient))
    (c : ServiceClient) (ctx : Option Context) (issueKeyOrID : String)
    (accountIDs : List String) (reader : Option Bytes)
    (hClient : s.internalClient.c = some c) (hKey : issueKeyOrID ≠ "")
    (hIDs : accountIDs ≠ [])
    (hReader : c.TransformStructToReader
      (some (.pointer (some (accountIdsPayload accountIDs)))) = .returns (reader, none)) :
    ParticipantService.Add models s ctx issueKeyOrID accountIDs =
      ⟨[.TransformStructToReader (some (.pointer (some (accountIdsPayload accountIDs))))] ++
        (requestThenDecode (some c) ctx "POST"
          ("rest/servicedeskapi/request/" ++ issueKeyOrID ++ "/participant") reader
          (.struct models.RequestParticipantPageScheme)).calls,
        (requestThenDecode (some c) ctx "POST"
          ("rest/servicedeskapi/request/" ++ issueKeyOrID ++ "/participant") reader
          (.struct models.RequestParticipantPageScheme)).outcome⟩ ∧
    ParticipantService.Remove models s ctx issueKeyOrID accountIDs =
      ⟨[.TransformStructToReader (some (.pointer (some (accountIdsPayload accountIDs))))] ++
        (requestThenDecode (some c) ctx "DELETE"
          ("rest/servicedeskapi/request/" ++ issueKeyOrID ++ "/participant") reader
          (.struct models.RequestParticipantPageScheme)).calls,
        (requestThenDecode (some c) ctx "DELETE"
          ("rest/servicedeskapi/request/" ++ issueKeyOrID ++ "/participant") reader
          (.struct models.RequestParticipantPageScheme)).outcome⟩ := by
  have hlen : ¬ accountIDs.length = 0 := by
    intro h
    exact hIDs (List.length_eq_zero.mp h)
  constructor
  · simp only [ParticipantService.Add, internalServiceRequestParticipantImpl.Add, if_neg hKey,
      if_neg hlen, hClient]
    rw [Traced.bind_returns _ _ (reader, none) (by simpa [callTransformStructToReader] using hReader)]
    rfl
  · simp only [ParticipantService.Remove, internalServiceRequestParticipantImpl.Remove,
      if_neg hKey, if_neg hlen, hClient]
    rw [Traced.bind_returns _ _ (reader, none) (by simpa [callTransformStructToReader] using hReader)]
    rfl

/-- C22: for a non-empty issue key and all integers `start` and `limit`,
`ParticipantService.Gets` asks the client for exactly one request, as its first
call: method `GET`, a nil body and the relative path
`rest/servicedeskapi/request/{issueKeyOrID}/participant?limit={limit}&start={start}`;
it does not call `TransformStructToReader`. -/
theorem Gets_asks_for_one_request (models : ModelTypes)
    (s : ParticipantService (Option ServiceClient)) (c : ServiceClient) (ctx : Option Context)
    (issueKeyOrID : String) (start limit : Int) (hClient : s.internalClient.c = some c)
    (hKey : issueKeyOrID ≠ "") :
    (ParticipantService.Gets models s ctx issueKeyOrID start limit).calls.filter
        ClientCall.isNewRequest =
      [.NewRequest ctx "GET"
        ("rest/servicedeskapi/request/" ++ issueKeyOrID ++ "/participant?limit=" ++ Itoa limit ++
          "&start=" ++ Itoa start) none] ∧
    (ParticipantService.Gets models s ctx issueKeyOrID start limit).calls.head? =
      some (.NewRequest ctx "GET"
        ("rest/servicedeskapi/request/" ++ issueKeyOrID ++ "/participant?limit=" ++ Itoa limit ++
          "&start=" ++ Itoa start) none) ∧
    (ParticipantService.Gets models s ctx issueKeyOrID start limit).calls.filter
        ClientCall.isTransformStructToReader = [] := by
  rw [Gets_run models s c ctx issueKeyOrID start limit hClient hKey]
  obtain ⟨h1, h2, h3, _⟩ := request_then_decode c ctx "GET"
    ("rest/servicedeskapi/request/" ++ issueKeyOrID ++ "/participant?limit=" ++ Itoa limit ++
      "&start=" ++ Itoa start) none (.struct models.RequestParticipantPageScheme)
  exact ⟨h1, h2, h3⟩

/-- A run of C22, the one of the test: `DESK-1` with start 100 and limit 50. -/
theorem Gets_asks_for_one_request_witness :
    (ParticipantService.Gets sampleModels
        ⟨⟨some (mockClient (some sampleRequest, none) ⟨some {}, none, none⟩), "latest"⟩⟩
        (some {}) "DESK-1" 100 50).calls.head? =
      some (.NewRequest (some {}) "GET"
        "rest/servicedeskapi/request/DESK-1/participant?limit=50&start=100" none) :=
  (Gets_asks_for_one_request sampleModels _ _ (some {}) "DESK-1" 100 50 rfl
    (by decide)).2.1.trans rfl

/-- C23: `ParticipantService.Add` and `Remove` check the issue key first and the
account ids second, before they touch the client: with an empty key they return
`ErrNoIssueKeyOrIDError` whatever the account ids are, with a key and no account id
`ErrNoAccountSliceError`; in both cases the result and the envelope are nil and no
method of the client is called, for every client and for the nil client. -/
theorem Add_Remove_preconditions (models : ModelTypes)
    (s : ParticipantService (Option ServiceClient)) (ctx : Option Context)
    (issueKeyOrID : String) (accountIDs : List String) :
    (issueKeyOrID = "" →
      ParticipantService.Add models s ctx issueKeyOrID accountIDs =
        ⟨[], .returns (none, none, some .ErrNoIssueKeyOrIDError)⟩ ∧
      ParticipantService.Remove models s ctx issueKeyOrID accountIDs =
        ⟨[], .returns (none, none, some .ErrNoIssueKeyOrIDError)⟩) ∧
    (issueKeyOrID ≠ "" → accountIDs = [] →
      ParticipantService.Add models s ctx issueKeyOrID accountIDs =
        ⟨[], .returns (none, none, some .ErrNoAccountSliceError)⟩ ∧
      ParticipantService.Remove models s ctx issueKeyOrID accountIDs =
        ⟨[], .returns (none, none, some .ErrNoAccountSliceError)⟩) := by
  constructor
  · intro h
    simp [ParticipantService.Add, ParticipantService.Remove,
      internalServiceRequestParticipantImpl.Add, internalServiceRequestParticipantImpl.Remove,
      h, Traced.pure]
  · intro h h2
    simp [ParticipantService.Add, ParticipantService.Remove,
      internalServiceRequestParticipantImpl.Add, internalServiceRequestParticipantImpl.Remove,
      h, h2, Traced.pure]

/-- A run of C23 on the nil client: no key and no account id, then a key and no
account id. -/
theorem Add_Remove_preconditions_witness :
    ParticipantService.Add sampleModels ⟨⟨none, "latest"⟩⟩ (some {}) "" [] =
      ⟨[], .returns (none, none, some .ErrNoIssueKeyOrIDError)⟩ ∧
    ParticipantService.Remove sampleModels ⟨⟨none, "latest"⟩⟩ (some {}) "DESK-1" [] =
      ⟨[], .returns (none, none, some .ErrNoAccountSliceError)⟩ :=
  ⟨((Add_Remove_preconditions sampleModels ⟨⟨none, "latest"⟩⟩ (some {}) "" []).1 rfl).1,
   ((Add_Remove_preconditions sampleModels ⟨⟨none, "latest"⟩⟩ (some {}) "DESK-1" []).2
      (by decide) rfl).2⟩

/-- C24: for `ParticipantService.Gets` with a key, and for `Add` and `Remove` with
a key, account ids and a client whose `TransformStructToReader` returns a reader:
when `NewRequest` fails the method returns a nil result, a nil envelope and that
error and does not call `Call`; when `Call` returns an error the method returns a
nil result with exactly the envelope and the error of `Call`; when `Call` succeeds
the method returns a non-nil result, the envelope of `Call` and a nil error.
`Gets` needs nothing of `TransformStructToReader`. -/
theorem Participant_error_propagation (models : ModelTypes)
    (s : ParticipantService (Option ServiceClient)) (c : ServiceClient) (ctx : Option Context)
    (issueKeyOrID : String) (hClient : s.internalClient.c = some c)
    (hKey : issueKeyOrID ≠ "") :
    (∀ start limit : Int,
      PropagatesErrors (ParticipantService.Gets models s ctx issueKeyOrID start limit)
        (c.NewRequest ctx "GET"
          ("rest/servicedeskapi/request/" ++ issueKeyOrID ++ "/participant?limit=" ++
            Itoa limit ++ "&start=" ++ Itoa start) none)
        (fun request =>
          c.Call request
            (some (.pointer (some (.struct models.RequestParticipantPageScheme)))))) ∧
    (∀ (accountIDs : List String) (reader : Option Bytes), accountIDs ≠ [] →
      c.TransformStructToReader (some (.pointer (some (accountIdsPayload accountIDs)))) =
        .returns (reader, none) →
      PropagatesErrors (ParticipantService.Add models s ctx issueKeyOrID accountIDs)
        (c.NewRequest ctx "POST"
          ("rest/servicedeskapi/request/" ++ issueKeyOrID ++ "/participant") reader)
        (fun request =>
          c.Call request
            (some (.pointer (some (.struct models.RequestParticipantPageScheme))))) ∧
      PropagatesErrors (ParticipantService.Remove models s ctx issueKeyOrID accountIDs)
        (c.NewRequest ctx "DELETE"
          ("rest/servicedeskapi/request/" ++ issueKeyOrID ++ "/participant") reader)
        (fun request =>
          c.Call request
            (some (.pointer (some (.struct models.RequestParticipantPageScheme)))))) := by
  constructor
  · intro start limit
    rw [Gets_run models s c ctx issueKeyOrID start limit hClient hKey]
    exact (request_then_decode c ctx "GET" _ none _).2.2.2
  · intro accountIDs reader hIDs hReader
    obtain ⟨hAdd, hRemove⟩ :=
      Add_Remove_run models s c ctx issueKeyOrID accountIDs reader hClient hKey hIDs hReader
    rw [hAdd, hRemove]
    exact ⟨PropagatesErrors_after _ _ _ _ rfl (request_then_decode c ctx "POST" _ reader _).2.2.2,
      PropagatesErrors_after _ _ _ _ rfl
        (request_then_decode c ctx "DELETE" _ reader _).2.2.2⟩

/-- Runs of C24, those of the tests. `Gets` on the mock with expectations for
`NewRequest` and `Call` only: `Call` fails with `client: no http response found`,
and `Gets` returns that error with the envelope of `Call` and a nil result;
`NewRequest` fails, and `Gets` returns that error with a nil envelope and does not
call `Call`. `Add` on the mock that also returns a reader: `Call` succeeds, and
`Add` returns a result, the envelope of `Call` and a nil error. -/
theorem Participant_error_propagation_witness :
    (ParticipantService.Gets sampleModels
        ⟨⟨some (mockClient (some sampleRequest, none)
          ⟨some {}, some (.other "client: no http response found"), none⟩), "latest"⟩⟩
        (some {}) "DESK-1" 100 50).outcome =
      .returns (none, some {}, some (.other "client: no http response found")) ∧
    ((ParticipantService.Gets sampleModels
        ⟨⟨some (mockClient (some sampleRequest, some (.other "client: no http request created"))
          ⟨none, none, none⟩), "latest"⟩⟩
        (some {}) "DESK-1" 100 50).outcome =
      .returns (none, none, some (.other "client: no http request created")) ∧
     (ParticipantService.Gets sampleModels
        ⟨⟨some (mockClient (some sampleRequest, some (.other "client: no http request created"))
          ⟨none, none, none⟩), "latest"⟩⟩
        (some {}) "DESK-1" 100 50).calls.filter ClientCall.isCall = []) ∧
    (∃ page, (ParticipantService.Add sampleModels
        ⟨⟨some (mockClientWithReader (some [], none) (some sampleRequest, none)
          ⟨some {}, none, none⟩), "latest"⟩⟩
        (some {}) "DESK-1" ["uuid-sample-1", "uuid-sample-2"]).outcome =
      .returns (some page, some {}, none)) :=
  ⟨((Participant_error_propagation sampleModels _
      (mockClient (some sampleRequest, none)
        ⟨some {}, some (.other "client: no http response found"), none⟩)
      (some {}) "DESK-1" rfl (by decide)).1 100 50).2.1
      (some sampleRequest) _ (.other "client: no http response found") rfl rfl rfl,
   ((Participant_error_propagation sampleModels _
      (mockClient (some sampleRequest, some (.other "client: no http request created"))
        ⟨none, none, none⟩)
      (some {}) "DESK-1" rfl (by decide)).1 100 50).1
      (some sampleRequest) (.other "client: no http request created") rfl,
   (((Participant_error_propagation sampleModels _
      (mockClientWithReader (some [], none) (some sampleRequest, none) ⟨some {}, none, none⟩)
      (some {}) "DESK-1" rfl (by decide)).2 ["uuid-sample-1", "uuid-sample-2"] (some [])
      (by decide) rfl).1).2.2 (some sampleRequest) _ rfl rfl rfl⟩

/-! ### Constructors, nil options, the two response transforms, `assignIssue` (C25, C28 to C30) -/

/-- C25: with an empty version every service constructor returns
`ErrNoVersionProvided` and only nil services; with any other version it returns
non-nil services and a nil error; both for every client argument of every type (and
for every link-type service and every bundle of issue services handed in). -/
theorem constructors_check_version {C : Type} (client : C) (version : String)
    (type_ : ServiceRef) (services : Option IssueServices) :
    (version = "" →
      NewSprintService client version = (none, some .ErrNoVersionProvided) ∧
      NewParticipantService client version = (none, some .ErrNoVersionProvided) ∧
      NewOrganizationService client version = (none, some .ErrNoVersionProvided) ∧
      NewServiceLevelAgreementService client version = (none, some .ErrNoVersionProvided) ∧
      NewTypeService client version = (none, some .ErrNoVersionProvided) ∧
      NewMetadataService client version = (none, some .ErrNoVersionProvided) ∧
      NewUserSearchService client version = (none, some .ErrNoVersionProvided) ∧
      NewCommentService client version = (none, none, some .ErrNoVersionProvided) ∧
      NewLinkService client version type_ = (none, none, some .ErrNoVersionProvided) ∧
      NewSearchService client version = (none, none, some .ErrNoVersionProvided) ∧
      NewIssueService client version services = (none, none, some .ErrNoVersionProvided)) ∧
    (version ≠ "" →
      ((NewSprintService client version).1.isSome = true ∧
        (NewSprintService client version).2 = none) ∧
      ((NewParticipantService client version).1.isSome = true ∧
        (NewParticipantService client version).2 = none) ∧
      ((NewOrganizationService client version).1.isSome = true ∧
        (NewOrganizationService client version).2 = none) ∧
      ((NewServiceLevelAgreementService client version).1.isSome = true ∧
        (NewServiceLevelAgreementService client version).2 = none) ∧
      ((NewTypeService client version).1.isSome = true ∧
        (NewTypeService client version).2 = none) ∧
      ((NewMetadataService client version).1.isSome = true ∧
        (NewMetadataService client version).2 = none) ∧
      ((NewUserSearchService client version).1.isSome = true ∧
        (NewUserSearchService client version).2 = none) ∧
      ((NewCommentService client version).1.isSome = true ∧
        (NewCommentService client version).2.1.isSome = true ∧
        (NewCommentService client version).2.2 = none) ∧
      ((NewLinkService client version type_).1.isSome = true ∧
        (NewLinkService client version type_).2.1.isSome = true ∧
        (NewLinkService client version type_).2.2 = none) ∧
      ((NewSearchService client version).1.isSome = true ∧
        (NewSearchService client version).2.1.isSome = true ∧
        (NewSearchService client version).2.2 = none) ∧
      ((NewIssueService client version services).1.isSome = true ∧
        (NewIssueService client version services).2.1.isSome = true ∧
        (NewIssueService client version services).2.2 = none)) := by
  constructor
  · intro h
    simp [NewSprintService, NewParticipantService, NewOrganizationService,
      NewServiceLevelAgreementService, NewTypeService, NewMetadataService, NewUserSearchService,
      NewCommentService, NewLinkService, NewSearchService, NewIssueService, h]
  · intro h
    cases services <;>
    simp [NewSprintService, NewParticipantService, NewOrganizationService,
      NewServiceLevelAgreementService, NewTypeService, NewMetadataService, NewUserSearchService,
      NewCommentService, NewLinkService, NewSearchService, NewIssueService, h]

/-- A run of C25 on the nil client: no version, and the version `latest` of the
tests. -/
theorem constructors_check_version_witness :
    NewParticipantService (none : Option ServiceClient) "" =
      (none, some .ErrNoVersionProvided) ∧
    (NewParticipantService (none : Option ServiceClient) "latest").1.isSome = true ∧
    (NewParticipantService (none : Option ServiceClient) "latest").2 = none :=
  ⟨((constructors_check_version (none : Option ServiceClient) "" none none).1 rfl).2.1,
   ((constructors_check_version (none : Option ServiceClient) "latest" none none).2
      (by decide)).2.1⟩

/-- C28 (the code at its failing input): with a nil options pointer
`internalMetadataImpl.Create`, and `MetadataService.Create` with it, panics before
it calls the client, whatever the client and the version are. -/
theorem Create_nil_options_panics (i : internalMetadataImpl (Option ServiceClient))
    (ctx : Option Context) :
    internalMetadataImpl.Create i ctx none = ⟨[], .panics⟩ ∧
    MetadataService.Create ⟨i⟩ ctx none = ⟨[], .panics⟩ :=
  ⟨rfl, rfl⟩

/-- C29 (the code at its failing inputs): for a response with a status outside
[200, 300), v3 `ClientV2.Call` returns `ErrInvalidStatusCodeError` with an envelope
that holds the response, while `ClientV2.TransformTheHTTPResponse` returns the
error `TODO` with an envelope whose `Response` is nil; the two outcomes differ in
the error and in the envelope. -/
theorem Call_differs_from_TransformTheHTTPResponse (json : JSONCodec) (url : NetURL)
    (c : ClientV2) (request : Request) (target : Interface) (response : Response)
    (hDo : c.HTTP request = ⟨some response, none⟩)
    (hCode : ¬ (200 ≤ response.StatusCode ∧ response.StatusCode < 300)) :
    ClientV2.Call json url c request target =
      .returns ⟨some (envelopeOf url response []), some .ErrInvalidStatusCodeError, target⟩ ∧
    ClientV2.TransformTheHTTPResponse json url (some response) target =
      ⟨some { envelopeOf url response [] with Response := none }, some (.other "TODO"),
        target⟩ := by
  have h : (decide (response.StatusCode ≥ 200) && decide (response.StatusCode < 300)) = false := by
    cases hb : (decide (response.StatusCode ≥ 200) && decide (response.StatusCode < 300)) with
    | false => rfl
    | true => exact absurd ((wasSuccess_iff _).1 hb) hCode
  constructor
  · exact v3_Call_status_error json url c request target response hDo hCode
  · simp only [ClientV2.TransformTheHTTPResponse, h, Bool.not_false, if_true, envelopeOf]

/-- A run of C29 on a 404 answer: the errors of the two differ, and so do the
envelopes. -/
theorem Call_differs_from_TransformTheHTTPResponse_witness :
    (∃ env, ClientV2.Call encodingJSON netURL
        (sampleClientV2 ⟨some (sampleResponse 404 "gone"), none⟩) sampleRequest none =
      .returns ⟨some env, some .ErrInvalidStatusCodeError, none⟩ ∧ env.Response.isSome = true) ∧
    (∃ env, ClientV2.TransformTheHTTPResponse encodingJSON netURL
        (some (sampleResponse 404 "gone")) none = ⟨some env, some (.other "TODO"), none⟩ ∧
      env.Response.isSome = false) :=
  ⟨⟨envelopeOf netURL (sampleResponse 404 "gone") [],
      (Call_differs_from_TransformTheHTTPResponse encodingJSON netURL
      (sampleClientV2 ⟨some (sampleResponse 404 "gone"), none⟩) sampleRequest none
      (sampleResponse 404 "gone") rfl (by decide)).1, rfl⟩,
   ⟨{ envelopeOf netURL (sampleResponse 404 "gone") [] with Response := none },
      (Call_differs_from_TransformTheHTTPResponse encodingJSON netURL
      (sampleClientV2 ⟨some (sampleResponse 404 "gone"), none⟩) sampleRequest none
      (sampleResponse 404 "gone") rfl (by decide)).2, rfl⟩⟩

/-- C30 (the code at its failing input): on the agile client for the base site
`https://host/jira/`, `assignIssue` for the issue `KP-1` requests
`https://host/rest/api/3/issue/KP-1/assignee`, outside the base path, while
`deleteIssue`, `sendNotification` and `getTransitions` request URLs under
`https://host/jira/`. -/
theorem assignIssue_leaves_base_path :
    ∃ c, New netURL versionChecked silentTransport none "https://host/jira/" = (some c, none) ∧
      requestedURLs netURL (assignIssue (some {})
          (some (c.asServiceClient encodingJSON netURL)) "3" "KP-1" "5b10ac8d82e05b22cc7d4ef5").calls =
        ["https://host/rest/api/3/issue/KP-1/assignee"] ∧
      requestedURLs netURL (getTransitions sampleModels (some {})
          (some (c.asServiceClient encodingJSON netURL)) "3" "KP-1").calls =
        ["https://host/jira/rest/api/3/issue/KP-1/transitions"] ∧
      requestedURLs netURL (sendNotification (some {})
          (some (c.asServiceClient encodingJSON netURL)) "3" "KP-1" none).calls =
        ["https://host/jira/rest/api/3/issue/KP-1/notify"] ∧
      requestedURLs netURL (deleteIssue (some {})
          (some (c.asServiceClient encodingJSON netURL)) "3" "KP-1" true).calls =
        ["https://host/jira/rest/api/3/issue/KP-1?deleteSubtasks=true"] :=
  ⟨_, rfl, rfl, rfl, rfl, rfl⟩

/-! ### The query of `Issues` (C27) and the Confluence restriction paths (C26) -/

/-- The text `Values.Encode` writes with the decimal numbers escaped, which leaves
them as they are. -/
theorem issuesParams_Encode (opts : Option IssueOptionScheme) (startAt maxResults : Int) :
    (issuesParams opts startAt maxResults).Encode = issuesQuery opts startAt maxResults := by
  have h1 := QueryEscape_Itoa startAt
  have h2 := QueryEscape_Itoa maxResults
  cases opts with
  | none =>
    have h : (issuesParams none startAt maxResults).Encode =
        "maxResults=" ++ QueryEscape (Itoa maxResults) ++ "&" ++
          ("startAt=" ++ QueryEscape (Itoa startAt)) := rfl
    rw [h, h1, h2]
    rfl
  | some o =>
    obtain ⟨vq, jql, ex, fl⟩ := o
    cases vq <;> by_cases hj : jql = "" <;> by_cases he : ex = [] <;> by_cases hf : fl = [] <;>
      simp only [issuesParams, issuesQuery, issuesQueryWith, ne_eq, hj, he, hf,
        not_true_eq_false, not_false_eq_true, if_true, if_false, Bool.not_true, Bool.not_false,
        Bool.false_eq_true, List.nil_append, List.append_nil, List.cons_append,
        List.singleton_append] <;>
      (conv_rhs => rw [← h1, ← h2]) <;>
      rfl

/-- The method `Issues` with a sprint id and a client is the run from `NewRequest`
on, for the path with the encoded values. -/
theorem Issues_run (models : ModelTypes) (i : internalSprintImpl (Option ServiceClient))
    (c : ServiceClient) (ctx : Option Context) (sprintID : Int)
    (opts : Option IssueOptionScheme) (startAt maxResults : Int) (hClient : i.c = some c)
    (hID : sprintID ≠ 0) :
    internalSprintImpl.Issues models i ctx sprintID opts startAt maxResults =
      requestThenDecode (some c) ctx "GET"
        ("rest/agile/" ++ i.version ++ "/sprint/" ++ Itoa sprintID ++ "/issue?" ++
          issuesQuery opts startAt maxResults) none (.struct models.SprintIssuePageScheme) := by
  rw [← issuesParams_Encode]
  unfold internalSprintImpl.Issues
  rw [if_neg hID, hClient]
  rfl

/-- C27: `internalSprintImpl.Issues` with sprint id 0 returns `ErrNoSprintIDError`
without calling the client. With another sprint id it asks the client for exactly
one request, as its first call: a `GET` with a nil body on
`rest/agile/{version}/sprint/{sprintID}/issue?` followed by the query, which holds,
in this order, `expand` (comma-joined) when not empty, `fields` (comma-joined) when
not empty, `jql` when not empty, `maxResults`, `startAt`, and `validateQuery=false`
when the options are there and do not ask for validation; with nil options the
query is exactly `maxResults={m}&startAt={s}`. -/
theorem Issues_query (models : ModelTypes) (i : internalSprintImpl (Option ServiceClient))
    (c : ServiceClient) (ctx : Option Context) (sprintID : Int)
    (opts : Option IssueOptionScheme) (startAt maxResults : Int) :
    (sprintID = 0 →
      internalSprintImpl.Issues models i ctx sprintID opts startAt maxResults =
        ⟨[], .returns (none, none, some .ErrNoSprintIDError)⟩) ∧
    (sprintID ≠ 0 → i.c = some c →
      (internalSprintImpl.Issues models i ctx sprintID opts startAt maxResults).calls.head? =
        some (.NewRequest ctx "GET"
          ("rest/agile/" ++ i.version ++ "/sprint/" ++ Itoa sprintID ++ "/issue?" ++
            issuesQuery opts startAt maxResults) none) ∧
      (internalSprintImpl.Issues models i ctx sprintID opts startAt maxResults).calls.filter
          ClientCall.isNewRequest =
        [.NewRequest ctx "GET"
          ("rest/agile/" ++ i.version ++ "/sprint/" ++ Itoa sprintID ++ "/issue?" ++
            issuesQuery opts startAt maxResults) none]) ∧
    issuesQuery none startAt maxResults =
      "maxResults=" ++ Itoa maxResults ++ "&startAt=" ++ Itoa startAt := by
  refine ⟨?_, ?_, ?_⟩
  · intro h
    simp [internalSprintImpl.Issues, h, Traced.pure]
  · intro hID hClient
    rw [Issues_run models i c ctx sprintID opts startAt maxResults hClient hID]
    obtain ⟨h1, h2, _⟩ := request_then_decode c ctx "GET"
      ("rest/agile/" ++ i.version ++ "/sprint/" ++ Itoa sprintID ++ "/issue?" ++
        issuesQuery opts startAt maxResults) none (.struct models.SprintIssuePageScheme)
    exact ⟨h2, h1⟩
  · simp only [issuesQuery, issuesQueryWith, List.nil_append, List.append_nil, Join,
      String.append_assoc]
    rfl

/-- A run of C27: sprint 7 with a JQL text, two expansions and no validation. -/
theorem Issues_query_witness :
    (internalSprintImpl.Issues sampleModels
        ⟨some (mockClient (some sampleRequest, none) ⟨some {}, none, none⟩), "1.0"⟩ (some {}) 7
        (some { JQL := "project = KP", Expand := ["changelog", "names"] }) 0 50).calls.head? =
      some (.NewRequest (some {}) "GET"
        ("rest/agile/1.0/sprint/7/issue?" ++
          "expand=changelog%2Cnames&jql=project+%3D+KP&maxResults=50&startAt=0&validateQuery=false")
        none) :=
  ((Issues_query sampleModels
      ⟨some (mockClient (some sampleRequest, none) ⟨some {}, none, none⟩), "1.0"⟩
      (mockClient (some sampleRequest, none) ⟨some {}, none, none⟩) (some {}) 7
      (some { JQL := "project = KP", Expand := ["changelog", "names"] }) 0 50).2.1
    (by decide) rfl).1.trans rfl

/-- A string has length zero exactly when it is empty. -/
theorem length_eq_zero_iff (s : String) : s.length = 0 ↔ s = "" := by
  constructor
  · intro h
    apply String.ext
    exact List.length_eq_zero.mp h
  · intro h
    rw [h]
    rfl

/-- The calls of a run of a Confluence method from `newRequest` on: the first is
the call of `newRequest`, and it is the only one of its kind. -/
theorem requestThenCall_calls {R : Type} (client : ConfluenceClient R) (ctx : Option Context)
    (method endpoint : String) :
    (requestThenCall client ctx method endpoint).calls.head? =
      some (.NewRequest ctx method endpoint none) ∧
    (requestThenCall client ctx method endpoint).calls.filter ClientCall.isNewRequest =
      [.NewRequest ctx method endpoint none] := by
  unfold requestThenCall
  cases hN : client.newRequest ctx method endpoint none with
  | panics => simp [Traced.bind, ClientCall.isNewRequest]
  | returns r =>
    obtain ⟨request, err⟩ := r
    cases err with
    | some err => simp [Traced.bind, Traced.pure, ClientCall.isNewRequest]
    | none =>
      cases hC : client.Call request none with
      | panics => simp [Traced.bind, Traced.pure, ClientCall.isNewRequest, hC]
      | returns r2 =>
        obtain ⟨response, err2⟩ := r2
        cases err2 <;> simp [Traced.bind, Traced.pure, ClientCall.isNewRequest, hC]

/-- The path the three methods build is the path of the documentation. -/
theorem restriction_endpoint (uuid : UUIDPackage) (contentID operationKey groupNameOrID : String) :
    (match uuid.Parse groupNameOrID with
      | .ok groupID =>
        "rest/api/content/" ++ contentID ++ "/restriction/byOperation/" ++ operationKey ++ "/" ++
          ("byGroupId/" ++ uuid.String groupID)
      | .error _ =>
        "rest/api/content/" ++ contentID ++ "/restriction/byOperation/" ++ operationKey ++ "/" ++
          ("group/" ++ groupNameOrID)) =
      restrictionPath uuid contentID operationKey groupNameOrID := by
  unfold restrictionPath
  cases uuid.Parse groupNameOrID with
  | ok groupID =>
    simp only [String.append_assoc]
    rfl
  | error e =>
    simp only [String.append_assoc]
    rfl

/-- C26: `ContentRestrictionOperationGroupService.Get`, `Add` and `Remove` reject
an empty content id, operation key or group, in that order, with
`ErrNoContentIDError`, `ErrNoContentRestrictionKeyError` and
`ErrNoConfluenceGroupError`, a nil envelope and no call of the client. With all
three given they ask the client for exactly one request, as their first call, with
a nil body, on the same relative path and with the methods `GET`, `PUT` and
`DELETE`: `rest/api/content/{contentID}/restriction/byOperation/{operationKey}/`
followed by `byGroupId/` and the UUID as it prints when the group parses as a UUID,
and by `group/{groupNameOrID}` otherwise. -/
theorem restriction_requests {R : Type} (uuid : UUIDPackage)
    (c : ContentRestrictionOperationGroupService R) (ctx : Option Context)
    (contentID operationKey groupNameOrID : String) :
    (contentID = "" →
      c.Get uuid ctx contentID operationKey groupNameOrID =
        ⟨[], .returns (none, some .ErrNoContentIDError)⟩ ∧
      c.Add uuid ctx contentID operationKey groupNameOrID =
        ⟨[], .returns (none, some .ErrNoContentIDError)⟩ ∧
      c.Remove uuid ctx contentID operationKey groupNameOrID =
        ⟨[], .returns (none, some .ErrNoContentIDError)⟩) ∧
    (contentID ≠ "" → operationKey = "" →
      c.Get uuid ctx contentID operationKey groupNameOrID =
        ⟨[], .returns (none, some .ErrNoContentRestrictionKeyError)⟩ ∧
      c.Add uuid ctx contentID operationKey groupNameOrID =
        ⟨[], .returns (none, some .ErrNoContentRestrictionKeyError)⟩ ∧
      c.Remove uuid ctx contentID operationKey groupNameOrID =
        ⟨[], .returns (none, some .ErrNoContentRestrictionKeyError)⟩) ∧
    (contentID ≠ "" → operationKey ≠ "" → groupNameOrID = "" →
      c.Get uuid ctx contentID operationKey groupNameOrID =
        ⟨[], .returns (none, some .ErrNoConfluenceGroupError)⟩ ∧
      c.Add uuid ctx contentID operationKey groupNameOrID =
        ⟨[], .returns (none, some .ErrNoConfluenceGroupError)⟩ ∧
      c.Remove uuid ctx contentID operationKey groupNameOrID =
        ⟨[], .returns (none, some .ErrNoConfluenceGroupError)⟩) ∧
    (contentID ≠ "" → operationKey ≠ "" → groupNameOrID ≠ "" →
      ((c.Get uuid ctx contentID operationKey groupNameOrID).calls.head? =
          some (.NewRequest ctx "GET"
            (restrictionPath uuid contentID operationKey groupNameOrID) none) ∧
        (c.Get uuid ctx contentID operationKey groupNameOrID).calls.filter
            ClientCall.isNewRequest =
          [.NewRequest ctx "GET"
            (restrictionPath uuid contentID operationKey groupNameOrID) none]) ∧
      ((c.Add uuid ctx contentID operationKey groupNameOrID).calls.head? =
          some (.NewRequest ctx "PUT"
            (restrictionPath uuid contentID operationKey groupNameOrID) none) ∧
        (c.Add uuid ctx contentID operationKey groupNameOrID).calls.filter
            ClientCall.isNewRequest =
          [.NewRequest ctx "PUT"
            (restrictionPath uuid contentID operationKey groupNameOrID) none]) ∧
      ((c.Remove uuid ctx contentID operationKey groupNameOrID).calls.head? =
          some (.NewRequest ctx "DELETE"
            (restrictionPath uuid contentID operationKey groupNameOrID) none) ∧
        (c.Remove uuid ctx contentID operationKey groupNameOrID).calls.filter
            ClientCall.isNewRequest =
          [.NewRequest ctx "DELETE"
            (restrictionPath uuid contentID operationKey groupNameOrID) none])) := by
  refine ⟨?_, ?_, ?_, ?_⟩
  · intro h
    simp [ContentRestrictionOperationGroupService.Get,
      ContentRestrictionOperationGroupService.Add,
      ContentRestrictionOperationGroupService.Remove, h, Traced.pure]
  · intro h1 h2
    have h1l : ¬ contentID.length = 0 := fun h => h1 ((length_eq_zero_iff _).1 h)
    simp [ContentRestrictionOperationGroupService.Get,
      ContentRestrictionOperationGroupService.Add,
      ContentRestrictionOperationGroupService.Remove, h1l, h2, Traced.pure]
  · intro h1 h2 h3
    have h1l : ¬ contentID.length = 0 := fun h => h1 ((length_eq_zero_iff _).1 h)
    have h2l : ¬ operationKey.length = 0 := fun h => h2 ((length_eq_zero_iff _).1 h)
    simp [ContentRestrictionOperationGroupService.Get,
      ContentRestrictionOperationGroupService.Add,
      ContentRestrictionOperationGroupService.Remove, h1l, h2l, h3, Traced.pure]
  · intro h1 h2 h3
    have h1l : ¬ contentID.length = 0 := fun h => h1 ((length_eq_zero_iff _).1 h)
    have h2l : ¬ operationKey.length = 0 := fun h => h2 ((length_eq_zero_iff _).1 h)
    have h3l : ¬ groupNameOrID.length = 0 := fun h => h3 ((length_eq_zero_iff _).1 h)
    have hG : c.Get uuid ctx contentID operationKey groupNameOrID =
        requestThenCall c.client ctx "GET"
          (restrictionPath uuid contentID operationKey groupNameOrID) := by
      rw [← restriction_endpoint]
      unfold ContentRestrictionOperationGroupService.Get
      rw [if_neg h1l, if_neg h2l, if_neg h3l]
      rfl
    have hA : c.Add uuid ctx contentID operationKey groupNameOrID =
        requestThenCall c.client ctx "PUT"
          (restrictionPath uuid contentID operationKey groupNameOrID) := by
      rw [← restriction_endpoint]
      unfold ContentRestrictionOperationGroupService.Add
      rw [if_neg h1l, if_neg h2l, if_neg h3l]
      rfl
    have hR : c.Remove uuid ctx contentID operationKey groupNameOrID =
        requestThenCall c.client ctx "DELETE"
          (restrictionPath uuid contentID operationKey groupNameOrID) := by
      rw [← restriction_endpoint]
      unfold ContentRestrictionOperationGroupService.Remove
      rw [if_neg h1l, if_neg h2l, if_neg h3l]
      rfl
    rw [hG, hA, hR]
    exact ⟨requestThenCall_calls _ _ _ _, requestThenCall_calls _ _ _ _,
      requestThenCall_calls _ _ _ _⟩

/-- A run of C26 with `github.com/google/uuid`: a group id written in capital
letters is requested in small letters, and a group name as it is. -/
theorem restriction_requests_witness :
    ((⟨mockConfluence (some sampleRequest, none) (some {}, none)⟩ :
        ContentRestrictionOperationGroupService ResponseScheme).Add googleUUID (some {})
        "8832" "read" "27B3A5A4-3E5C-4B7A-9F0E-2C1D5A6B7C8D").calls.head? =
      some (.NewRequest (some {}) "PUT"
        ("rest/api/content/8832/restriction/byOperation/read/byGroupId/" ++
          "27b3a5a4-3e5c-4b7a-9f0e-2c1d5a6b7c8d") none) ∧
    ((⟨mockConfluence (some sampleRequest, none) (some {}, none)⟩ :
        ContentRestrictionOperationGroupService ResponseScheme).Remove googleUUID (some {})
        "8832" "read" "scrum-masters").calls.head? =
      some (.NewRequest (some {}) "DELETE"
        "rest/api/content/8832/restriction/byOperation/read/group/scrum-masters" none) :=
  ⟨((restriction_requests googleUUID _ (some {}) "8832" "read"
      "27B3A5A4-3E5C-4B7A-9F0E-2C1D5A6B7C8D").2.2.2 (by decide) (by decide)
      (by decide)).2.1.1.trans rfl,
   ((restriction_requests googleUUID _ (some {}) "8832" "read"
      "scrum-masters").2.2.2 (by decide) (by decide) (by decide)).2.2.1.trans rfl⟩

end GoAtlassian
